import Mathlib

/-!
Covalent indexer: connection slots and the acknowledged-delivery loop
=====================================================================

A shallow embedding of `covalent_indexer.go` (package `covalent`) with the properties of its
delivery engine, of the helpers of `process/utility/utils.go`, and of the data processor of
`process/` with its block, mini block, transaction, smart contract result, log and account
processors.

Conventions of the embedding
----------------------------

* A connection (`process.WSConn`) is an object identity.  What its methods return is decided by
  the surroundings (`Env`), as a function of everything that happened so far, so a connection
  may answer differently at every call.
* The indexer (`covalentIndexer`) is a record of its two slots, of the two unbuffered channels
  `newConnectionWSS` / `newConnectionWSR`, and of the history of observable events (`trace`,
  newest event first).  A channel is represented by the number of `SetWS…` callers parked on
  its send: `SetWSSender` ends with `ci.newConnectionWSS <- struct{}{}`, which completes only
  when `waitForWSSConnection` receives.
* `SaveBlock` / `sendWithRetrial` run in one goroutine, the delivering one; `SetWSSender`,
  `SetWSReceiver` and `Close` are called from others.  The locked section of a setter is atomic
  for the delivering goroutine.  Before each of its steps the delivering goroutine passes a
  scheduling point (`yield`), at which the calls that `Env.arrivals` lists for the current
  clock value take effect.  Since the schedule is arbitrary, a statement for all `Env` holds for
  all interleavings.
* A receive from a new-connection channel completes at once when a caller is parked on the
  send; otherwise the calls scheduled at that point are what happens while the goroutine is
  parked, and if none of them is a call of the matching setter the goroutine stays parked for
  ever.  A run that stays parked is reported as such (`Status.blocked`, result `none` of an
  attempt), together with the state reached.
* The ticker loop never ends by itself, so `sendWithRetrial` takes the number of ticks for
  which the run is observed and reports `Status.ticking` when the loop is still running then.

Conventions for the data processors (packages `utility`, `block`, `miniblocks`,
`transactions`, `logs`, `accounts`, `process`)
--------------------------------------------------------------------------------------------

* Unsigned machine integers are natural numbers and signed ones are integers; a conversion
  between them is written out (`int64`, `int32`).  A `*big.Int` is an `Option Int`.
* A value of an interface type of gn-core (`data.HeaderHandler`, `data.BodyHandler`,
  `data.TransactionHandler`) is given by its dynamic type, as far as the processors assert
  it, and by what its methods return.  A marshaller, a hasher and a public key converter are
  the functions that their methods compute.  The header of a block and the elements of the
  slices of a body are not nil.
* The accounts adapter and the accounts that it hands out are objects with a state: what
  `LoadAccount`, `GetBalance` and `GetNonce` return is a function of the calls made on them so
  far (`AccountCall`, newest first), and `ProcessAccounts` takes that history and returns it
  with the calls it made.
* A function that returns a pointer or a slice together with an error returns a pair, with
  `none` for nil; an internal function that returns either a value or an error returns an
  `Except`.  Where a run-time panic is possible by the typing alone (an index expression), the
  result has an `Option` around it, and `none` is the panic.
* A map with string keys is the list of its entries, the key being the bytes of the string.
  A lookup finds the first entry with the key, and a `range` visits the entries that lookups
  find, in the order of the list, which stands for the order that the run time picks.
* Go's `math/big`, `fmt`, `encoding/hex` and the Avro binary format of go-avro are not part of
  the sources; they are written down here by what they compute.
-/

namespace covalent

/-- A Go byte slice, compared by content as `bytes.Equal` does. -/
abbrev Bytes := List Nat

/-- Identity of a connection object. -/
abbrev Conn := Nat

/-- An interface value of type `process.WSConn`; `none` is `nil`. -/
abbrev WSConn := Option Conn

/-- A Go `error`; `none` is `nil`. -/
abbrev Error := Option String

/-- Frame kind constant `websocket.BinaryMessage` of gorilla/websocket. -/
def websocket.BinaryMessage : Int := 2

/-- Frame kind constant `websocket.TextMessage` of gorilla/websocket. -/
def websocket.TextMessage : Int := 1

/-- Interval of the retry ticker, in milliseconds. -/
def RetrialTimeoutMS : Nat := 50

/-- Observable happenings, recorded in the history of the indexer. -/
inductive Event where
  /-- The call `c.WriteMessage(messageType, data)` was made and returned `err`. -/
  | WriteMessage (c : Conn) (messageType : Int) (data : Bytes) (err : Error)
  /-- The call `c.ReadMessage()` was made and returned `(messageType, p, err)`. -/
  | ReadMessage (c : Conn) (messageType : Int) (p : Bytes) (err : Error)
  /-- The call `c.Close()` was made and returned `err`. -/
  | Close (c : Conn) (err : Error)
  /-- The call `ci.server.Close()` was made and returned `err`. -/
  | ServerClose (err : Error)
  /-- The assignment `ci.wss = wss` inside `SetWSSender`. -/
  | setWSS (wss : WSConn)
  /-- The assignment `ci.wsr = wsr` inside `SetWSReceiver`. -/
  | setWSR (wsr : WSConn)
  /-- The delivering goroutine called `getWSS()` and got `wss`. -/
  | getWSS (wss : WSConn)
  /-- The delivering goroutine called `getWSR()` and got `wsr`. -/
  | getWSR (wsr : WSConn)
  /-- The delivering goroutine received from `newConnectionWSS`. -/
  | recvWSS
  /-- The delivering goroutine received from `newConnectionWSR`. -/
  | recvWSR
  /-- The delivering goroutine received from `ticker.C`. -/
  | tick
  deriving DecidableEq, Repr

/-- A call made on the indexer by a goroutine other than the delivering one. -/
inductive Call where
  | SetWSSender (wss : WSConn)
  | SetWSReceiver (wsr : WSConn)
  | Close
  deriving DecidableEq, Repr

/-- The surroundings of the indexer: what the connections answer, given the history so far
(newest event first), and which calls other goroutines make at each scheduling point. -/
structure Env where
  WriteMessage : List Event → Conn → Int → Bytes → Error
  ReadMessage : List Event → Conn → Int × Bytes × Error
  Close : List Event → Conn → Error
  serverClose : List Event → Error
  arrivals : Nat → List Call

/-- The struct `covalentIndexer`.  `newConnectionWSS` / `newConnectionWSR` count the callers
of `SetWSSender` / `SetWSReceiver` parked on the send to the unbuffered channel of that name.
`server` tells whether the `*http.Server` is non-nil.  `clock` counts the scheduling points
passed and `trace` is the history, newest event first. -/
structure covalentIndexer where
  server : Bool
  wss : WSConn
  wsr : WSConn
  newConnectionWSS : Nat
  newConnectionWSR : Nat
  clock : Nat
  trace : List Event
  deriving DecidableEq, Repr

namespace covalentIndexer

/-- Append an event to the history. -/
def record (ci : covalentIndexer) (e : Event) : covalentIndexer :=
  { ci with trace := e :: ci.trace }

/-- The indexer right after `NewCovalentDataIndexer` succeeded. -/
def new : covalentIndexer :=
  { server := true, wss := none, wsr := none, newConnectionWSS := 0, newConnectionWSR := 0,
    clock := 0, trace := [] }

/-- Source `getWSS`: the sender slot, read under the read lock. -/
def getWSS (ci : covalentIndexer) : WSConn := ci.wss

/-- Source `getWSR`: the receiver slot, read under the read lock. -/
def getWSR (ci : covalentIndexer) : WSConn := ci.wsr

/-- Source `SetWSSender`.  The locked section closes the held connection, if any, and assigns
the slot; the caller is then parked on `ci.newConnectionWSS <- struct{}{}`. -/
def SetWSSender (env : Env) (wss : WSConn) (ci : covalentIndexer) : covalentIndexer :=
  let ci :=
    match ci.wss with
    | some old => ci.record (.Close old (env.Close ci.trace old))
    | none => ci
  let ci := { ci with wss := wss, trace := .setWSS wss :: ci.trace }
  { ci with newConnectionWSS := ci.newConnectionWSS + 1 }

/-- Source `SetWSReceiver`.  The locked section closes the held connection, if any, and assigns
the slot; the caller is then parked on `ci.newConnectionWSR <- struct{}{}`. -/
def SetWSReceiver (env : Env) (wsr : WSConn) (ci : covalentIndexer) : covalentIndexer :=
  let ci :=
    match ci.wsr with
    | some old => ci.record (.Close old (env.Close ci.trace old))
    | none => ci
  let ci := { ci with wsr := wsr, trace := .setWSR wsr :: ci.trace }
  { ci with newConnectionWSR := ci.newConnectionWSR + 1 }

/-- Source `Close`: closes the connections found in the two slots, then the server. -/
def Close (env : Env) (ci : covalentIndexer) : Error × covalentIndexer :=
  let wss := ci.getWSS
  let wsr := ci.getWSR
  let ci :=
    match wss with
    | some c => ci.record (.Close c (env.Close ci.trace c))
    | none => ci
  let ci :=
    match wsr with
    | some c => ci.record (.Close c (env.Close ci.trace c))
    | none => ci
  if ci.server then
    let err := env.serverClose ci.trace
    (err, ci.record (.ServerClose err))
  else
    (none, ci)

/-- One call of another goroutine taking effect. -/
def runCall (env : Env) (ci : covalentIndexer) : Call → covalentIndexer
  | .SetWSSender wss => ci.SetWSSender env wss
  | .SetWSReceiver wsr => ci.SetWSReceiver env wsr
  | .Close => (ci.Close env).2

/-- A scheduling point of the delivering goroutine: the calls of the other goroutines scheduled
at the current clock value take effect, in order. -/
def yield (env : Env) (ci : covalentIndexer) : covalentIndexer :=
  let ci' := (env.arrivals ci.clock).foldl (runCall env) ci
  { ci' with clock := ci'.clock + 1 }

/-- The delivering goroutine evaluates `ci.getWSS()`. -/
def callGetWSS (env : Env) (ci : covalentIndexer) : WSConn × covalentIndexer :=
  let ci := ci.yield env
  (ci.getWSS, ci.record (.getWSS ci.getWSS))

/-- The delivering goroutine evaluates `ci.getWSR()`. -/
def callGetWSR (env : Env) (ci : covalentIndexer) : WSConn × covalentIndexer :=
  let ci := ci.yield env
  (ci.getWSR, ci.record (.getWSR ci.getWSR))

/-- Source `waitForWSSConnection`: receive from `newConnectionWSS`.  The calls scheduled at this
point are all that happens while the goroutine is parked; if afterwards no `SetWSSender` caller
is parked on the send, the receive never completes (`false`).  Otherwise one parked caller is
released. -/
def waitForWSSConnection (env : Env) (ci : covalentIndexer) : Bool × covalentIndexer :=
  let ci := ci.yield env
  if ci.newConnectionWSS = 0 then (false, ci)
  else (true, { ci with newConnectionWSS := ci.newConnectionWSS - 1, trace := .recvWSS :: ci.trace })

/-- Source `waitForWSRConnection`: receive from `newConnectionWSR`, as `waitForWSSConnection`. -/
def waitForWSRConnection (env : Env) (ci : covalentIndexer) : Bool × covalentIndexer :=
  let ci := ci.yield env
  if ci.newConnectionWSR = 0 then (false, ci)
  else (true, { ci with newConnectionWSR := ci.newConnectionWSR - 1, trace := .recvWSR :: ci.trace })

/-- The delivering goroutine calls `wss.WriteMessage(messageType, data)`. -/
def callWriteMessage (env : Env) (wss : Conn) (messageType : Int) (data : Bytes)
    (ci : covalentIndexer) : Error × covalentIndexer :=
  let ci := ci.yield env
  let err := env.WriteMessage ci.trace wss messageType data
  (err, ci.record (.WriteMessage wss messageType data err))

/-- The delivering goroutine calls `wsr.ReadMessage()`. -/
def callReadMessage (env : Env) (wsr : Conn) (ci : covalentIndexer) :
    (Int × Bytes × Error) × covalentIndexer :=
  let ci := ci.yield env
  let r := env.ReadMessage ci.trace wsr
  (r, ci.record (.ReadMessage wsr r.1 r.2.1 r.2.2))

/-- The delivering goroutine receives from `ticker.C`. -/
def awaitTick (env : Env) (ci : covalentIndexer) : covalentIndexer :=
  (ci.yield env).record .tick

/-- Source `sendDataWithAcknowledge`.  The result is `none` when the goroutine stays parked in
one of the two waits, and otherwise the returned boolean. -/
def sendDataWithAcknowledge (env : Env) (data ackData : Bytes) (wss wsr : Conn)
    (ci : covalentIndexer) : Option Bool × covalentIndexer :=
  let (errSend, ci) := ci.callWriteMessage env wss websocket.BinaryMessage data
  match (if errSend ≠ none then ci.waitForWSSConnection env else (true, ci)) with
  | (false, ci) => (none, ci)
  | (true, ci) =>
    let ((msgType, receivedData, errReadData), ci) := ci.callReadMessage env wsr
    match (if errReadData ≠ none then ci.waitForWSRConnection env else (true, ci)) with
    | (false, ci) => (none, ci)
    | (true, ci) =>
      if errSend = none ∧ errReadData = none ∧ msgType = websocket.BinaryMessage then
        if receivedData = ackData then (some true, ci) else (some false, ci)
      else (some false, ci)

/-- How far a run of `sendWithRetrial` got. -/
inductive Status where
  /-- The call returned. -/
  | returned
  /-- The goroutine is parked for ever on a receive from a new-connection channel. -/
  | blocked
  /-- The goroutine is still in the ticker loop after the given number of ticks. -/
  | ticking
  deriving DecidableEq, Repr

/-- The `for { select { case <-ticker.C: … } }` loop of `sendWithRetrial`, for at most
`ticks` ticks. -/
def retrialLoop (env : Env) (data ackData : Bytes) : Nat → covalentIndexer → Status × covalentIndexer
  | 0, ci => (.ticking, ci)
  | ticks + 1, ci =>
    let ci := ci.awaitTick env
    let (wss, ci) := ci.callGetWSS env
    let (wsr, ci) := ci.callGetWSR env
    match wss, wsr with
    | some wss, some wsr =>
      match ci.sendDataWithAcknowledge env data ackData wss wsr with
      | (some true, ci) => (.returned, ci)
      | (some false, ci) => retrialLoop env data ackData ticks ci
      | (none, ci) => (.blocked, ci)
    | _, _ => retrialLoop env data ackData ticks ci

/-- Source `sendWithRetrial`, observed for at most `ticks` ticks of the ticker. -/
def sendWithRetrial (env : Env) (ticks : Nat) (data ackData : Bytes) (ci : covalentIndexer) :
    Status × covalentIndexer :=
  let (wss, ci) := ci.callGetWSS env
  let (wsr, ci) := ci.callGetWSR env
  match (if wss = none then ci.waitForWSSConnection env else (true, ci)) with
  | (false, ci) => (.blocked, ci)
  | (true, ci) =>
    match (if wsr = none then ci.waitForWSRConnection env else (true, ci)) with
    | (false, ci) => (.blocked, ci)
    | (true, ci) => retrialLoop env data ackData ticks ci

end covalentIndexer

/-- The part of `schema.Block` that `SaveBlock` reads. -/
structure Block where
  Hash : Bytes
  deriving DecidableEq, Repr

/-- The part of `*schema.BlockResult` that `SaveBlock` reads: the pointer `Block`. -/
structure BlockResult where
  Block : Option Block
  deriving DecidableEq, Repr

/-- How far a run of `SaveBlock` got. -/
inductive Outcome where
  /-- The call returned the given error value. -/
  | returned (err : Error)
  /-- The call panicked. -/
  | panicked
  /-- The goroutine is parked for ever on a receive from a new-connection channel. -/
  | blocked
  /-- The goroutine is still in the ticker loop after the given number of ticks. -/
  | ticking
  deriving DecidableEq, Repr

/-- Source `SaveBlock`.  `processor` is `ci.processor.ProcessData` and `Encode` is
`utility.Encode`, both returning a value (a nil pointer is `none`) and an error. -/
def covalentIndexer.SaveBlock {α : Type} (env : Env) (ticks : Nat)
    (processor : α → Option BlockResult × Error) (Encode : Option BlockResult → Bytes × Error)
    (args : α) (ci : covalentIndexer) : Outcome × covalentIndexer :=
  match processor args with
  | (_, some _) => (.panicked, ci)
  | (blockResult, none) =>
    match Encode blockResult with
    | (_, some _) => (.panicked, ci)
    | (dataToSend, none) =>
      match blockResult.bind BlockResult.Block with
      | none => (.panicked, ci)
      | some block =>
        match ci.sendWithRetrial env ticks dataToSend block.Hash with
        | (.returned, ci) => (.returned none, ci)
        | (.blocked, ci) => (.blocked, ci)
        | (.ticking, ci) => (.ticking, ci)

/-! ## Reading the history -/

/-- Calls made on a connection to move data: `WriteMessage` and `ReadMessage`. -/
def Event.isIO : Event → Bool
  | .WriteMessage _ _ _ _ => true
  | .ReadMessage _ _ _ _ => true
  | _ => false

/-- The `WriteMessage` / `ReadMessage` calls of a history, newest first. -/
def io (t : List Event) : List Event := t.filter Event.isIO

/-- Number of `WriteMessage` calls in a history. -/
def writes (t : List Event) : Nat :=
  t.countP fun e => match e with
    | .WriteMessage _ _ _ _ => true
    | _ => false

/-- Number of `ReadMessage` calls in a history. -/
def reads (t : List Event) : Nat :=
  t.countP fun e => match e with
    | .ReadMessage _ _ _ _ => true
    | _ => false

/-- Number of `ReadMessage` calls made on connection `c` in a history. -/
def readsOn (c : Conn) (t : List Event) : Nat :=
  t.countP fun e => match e with
    | .ReadMessage c' _ _ _ => c' = c
    | _ => false

/-- Number of `Close` calls made on connection `c` in a history. -/
def closesOf (c : Conn) (t : List Event) : Nat :=
  t.countP fun e => match e with
    | .Close c' _ => c' = c
    | _ => false

/-- The second half of `sendDataWithAcknowledge`: the read, the receiver wait and the check,
given the result `errSend` of the write. -/
def readAndCheck (env : Env) (ackData : Bytes) (wsr : Conn) (errSend : Error)
    (ci : covalentIndexer) : Option Bool × covalentIndexer :=
  let ((msgType, receivedData, errReadData), ci) := ci.callReadMessage env wsr
  match (if errReadData ≠ none then ci.waitForWSRConnection env else (true, ci)) with
  | (false, ci) => (none, ci)
  | (true, ci) =>
    if errSend = none ∧ errReadData = none ∧ msgType = websocket.BinaryMessage then
      if receivedData = ackData then (some true, ci) else (some false, ci)
    else (some false, ci)

/-- The start of one iteration of the ticker loop: the tick and the two slot reads. -/
def tickSnapshot (env : Env) (ci : covalentIndexer) : WSConn × WSConn × covalentIndexer :=
  let ci := ci.awaitTick env
  let (wss, ci) := ci.callGetWSS env
  let (wsr, ci) := ci.callGetWSR env
  (wss, wsr, ci)

/-- Surroundings in which no other goroutine ever calls the indexer, every `WriteMessage`
returns `write`, every `ReadMessage` returns `read` and every `Close` succeeds. -/
def quietEnv (write : Error) (read : Int × Bytes × Error) : Env :=
  { WriteMessage := fun _ _ _ _ => write
    ReadMessage := fun _ _ => read
    Close := fun _ _ => none
    serverClose := fun _ => none
    arrivals := fun _ => [] }

/-- The indexer after one undisturbed tick in which the payload was written on `s` and the
frame `p` was read from `r`, both without error. -/
def afterRoundTrip (s r : Conn) (data p : Bytes) (ci : covalentIndexer) : covalentIndexer :=
  { ci with
    clock := ci.clock + 5
    trace := .ReadMessage r websocket.BinaryMessage p none ::
      .WriteMessage s websocket.BinaryMessage data none ::
      .getWSR (some r) :: .getWSS (some s) :: .tick :: ci.trace }

/-- Surroundings in which no other goroutine ever calls the indexer, every `WriteMessage`
succeeds, and a connection answers the binary frame `bad` to its first `n` reads and the binary
frame `ack` afterwards. -/
def mismatchEnv (n : Nat) (bad ack : Bytes) : Env :=
  { WriteMessage := fun _ _ _ _ => none
    ReadMessage := fun t c =>
      if readsOn c t < n then (websocket.BinaryMessage, bad, none)
      else (websocket.BinaryMessage, ack, none)
    Close := fun _ _ => none
    serverClose := fun _ => none
    arrivals := fun _ => [] }

/-- Events produced by the delivering goroutine (all but the effects of the calls made by
other goroutines). -/
def Event.byDelivery : Event → Bool
  | .Close _ _ => false
  | .ServerClose _ => false
  | .setWSS _ => false
  | .setWSR _ => false
  | _ => true

/-- The events of the delivering goroutine in a history, newest first. -/
def deliveryEvents (t : List Event) : List Event := t.filter Event.byDelivery

/-- Some `SetWSSender` call has installed a non-nil connection. -/
def installedWSS (t : List Event) : Bool :=
  t.any fun e => match e with
    | .setWSS (some _) => true
    | _ => false

/-- Some `SetWSReceiver` call has installed a non-nil connection. -/
def installedWSR (t : List Event) : Bool :=
  t.any fun e => match e with
    | .setWSR (some _) => true
    | _ => false

/-- Every `WriteMessage` / `ReadMessage` call of the history was made after a sender and a
receiver connection had been installed. -/
def ioAfterInstall : List Event → Bool
  | [] => true
  | e :: t => (!e.isIO || (installedWSS t && installedWSR t)) && ioAfterInstall t

/-- The slots and the history agree: a held connection was installed by a `SetWS…` call of the
history, and no write or read of the history precedes the installation of both connections.
Holds of `covalentIndexer.new`. -/
def covalentIndexer.Consistent (ci : covalentIndexer) : Prop :=
  (ci.wss ≠ none → installedWSS ci.trace = true) ∧
  (ci.wsr ≠ none → installedWSR ci.trace = true) ∧
  ioAfterInstall ci.trace = true

/-- Consistency together with what is known to be installed: a sender when `a` is true, a
receiver when `b` is true. -/
def Carries (a b : Bool) (ci : covalentIndexer) : Prop :=
  ci.Consistent ∧ (a = true → installedWSS ci.trace = true) ∧
    (b = true → installedWSR ci.trace = true)

/-- Surroundings in which a sender `10` and a receiver `20` are installed while the delivering
goroutine is at its third scheduling point (the initial sender wait of `sendWithRetrial`); every write
succeeds and every read answers the binary frame `[7]`. -/
def lateEnv : Env :=
  { WriteMessage := fun _ _ _ _ => none
    ReadMessage := fun _ _ => (websocket.BinaryMessage, [7], none)
    Close := fun _ _ => none
    serverClose := fun _ => none
    arrivals := fun k => if k = 2 then [.SetWSSender (some 10), .SetWSReceiver (some 20)] else [] }

/-- Number of assignments made by `SetWSReceiver` in a history. -/
def installsWSR (t : List Event) : Nat :=
  t.countP fun e => match e with
    | .setWSR _ => true
    | _ => false

/-- The indexer after the two slot reads at the start of `sendWithRetrial`, when both slots are
held and no other goroutine interferes. -/
def afterSlotReads (s r : Conn) (ci : covalentIndexer) : covalentIndexer :=
  { ci with clock := ci.clock + 2, trace := .getWSR (some r) :: .getWSS (some s) :: ci.trace }

/-- Surroundings of the reconnection scenario: writes succeed, reads on connection `20` fail,
reads on any other connection answer the binary frame `[7]`, and the only call of another
goroutine is `SetWSReceiver(21)`, taking effect at the eighth scheduling point. -/
def reconnectEnv : Env :=
  { WriteMessage := fun _ _ _ _ => none
    ReadMessage := fun _ c =>
      if c = 20 then (0, [], some "read message error") else (websocket.BinaryMessage, [7], none)
    Close := fun _ _ => none
    serverClose := fun _ => none
    arrivals := fun k => if k = 7 then [.SetWSReceiver (some 21)] else [] }

/-- A fresh indexer on which `SetWSSender(10)` and then `SetWSReceiver(20)` were called before
any delivery began; both callers are parked on their channel send. -/
def installedBefore : covalentIndexer :=
  (covalentIndexer.new.SetWSSender (quietEnv none (0, [], some "read message error"))
    (some 10)).SetWSReceiver (quietEnv none (0, [], some "read message error")) (some 20)

/-- A sequence of calls made one after the other on the indexer. -/
def runCalls (env : Env) (calls : List Call) (ci : covalentIndexer) : covalentIndexer :=
  calls.foldl (covalentIndexer.runCall env) ci

/-- Number of times connection `c` is installed by a sequence of calls. -/
def installsOf (c : Conn) (calls : List Call) : Nat :=
  calls.countP fun x => match x with
    | .SetWSSender w => w = some c
    | .SetWSReceiver w => w = some c
    | .Close => false

/-- Number of slots that hold connection `c`. -/
def held (c : Conn) (ci : covalentIndexer) : Nat :=
  (if ci.wss = some c then 1 else 0) + (if ci.wsr = some c then 1 else 0)

/-! ## Construction, and further readings of the history -/

/-- The error value `ErrNilDataHandler` of `errors.go`, by its message. -/
def ErrNilDataHandler : String := "received nil input value: data handler"

/-- The error value `ErrNilHTTPServer` of `errors.go`, by its message. -/
def ErrNilHTTPServer : String := "received nil input value: http server"

/-- Source `NewCovalentDataIndexer`.  `processor` and `server` are the two arguments, `none`
standing for nil; the result is the pointer to the new indexer (`none` for nil) and the error.
The goroutine started by `go ci.start()` only serves HTTP and is not part of the record. -/
def NewCovalentDataIndexer {π σ : Type} (processor : Option π) (server : Option σ) :
    Option covalentIndexer × Error :=
  match processor with
  | none => (none, some ErrNilDataHandler)
  | some _ =>
    match server with
    | none => (none, some ErrNilHTTPServer)
    | some _ => (some covalentIndexer.new, none)

/-- What `SaveBlock` reports when `sendWithRetrial` got as far as the given status: after the
delivery returned, `SaveBlock` executes `return nil`. -/
def covalentIndexer.Status.toOutcome : covalentIndexer.Status → Outcome
  | .returned => .returned none
  | .blocked => .blocked
  | .ticking => .ticking

/-- The connections on which a history records a `Close` call, newest first. -/
def closedConns (t : List Event) : List Conn :=
  t.filterMap fun e => match e with
    | .Close c _ => some c
    | _ => none

/-- The slots and channel counters of an indexer, without clock and history. -/
def slotState (ci : covalentIndexer) : WSConn × WSConn × Nat × Nat :=
  (ci.wss, ci.wsr, ci.newConnectionWSS, ci.newConnectionWSR)

/-- Number of `SetWSSender` calls in a sequence of calls. -/
def senderCalls (calls : List Call) : Nat :=
  calls.countP fun x => match x with
    | .SetWSSender _ => true
    | _ => false

/-- Number of `SetWSReceiver` calls in a sequence of calls. -/
def receiverCalls (calls : List Call) : Nat :=
  calls.countP fun x => match x with
    | .SetWSReceiver _ => true
    | _ => false

/-- Surroundings in which no other goroutine ever calls the indexer, every `WriteMessage`
returns `write`, every `ReadMessage` returns `read` and every `Close` returns `close`. -/
def closingEnv (write : Error) (read : Int × Bytes × Error) (close : Error) : Env :=
  { WriteMessage := fun _ _ _ _ => write
    ReadMessage := fun _ _ => read
    Close := fun _ _ => close
    serverClose := fun _ => some "http: Server closed"
    arrivals := fun _ => [] }

/-- Number of completed receives from a new-connection channel in a history: the released
calls of `waitForWSSConnection` and `waitForWSRConnection`. -/
def waits (t : List Event) : Nat :=
  t.countP fun e => match e with
    | .recvWSS => true
    | .recvWSR => true
    | _ => false

/-! ## Package `utility`: slices of hexadecimal strings and of unsigned integers -/

/-- The error `hex.ErrLength` of Go's `encoding/hex`, by its message. -/
def hex.ErrLength : String := "encoding/hex: odd length hex string"

/-- The error `hex.InvalidByteError` of Go's `encoding/hex`; the message names the offending
character (without the code point that Go prints before it). -/
def hex.InvalidByteError (c : Char) : String :=
  "encoding/hex: invalid byte: " ++ String.singleton c

/-- Value of a hexadecimal digit: `fromHexChar` of Go's `encoding/hex`. -/
def hex.fromHexChar (c : Char) : Option Nat :=
  if '0' ≤ c ∧ c ≤ '9' then some (c.toNat - '0'.toNat)
  else if 'a' ≤ c ∧ c ≤ 'f' then some (c.toNat - 'a'.toNat + 10)
  else if 'A' ≤ c ∧ c ≤ 'F' then some (c.toNat - 'A'.toNat + 10)
  else none

/-- The loop of `hex.Decode` of Go's `encoding/hex` over the characters of the source: two
digits give one byte; the first invalid character, or else an odd length, gives the error. -/
def hex.Decode : List Char → Bytes × Error
  | [] => ([], none)
  | [p] =>
    match hex.fromHexChar p with
    | none => ([], some (hex.InvalidByteError p))
    | some _ => ([], some hex.ErrLength)
  | p :: q :: rest =>
    match hex.fromHexChar p, hex.fromHexChar q with
    | none, _ => ([], some (hex.InvalidByteError p))
    | some _, none => ([], some (hex.InvalidByteError q))
    | some a, some b =>
      let (out, err) := hex.Decode rest
      ((a * 16 + b) :: out, err)

/-- The function `hex.DecodeString` of Go's `encoding/hex`: the bytes decoded before the first
error, and the error. -/
def hex.DecodeString (s : String) : Bytes × Error := hex.Decode s.data

/-- The loop of `HexSliceToByteSlice` over the elements of a non-nil input. -/
def utility.decodeAll : List String → Option (List Bytes) × Error
  | [] => (some [], none)
  | s :: rest =>
    match hex.DecodeString s with
    | (_, some err) => (none, some err)
    | (tmp, none) =>
      match utility.decodeAll rest with
      | (some out, none) => (some (tmp :: out), none)
      | (_, err) => (none, err)

/-- Source `HexSliceToByteSlice`; a nil slice is `none`. -/
def utility.HexSliceToByteSlice (input : Option (List String)) : Option (List Bytes) × Error :=
  match input with
  | none => (none, none)
  | some l => utility.decodeAll l

/-- The hexadecimal digits, as the spec understands a valid hexadecimal string. -/
def isHexDigit (c : Char) : Prop := c ∈ "0123456789abcdefABCDEF".data

instance isHexDigit.decidable (c : Char) : Decidable (isHexDigit c) :=
  inferInstanceAs (Decidable (c ∈ "0123456789abcdefABCDEF".data))

/-- A valid even-length hexadecimal string. -/
def validHex (s : String) : Prop := s.data.length % 2 = 0 ∧ ∀ c ∈ s.data, isHexDigit c

instance validHex.decidable (s : String) : Decidable (validHex s) :=
  inferInstanceAs (Decidable (s.data.length % 2 = 0 ∧ ∀ c ∈ s.data, isHexDigit c))

/-- The lower-case hexadecimal digit of a value below 16: `hextable` of Go's `encoding/hex`. -/
def hex.hextable (v : Nat) : Char := "0123456789abcdef".data.getD v '0'

/-- The function `hex.EncodeToString` of Go's `encoding/hex`, as a list of characters: two
lower-case digits per byte. -/
def hex.EncodeToString (b : Bytes) : List Char :=
  b.flatMap fun v => [hex.hextable (v / 16), hex.hextable (v % 16)]

/-- The bytes `b` are the hexadecimal decoding of the string `s`: encoding them gives back `s`,
up to the case of the digits. -/
def isHexDecodingOf (b : Bytes) (s : String) : Prop :=
  (∀ v ∈ b, v < 256) ∧ hex.EncodeToString b = s.data.map Char.toLower

/-- The Go conversion `int64(u)` of a `uint64` value `u`: the 64 bits of `u` read in two's
complement, that is the representative of `u` modulo `2 ^ 64` in the signed range. -/
def int64 (u : Nat) : Int := Int.bmod (u : Int) (2 ^ 64)

/-- Source `UIntSliceToIntSlice`; a nil slice is `none`. -/
def utility.UIntSliceToIntSlice (input : Option (List Nat)) : Option (List Int) :=
  match input with
  | none => none
  | some l => some (l.map int64)


/-! ## Package `utility`: big integers and the address of the metachain shard -/

/-- The loop of `nat.bytes` of Go's `math/big`: the base 256 digits of `n`, most significant
first, put in front of `acc`; `fuel` bounds the number of digits. -/
def big.bytesAux : Nat → Nat → Bytes → Bytes
  | 0, _, acc => acc
  | fuel + 1, n, acc => if n = 0 then acc else big.bytesAux fuel (n / 256) (n % 256 :: acc)

/-- The method `(*big.Int).Bytes` of Go's `math/big` on a non-nil receiver of value `v`: the
big-endian bytes of the absolute value of `v`, without leading zero bytes. -/
def big.Int.Bytes (v : Int) : Bytes := big.bytesAux v.natAbs v.natAbs []

/-- The function `big.NewInt` of Go's `math/big`, on an `int64` argument. -/
def big.NewInt (x : Int) : Int := x

/-- Source `GetBytes`; a nil `*big.Int` is `none`. -/
def utility.GetBytes (val : Option Int) : Bytes :=
  match val with
  | some v => big.Int.Bytes v
  | none => big.Int.Bytes (big.NewInt 0)

/-- The number that a sequence of bytes denotes when read most significant byte first. -/
def bigEndianValue (b : Bytes) : Nat := b.foldl (fun acc x => acc * 256 + x) 0

/-- The bytes `b` are the minimal big-endian encoding of `n`: every element is a byte, read most
significant first they denote `n`, and the first of them is not zero. -/
def isMinimalBigEndian (b : Bytes) (n : Nat) : Prop :=
  (∀ x ∈ b, x < 256) ∧ bigEndianValue b = n ∧ b.head? ≠ some 0

/-- Modelled from the spec: the constant `core.MetachainShardId` of gn-core is not under the
sources; its value is the largest `uint32`, 4294967295. -/
def core.MetachainShardId : Nat := 4294967295

/-- The Go expression `make([]byte, n)`: `n` zero bytes. -/
def makeBytes (n : Nat) : Bytes := List.replicate n 0

/-- The Go expression `fmt.Sprintf("%d", n)` for an unsigned `n`: its decimal digits. -/
def fmt.Sprintf_d (n : Nat) : List Char := Nat.toDigits 10 n

/-- The bytes of a Go string of ASCII characters. -/
def stringBytes (s : List Char) : Bytes := s.map Char.toNat

/-- The Go builtin `copy(dst, src)`, as the new content of `dst`: as many elements as both
slices have are copied from `src`, the rest of `dst` stays. -/
def copy (dst src : Bytes) : Bytes := src.take dst.length ++ dst.drop src.length

/-- Source `MetaChainShardAddress`. -/
def utility.MetaChainShardAddress : Bytes :=
  let ret := makeBytes 62
  copy ret (stringBytes (fmt.Sprintf_d core.MetachainShardId))

/-! ## Package `utility`: the Avro binary form of an account balance update -/

/-- Modelled from the spec: the record `AccountBalanceUpdate` of package `schema` (generated
Avro code that is not under the sources), with the fields that `processAccount` and the tests
fill: `Address` is an Avro `fixed` of 62 bytes, `Balance` is Avro `bytes`, `Nonce` is an Avro
`long`. -/
structure schema.AccountBalanceUpdate where
  Address : Bytes
  Balance : Bytes
  Nonce : Int
  deriving DecidableEq, Repr

/-- The empty record `&schema.AccountBalanceUpdate{}`. -/
def schema.AccountBalanceUpdate.empty : schema.AccountBalanceUpdate :=
  { Address := [], Balance := [], Nonce := 0 }

/-- Modelled from the spec: go-avro is not under the sources; this is the zig-zag coding of an
Avro `long` in its binary encoder, `(x << 1) ^ (x >> 63)` on 64 bits read as unsigned, which is
`2 * x` for a non-negative `x` and `-2 * x - 1` for a negative one. -/
def avro.zigzag (x : Int) : Nat := if 0 ≤ x then (2 * x).toNat else (-2 * x - 1).toNat

/-- Modelled from the spec: go-avro is not under the sources; this is the inverse of the
zig-zag coding in its binary decoder, `(v >> 1) ^ -(v & 1)` read as `int64`. -/
def avro.unzigzag (v : Nat) : Int :=
  if v % 2 = 0 then ((v / 2 : Nat) : Int) else -((v / 2 : Nat) : Int) - 1

/-- Modelled from the spec: go-avro is not under the sources; this is the variable-length form
of an unsigned value in the Avro binary format, seven bits per byte, least significant group
first, the high bit set on every byte but the last.  `fuel` bounds the number of bytes after
the first. -/
def avro.varintAux : Nat → Nat → Bytes
  | 0, x => [x]
  | fuel + 1, x => if x < 128 then [x] else (x % 128 + 128) :: avro.varintAux fuel (x / 128)

/-- Modelled from the spec: go-avro is not under the sources; this is the variable-length form
of a `uint64`, at most ten bytes. -/
def avro.encodeVarint (x : Nat) : Bytes := avro.varintAux 9 x

/-- Modelled from the spec: `WriteLong` of the binary encoder of go-avro (not under the
sources), after the Avro binary format. -/
def avro.WriteLong (x : Int) : Bytes := avro.encodeVarint (avro.zigzag x)

/-- Modelled from the spec: `WriteBytes` of the binary encoder of go-avro (not under the
sources), after the Avro binary format: the length as a `long`, then the bytes. -/
def avro.WriteBytes (b : Bytes) : Bytes := avro.WriteLong (b.length : Int) ++ b

/-- Modelled from the spec: the loop of `ReadLong` of the binary decoder of go-avro (not under
the sources): `fuel` bytes may still be read, `offset` were read; the groups of seven bits
are put together in 64 bits.  The result is the value and the bytes that remain; `none` is an
error (more than ten bytes, or the end of the buffer). -/
def avro.readVarint : Nat → Nat → Bytes → Option (Nat × Bytes)
  | 0, _, _ => none
  | _ + 1, _, [] => none
  | fuel + 1, offset, b :: rest =>
    let value := (b % 128) * 2 ^ (7 * offset) % 2 ^ 64
    if b < 128 then some (value, rest)
    else
      match avro.readVarint fuel (offset + 1) rest with
      | none => none
      | some (v, rest) => some (value + v, rest)

/-- Modelled from the spec: `ReadLong` of the binary decoder of go-avro (not under the
sources). -/
def avro.ReadLong (buf : Bytes) : Option (Int × Bytes) :=
  match avro.readVarint 10 0 buf with
  | none => none
  | some (v, rest) => some (avro.unzigzag v, rest)

/-- Modelled from the spec: `ReadBytes` of the binary decoder of go-avro (not under the
sources): a length, which must not be negative, and as many bytes, which must be there. -/
def avro.ReadBytes (buf : Bytes) : Option (Bytes × Bytes) :=
  match avro.ReadLong buf with
  | none => none
  | some (length, rest) =>
    if length < 0 then none
    else if rest.length < length.toNat then none
    else some (rest.take length.toNat, rest.drop length.toNat)

/-- Modelled from the spec: `ReadFixed` of the binary decoder of go-avro (not under the
sources) into a slice of `size` bytes. -/
def avro.ReadFixed (size : Nat) (buf : Bytes) : Option (Bytes × Bytes) :=
  if buf.length < size then none else some (buf.take size, buf.drop size)

/-- The error with which the Avro writer refuses a value that does not fit its schema. -/
def avro.ErrInvalidValue : String := "Invalid fixed value"

/-- The error of the Avro reader, whichever it is. -/
def avro.ErrRead : String := "avro: cannot read the datum"

/-- Source `Encode`, on a record of schema `AccountBalanceUpdate`: the writer checks that the
`fixed` field has the size of the schema, 62, and writes the three fields one after the
other. -/
def utility.Encode (record : schema.AccountBalanceUpdate) : Option Bytes × Error :=
  if record.Address.length ≠ 62 then (none, some avro.ErrInvalidValue)
  else (some (record.Address ++ avro.WriteBytes record.Balance ++ avro.WriteLong record.Nonce),
    none)

/-- Source `Decode`, on a record of schema `AccountBalanceUpdate`: the reader fills the fields
of `record` one after the other from `buffer` and stops at the first error.  The result is the
record as the call leaves it, and the error. -/
def utility.Decode (record : schema.AccountBalanceUpdate) (buffer : Bytes) :
    schema.AccountBalanceUpdate × Error :=
  match avro.ReadFixed 62 buffer with
  | none => (record, some avro.ErrRead)
  | some (address, rest) =>
    let record := { record with Address := address }
    match avro.ReadBytes rest with
    | none => (record, some avro.ErrRead)
    | some (balance, rest) =>
      let record := { record with Balance := balance }
      match avro.ReadLong rest with
      | none => (record, some avro.ErrRead)
      | some (nonce, _) => ({ record with Nonce := nonce }, none)

/-- The record of the test `TestEncodeDecode`, with a fixed address in place of a random one. -/
def sampleAccountBalanceUpdate : schema.AccountBalanceUpdate :=
  { Address := List.replicate 62 7
    Balance := big.Int.Bytes (big.NewInt 1000)
    Nonce := 444 }

/-! ## Headers, bodies and the records of package `schema` -/

/-- The Go conversion `int32(u)` of an unsigned value `u`: its low 32 bits read in two's
complement. -/
def int32 (u : Nat) : Int := Int.bmod (u : Int) (2 ^ 32)

/-- The Go builtin `len` on a slice that may be nil. -/
def len {α : Type} (s : Option (List α)) : Nat :=
  match s with
  | none => 0
  | some l => l.length

/-- The Go index expression `s[i]` with an `int64` index; `none` is the run-time panic for an
index out of range. -/
def index {α : Type} (s : Option (List α)) (i : Int) : Option α :=
  match s with
  | none => none
  | some l => if i < 0 then none else l.get? i.toNat

/-- What the methods of a `data.HeaderHandler` of gn-core return, for the methods that the
processors call. -/
structure data.HeaderMethods where
  GetNonce : Nat
  GetRound : Nat
  GetEpoch : Nat
  GetPubKeysBitmap : Bytes
  GetTimeStamp : Nat
  GetRootHash : Bytes
  GetPrevHash : Bytes
  GetShardID : Nat
  GetTxCount : Nat
  GetAccumulatedFees : Option Int
  GetDeveloperFees : Option Int
  IsStartOfEpochBlock : Bool
  deriving DecidableEq, Repr

/-- The struct `block.Economics` of gn-core, the field `EpochStart.Economics` of a meta
block. -/
structure moaBlock.Economics where
  TotalSupply : Option Int
  TotalToDistribute : Option Int
  TotalNewlyMinted : Option Int
  RewardsPerBlock : Option Int
  RewardsForProtocolSustainability : Option Int
  NodePrice : Option Int
  PrevEpochStartRound : Nat
  PrevEpochStartHash : Bytes
  deriving DecidableEq, Repr

/-- A value of interface type `data.HeaderHandler`: a `*block.MetaBlock`, of which the
processors also read the economics of the epoch start, or a header of another type. -/
inductive data.HeaderHandler where
  | MetaBlock (methods : data.HeaderMethods) (economics : moaBlock.Economics)
  | other (methods : data.HeaderMethods)
  deriving DecidableEq, Repr

/-- The methods of a header, whatever its type. -/
def data.HeaderHandler.methods : data.HeaderHandler → data.HeaderMethods
  | .MetaBlock methods _ => methods
  | .other methods => methods

/-- Whether the header is a `*block.MetaBlock`. -/
def data.HeaderHandler.isMetaBlock : data.HeaderHandler → Bool
  | .MetaBlock _ _ => true
  | .other _ => false

/-- The economics of the epoch start, for a `*block.MetaBlock`. -/
def data.HeaderHandler.economics : data.HeaderHandler → Option moaBlock.Economics
  | .MetaBlock _ economics => some economics
  | .other _ => none

/-- The struct `block.MiniBlock` of gn-core; `Type_` is its field `Type`, a `block.Type`, which
is an `int32`. -/
structure moaBlock.MiniBlock where
  TxHashes : List Bytes
  ReceiverShardID : Nat
  SenderShardID : Nat
  Type_ : Int
  deriving DecidableEq, Repr

/-- The struct `block.Body` of gn-core. -/
structure moaBlock.Body where
  MiniBlocks : List moaBlock.MiniBlock
  deriving DecidableEq, Repr

/-- A value of interface type `data.BodyHandler`: nil, a `*block.Body`, or a value of another
type. -/
inductive data.BodyHandler where
  | nil
  | Body (body : moaBlock.Body)
  | other
  deriving DecidableEq, Repr

/-- Whether the type assertion `body.(*block.Body)` succeeds. -/
def data.BodyHandler.isBody : data.BodyHandler → Bool
  | .Body _ => true
  | _ => false

/-- A value handed to `Marshal`. -/
inductive marshal.Object where
  | header (h : data.HeaderHandler)
  | body (b : data.BodyHandler)
  | miniBlock (mb : moaBlock.MiniBlock)
  deriving DecidableEq, Repr

/-- The method `Marshal` of a `marshal.Marshalizer`. -/
abbrev marshal.Marshalizer := marshal.Object → Bytes × Error

/-- The method `Compute` of a `hashing.Hasher`. -/
abbrev hashing.Hasher := Bytes → Bytes

/-- Modelled from the spec: the function `core.CalculateHash` of gn-core (not under the
sources), called with a marshaller and a hasher that are not nil: the hash of the marshalled
object, or the error of the marshaller. -/
def core.CalculateHash (marshaller : marshal.Marshalizer) (hasher : hashing.Hasher)
    (object : marshal.Object) : Except String Bytes :=
  match marshaller object with
  | (_, some err) => .error err
  | (mrsData, none) => .ok (hasher mrsData)

/-- Source `ErrBlockBodyAssertion`. -/
def ErrBlockBodyAssertion : String := "error asserting BodyHandler interface of type block body"

/-- The record `schema.MiniBlock`; `Type_` is its field `Type`. -/
structure schema.MiniBlock where
  Hash : Bytes
  TxHashes : List Bytes
  SenderShardID : Int
  ReceiverShardID : Int
  Type_ : Int
  Timestamp : Int
  deriving DecidableEq, Repr

/-- The record `schema.EpochStartInfo`. -/
structure schema.EpochStartInfo where
  TotalSupply : Bytes
  TotalToDistribute : Bytes
  TotalNewlyMinted : Bytes
  RewardsPerBlock : Bytes
  RewardsForProtocolSustainability : Bytes
  NodePrice : Bytes
  PrevEpochStartRound : Int
  PrevEpochStartHash : Bytes
  deriving DecidableEq, Repr

/-- The record `schema.Block`; a nil slice or pointer is `none`. -/
structure schema.Block where
  Nonce : Int
  Round : Int
  Epoch : Int
  Hash : Bytes
  MiniBlocks : Option (List schema.MiniBlock)
  NotarizedBlocksHashes : Option (List Bytes)
  Proposer : Int
  Validators : Option (List Int)
  PubKeysBitmap : Bytes
  Size : Int
  Timestamp : Int
  StateRootHash : Bytes
  PrevHash : Bytes
  ShardID : Int
  TxCount : Int
  AccumulatedFees : Bytes
  DeveloperFees : Bytes
  EpochStartBlock : Bool
  EpochStartInfo : Option schema.EpochStartInfo
  deriving DecidableEq, Repr

/-! ## Transactions, pools and logs of gn-core -/

/-- The part of `transaction.Transaction` of gn-core that the processors read through its
getters; a nil slice is `none` in the fields that the processors may leave nil. -/
structure transaction.Transaction where
  Nonce : Nat
  Value : Option Int
  RcvAddr : Bytes
  SndAddr : Bytes
  GasPrice : Nat
  GasLimit : Nat
  Data : Option Bytes
  Signature : Option Bytes
  SndUserName : Option Bytes
  RcvUserName : Option Bytes
  deriving DecidableEq, Repr

/-- The part of `rewardTx.RewardTx` of gn-core that the processors read through its getters. -/
structure rewardTx.RewardTx where
  Round : Nat
  Value : Option Int
  RcvAddr : Bytes
  deriving DecidableEq, Repr

/-- The part of `smartContractResult.SmartContractResult` of gn-core that the processors read
through its getters. -/
structure smartContractResult.SmartContractResult where
  Nonce : Nat
  GasLimit : Nat
  GasPrice : Nat
  Value : Option Int
  SndAddr : Bytes
  RcvAddr : Bytes
  RelayerAddr : Bytes
  RelayedValue : Option Int
  Code : Bytes
  Data : Bytes
  PrevTxHash : Bytes
  OriginalTxHash : Bytes
  CallType : Nat
  CodeMetadata : Bytes
  ReturnMessage : Bytes
  deriving DecidableEq, Repr

/-- The part of `receipt.Receipt` of gn-core that the processors read through its getters. -/
structure receipt.Receipt where
  Value : Option Int
  SndAddr : Bytes
  Data : Bytes
  TxHash : Bytes
  deriving DecidableEq, Repr

/-- A value of interface type `data.TransactionHandler`, by its dynamic type: a pointer to one
of the four structs that the processors assert, or anything else (nil included). -/
inductive data.TransactionHandler where
  | Transaction (tx : transaction.Transaction)
  | RewardTx (tx : rewardTx.RewardTx)
  | SmartContractResult (scr : smartContractResult.SmartContractResult)
  | Receipt (rec : receipt.Receipt)
  | other
  deriving DecidableEq, Repr

/-- A Go `map[string]data.TransactionHandler`, as its entries; the key of an entry is the
bytes of the string, and a lookup finds the first entry with the key. -/
abbrev TxMap := List (Bytes × data.TransactionHandler)

/-- What the methods of a `data.EventHandler` of gn-core return. -/
structure data.EventHandler where
  GetAddress : Bytes
  GetIdentifier : Bytes
  GetTopics : List Bytes
  GetData : Bytes
  deriving DecidableEq, Repr

/-- What the methods of a `data.LogHandler` of gn-core return; an event for which
`check.IfNil` holds is `none`. -/
structure data.LogHandler where
  GetAddress : Bytes
  GetLogEvents : List (Option data.EventHandler)
  deriving DecidableEq, Repr

/-- The struct `data.LogData` of gn-core; a `LogHandler` for which `check.IfNil` holds is
`none`, and `TxHash` is a string, given by its bytes. -/
structure data.LogData where
  LogHandler : Option data.LogHandler
  TxHash : Bytes
  deriving DecidableEq, Repr

/-- The struct `indexer.Pool` of gn-core; a nil map is `none`, and a nil pointer in `Logs` is
`none`. -/
structure indexer.Pool where
  Txs : Option TxMap
  Scrs : Option TxMap
  Rewards : Option TxMap
  Invalid : Option TxMap
  Receipts : Option TxMap
  Logs : List (Option data.LogData)
  deriving DecidableEq, Repr

/-! ## Package `miniblocks` -/

/-- The struct `miniBlocksProcessor`. -/
structure miniBlocksProcessor where
  hasher : hashing.Hasher
  marshaller : marshal.Marshalizer

/-- Source `processMiniBlock`. -/
def miniBlocksProcessor.processMiniBlock (mbp : miniBlocksProcessor)
    (miniBlock : moaBlock.MiniBlock) (header : data.HeaderHandler) :
    Except String schema.MiniBlock :=
  match core.CalculateHash mbp.marshaller mbp.hasher (.miniBlock miniBlock) with
  | .error err => .error err
  | .ok miniBlockHash =>
    .ok { Hash := miniBlockHash
          TxHashes := miniBlock.TxHashes
          SenderShardID := int32 miniBlock.SenderShardID
          ReceiverShardID := int32 miniBlock.ReceiverShardID
          Type_ := miniBlock.Type_
          Timestamp := int64 header.methods.GetTimeStamp }

/-- The loop of `ProcessMiniBlocks` over the mini blocks that remain, `miniBlocks` being the
slice built so far. -/
def miniBlocksProcessor.processAll (mbp : miniBlocksProcessor) (header : data.HeaderHandler) :
    List moaBlock.MiniBlock → List schema.MiniBlock → List schema.MiniBlock
  | [], miniBlocks => miniBlocks
  | mb :: rest, miniBlocks =>
    match mbp.processMiniBlock mb header with
    | .error _ => miniBlocksProcessor.processAll mbp header rest miniBlocks
    | .ok miniBlock => miniBlocksProcessor.processAll mbp header rest (miniBlocks ++ [miniBlock])

/-- Source `ProcessMiniBlocks`. -/
def miniBlocksProcessor.ProcessMiniBlocks (mbp : miniBlocksProcessor)
    (header : data.HeaderHandler) (body : data.BodyHandler) :
    Option (List schema.MiniBlock) × Error :=
  match body with
  | .Body moaBody => (some (mbp.processAll header moaBody.MiniBlocks []), none)
  | _ => (none, some ErrBlockBodyAssertion)

/-! ## Package `block` -/

/-- The part of `indexer.ArgsSaveBlockData` of gn-core that the processors read; a nil
`TransactionsPool` is `none`. -/
structure indexer.ArgsSaveBlockData where
  HeaderHash : Bytes
  Body : data.BodyHandler
  Header : data.HeaderHandler
  SignersIndexes : Option (List Nat)
  NotarizedHeadersHashes : Option (List String)
  TransactionsPool : Option indexer.Pool
  deriving DecidableEq, Repr

/-- Source `ProposerIndex`. -/
def ProposerIndex : Int := 0

/-- The struct `blockProcessor`; `miniBlocksHandler` is the method `ProcessMiniBlocks` of the
handler. -/
structure blockProcessor where
  marshaller : marshal.Marshalizer
  miniBlocksHandler : data.HeaderHandler → data.BodyHandler →
    Option (List schema.MiniBlock) × Error

/-- Source `computeBlockSize`. -/
def blockProcessor.computeBlockSize (bp : blockProcessor) (header : data.HeaderHandler)
    (body : data.BodyHandler) : Int × Error :=
  match bp.marshaller (.header header) with
  | (_, some err) => (0, some err)
  | (headerBytes, none) =>
    match bp.marshaller (.body body) with
    | (_, some err) => (0, some err)
    | (bodyBytes, none) =>
      let blockSize := headerBytes.length + bodyBytes.length
      (int64 blockSize, none)

/-- Source `getProposerIndex`; `none` is the panic of an index out of range. -/
def getProposerIndex (signersIndexes : Option (List Nat)) : Option Int :=
  if len signersIndexes > 0 then (index signersIndexes ProposerIndex).map int64
  else some ProposerIndex

/-- Source `getEpochStartInfo`. -/
def getEpochStartInfo (header : data.HeaderHandler) : Option schema.EpochStartInfo :=
  if header.methods.GetShardID ≠ core.MetachainShardId then none
  else
    match header with
    | .other _ => none
    | .MetaBlock metaHeader economics =>
      if !metaHeader.IsStartOfEpochBlock then none
      else
        some { TotalSupply := utility.GetBytes economics.TotalSupply
               TotalToDistribute := utility.GetBytes economics.TotalToDistribute
               TotalNewlyMinted := utility.GetBytes economics.TotalNewlyMinted
               RewardsPerBlock := utility.GetBytes economics.RewardsPerBlock
               RewardsForProtocolSustainability :=
                 utility.GetBytes economics.RewardsForProtocolSustainability
               NodePrice := utility.GetBytes economics.NodePrice
               PrevEpochStartRound := int32 economics.PrevEpochStartRound
               PrevEpochStartHash := economics.PrevEpochStartHash }

/-- Source `ProcessBlock`.  The outer `none` is a panic; otherwise the result is the pointer
to the block (`none` is nil) and the error. -/
def blockProcessor.ProcessBlock (bp : blockProcessor) (args : indexer.ArgsSaveBlockData) :
    Option (Option schema.Block × Error) :=
  match bp.computeBlockSize args.Header args.Body with
  | (_, some err) => some (none, some err)
  | (blockSizeInBytes, none) =>
    match bp.miniBlocksHandler args.Header args.Body with
    | (_, some err) => some (none, some err)
    | (miniBlocks, none) =>
      match utility.HexSliceToByteSlice args.NotarizedHeadersHashes with
      | (_, some err) => some (none, some err)
      | (notarizedBlockHashes, none) =>
        let header := args.Header.methods
        match getProposerIndex args.SignersIndexes with
        | none => none
        | some proposer =>
          some (some { Nonce := int64 header.GetNonce
                       Round := int64 header.GetRound
                       Epoch := int32 header.GetEpoch
                       Hash := args.HeaderHash
                       MiniBlocks := miniBlocks
                       NotarizedBlocksHashes := notarizedBlockHashes
                       Proposer := proposer
                       Validators := utility.UIntSliceToIntSlice args.SignersIndexes
                       PubKeysBitmap := header.GetPubKeysBitmap
                       Size := blockSizeInBytes
                       Timestamp := int64 header.GetTimeStamp
                       StateRootHash := header.GetRootHash
                       PrevHash := header.GetPrevHash
                       ShardID := int32 header.GetShardID
                       TxCount := int32 header.GetTxCount
                       AccumulatedFees := utility.GetBytes header.GetAccumulatedFees
                       DeveloperFees := utility.GetBytes header.GetDeveloperFees
                       EpochStartBlock := header.IsStartOfEpochBlock
                       EpochStartInfo := getEpochStartInfo args.Header }, none)

/-! ## Package `transactions`: the transaction processor -/

/-- Modelled from the spec: the constant `block.TxBlock` of gn-core (not under the sources). -/
def moaBlock.TxBlock : Int := 0

/-- Modelled from the spec: the constant `block.SmartContractResultBlock` of gn-core (not
under the sources). -/
def moaBlock.SmartContractResultBlock : Int := 90

/-- Modelled from the spec: the constant `block.InvalidBlock` of gn-core (not under the
sources). -/
def moaBlock.InvalidBlock : Int := 120

/-- Modelled from the spec: the constant `block.RewardsBlock` of gn-core (not under the
sources). -/
def moaBlock.RewardsBlock : Int := 255

/-- The methods of a `core.PubkeyConverter`; a Go string is the list of its bytes. -/
structure core.PubkeyConverter where
  Encode : Bytes → Bytes
  Decode : Bytes → Bytes × Error

/-- Source `EncodePubKey`. -/
def utility.EncodePubKey (pubKeyConverter : core.PubkeyConverter) (pubKey : Bytes) : Bytes :=
  pubKeyConverter.Encode pubKey

/-- The record `schema.Transaction`; a nil slice is `none` in the fields for which the
processors write nil. -/
structure schema.Transaction where
  Hash : Bytes
  MiniBlockHash : Bytes
  BlockHash : Bytes
  Nonce : Int
  Round : Int
  Value : Bytes
  Receiver : Bytes
  Sender : Bytes
  ReceiverShard : Int
  SenderShard : Int
  GasPrice : Int
  GasLimit : Int
  Data : Option Bytes
  Signature : Option Bytes
  Timestamp : Int
  SenderUserName : Option Bytes
  ReceiverUserName : Option Bytes
  deriving DecidableEq, Repr

/-- The struct `transactionProcessor`. -/
structure transactionProcessor where
  hasher : hashing.Hasher
  marshaller : marshal.Marshalizer
  pubKeyConverter : core.PubkeyConverter

/-- Source `getRelevantTxPoolBasedOnMBType`. -/
def getRelevantTxPoolBasedOnMBType (miniBlock : moaBlock.MiniBlock) (pool : indexer.Pool) :
    Option TxMap :=
  if miniBlock.Type_ = moaBlock.TxBlock then pool.Txs
  else if miniBlock.Type_ = moaBlock.RewardsBlock then pool.Rewards
  else if miniBlock.Type_ = moaBlock.InvalidBlock then pool.Invalid
  else none

/-- Source `processNormalTransaction`; `none` is the nil pointer. -/
def transactionProcessor.processNormalTransaction (txp : transactionProcessor)
    (normalTx : data.TransactionHandler) (txHash miniBlockHash blockHash : Bytes)
    (miniBlock : moaBlock.MiniBlock) (header : data.HeaderHandler) :
    Option schema.Transaction :=
  match normalTx with
  | .Transaction tx =>
    some { Hash := txHash
           MiniBlockHash := miniBlockHash
           BlockHash := blockHash
           Nonce := int64 tx.Nonce
           Round := int64 header.methods.GetRound
           Value := utility.GetBytes tx.Value
           Receiver := utility.EncodePubKey txp.pubKeyConverter tx.RcvAddr
           Sender := utility.EncodePubKey txp.pubKeyConverter tx.SndAddr
           ReceiverShard := int32 miniBlock.ReceiverShardID
           SenderShard := int32 miniBlock.SenderShardID
           GasPrice := int64 tx.GasPrice
           GasLimit := int64 tx.GasLimit
           Data := tx.Data
           Signature := tx.Signature
           Timestamp := int64 header.methods.GetTimeStamp
           SenderUserName := tx.SndUserName
           ReceiverUserName := tx.RcvUserName }
  | _ => none

/-- Source `processRewardTransaction`; `none` is the nil pointer. -/
def transactionProcessor.processRewardTransaction (txp : transactionProcessor)
    (transaction : data.TransactionHandler) (txHash miniBlockHash blockHash : Bytes)
    (miniBlock : moaBlock.MiniBlock) (header : data.HeaderHandler) :
    Option schema.Transaction :=
  match transaction with
  | .RewardTx tx =>
    some { Hash := txHash
           MiniBlockHash := miniBlockHash
           BlockHash := blockHash
           Nonce := 0
           Round := int64 tx.Round
           Value := utility.GetBytes tx.Value
           Receiver := utility.EncodePubKey txp.pubKeyConverter tx.RcvAddr
           Sender := utility.MetaChainShardAddress
           ReceiverShard := int32 miniBlock.ReceiverShardID
           SenderShard := int32 miniBlock.SenderShardID
           GasPrice := 0
           GasLimit := 0
           Data := none
           Signature := none
           Timestamp := int64 header.methods.GetTimeStamp
           SenderUserName := none
           ReceiverUserName := none }
  | _ => none

/-- Source `processTransaction`. -/
def transactionProcessor.processTransaction (txp : transactionProcessor)
    (tx : data.TransactionHandler) (txHash miniBlockHash blockHash : Bytes)
    (miniBlock : moaBlock.MiniBlock) (header : data.HeaderHandler) (mbType : Int) :
    Option schema.Transaction :=
  if mbType = moaBlock.TxBlock then
    txp.processNormalTransaction tx txHash miniBlockHash blockHash miniBlock header
  else if mbType = moaBlock.RewardsBlock then
    txp.processRewardTransaction tx txHash miniBlockHash blockHash miniBlock header
  else if mbType = moaBlock.InvalidBlock then
    txp.processNormalTransaction tx txHash miniBlockHash blockHash miniBlock header
  else none

/-- The loop of `processTxsFromMiniBlock` over the hashes that remain, `txsInMiniBlock` being
the slice built so far. -/
def transactionProcessor.processHashes (txp : transactionProcessor) (transactions : TxMap)
    (miniBlockHash blockHash : Bytes) (miniBlock : moaBlock.MiniBlock)
    (header : data.HeaderHandler) (mbType : Int) :
    List Bytes → List schema.Transaction → List schema.Transaction
  | [], txsInMiniBlock => txsInMiniBlock
  | txHash :: rest, txsInMiniBlock =>
    match transactions.lookup txHash with
    | none =>
      txp.processHashes transactions miniBlockHash blockHash miniBlock header mbType rest
        txsInMiniBlock
    | some tx =>
      match txp.processTransaction tx txHash miniBlockHash blockHash miniBlock header mbType with
      | some processedTx =>
        txp.processHashes transactions miniBlockHash blockHash miniBlock header mbType rest
          (txsInMiniBlock ++ [processedTx])
      | none =>
        txp.processHashes transactions miniBlockHash blockHash miniBlock header mbType rest
          txsInMiniBlock

/-- Source `processTxsFromMiniBlock`. -/
def transactionProcessor.processTxsFromMiniBlock (txp : transactionProcessor)
    (transactions : TxMap) (miniBlock : moaBlock.MiniBlock) (header : data.HeaderHandler)
    (blockHash : Bytes) (mbType : Int) : Except String (List schema.Transaction) :=
  match core.CalculateHash txp.marshaller txp.hasher (.miniBlock miniBlock) with
  | .error err => .error err
  | .ok miniBlockHash =>
    .ok (txp.processHashes transactions miniBlockHash blockHash miniBlock header mbType
      miniBlock.TxHashes [])

/-- The loop of `ProcessTransactions` over the mini blocks that remain, `allTxs` being the
slice built so far. -/
def transactionProcessor.processMiniBlocks (txp : transactionProcessor)
    (header : data.HeaderHandler) (headerHash : Bytes) (pool : indexer.Pool) :
    List moaBlock.MiniBlock → List schema.Transaction → List schema.Transaction
  | [], allTxs => allTxs
  | currMiniBlock :: rest, allTxs =>
    match getRelevantTxPoolBasedOnMBType currMiniBlock pool with
    | none => txp.processMiniBlocks header headerHash pool rest allTxs
    | some currPool =>
      match txp.processTxsFromMiniBlock currPool currMiniBlock header headerHash
          currMiniBlock.Type_ with
      | .error _ => txp.processMiniBlocks header headerHash pool rest allTxs
      | .ok txsInCurrMB => txp.processMiniBlocks header headerHash pool rest (allTxs ++ txsInCurrMB)

/-- Source `ProcessTransactions`. -/
def transactionProcessor.ProcessTransactions (txp : transactionProcessor)
    (header : data.HeaderHandler) (headerHash : Bytes) (bodyHandler : data.BodyHandler)
    (pool : indexer.Pool) : Option (List schema.Transaction) × Error :=
  match bodyHandler with
  | .Body body => (some (txp.processMiniBlocks header headerHash pool body.MiniBlocks []), none)
  | _ => (none, some ErrBlockBodyAssertion)

/-! ## What is expected of the block processor, and sample inputs -/

/-- The proposer that is expected of a block: the first signer, converted to `int64`,
when there is one, and 0 when the signers are nil or empty. -/
def expectedProposer (signersIndexes : Option (List Nat)) : Int :=
  match signersIndexes with
  | some (first :: _) => int64 first
  | _ => 0

/-- A marshaller that succeeds on every object, as the stub of the tests does. -/
def sampleMarshaller : marshal.Marshalizer
  | .header _ => ([1, 2, 3], none)
  | .body _ => ([4, 5], none)
  | .miniBlock mb => (mb.TxHashes.flatten, none)

/-- A marshaller that fails on every object. -/
def failingMarshaller : marshal.Marshalizer := fun _ => ([], some "error marshaller stub")

/-- The hasher of the tests, with the constant hash `"ok"`. -/
def sampleHasher : hashing.Hasher := fun _ => [111, 107]

/-- The methods of the shard header of the tests. -/
def sampleHeaderMethods : data.HeaderMethods :=
  { GetNonce := 1
    GetRound := 4
    GetEpoch := 5
    GetPubKeysBitmap := [1]
    GetTimeStamp := 3
    GetRootHash := [2]
    GetPrevHash := [3]
    GetShardID := 2
    GetTxCount := 7
    GetAccumulatedFees := some 8
    GetDeveloperFees := some 9
    IsStartOfEpochBlock := true }

/-- A shard header, as in the tests. -/
def sampleHeader : data.HeaderHandler := .other sampleHeaderMethods

/-- A meta block that starts an epoch, as in the tests. -/
def sampleMetaBlock : data.HeaderHandler :=
  .MetaBlock { sampleHeaderMethods with GetShardID := core.MetachainShardId }
    { TotalSupply := some 5
      TotalToDistribute := some 6
      TotalNewlyMinted := some 7
      RewardsPerBlock := some 8
      RewardsForProtocolSustainability := some 9
      NodePrice := some 10
      PrevEpochStartRound := 11
      PrevEpochStartHash := [4] }

/-- The arguments of the tests, for a given header. -/
def sampleArgs (header : data.HeaderHandler) : indexer.ArgsSaveBlockData :=
  { HeaderHash := [9]
    Body := .Body { MiniBlocks := [] }
    Header := header
    SignersIndexes := some [1, 2, 3]
    NotarizedHeadersHashes := some ["0a", "1f"]
    TransactionsPool := none }

/-- A block processor with the succeeding marshaller and a mini block handler that returns
nil and no error, as the stub of the tests does. -/
def sampleBlockProcessor : blockProcessor :=
  { marshaller := sampleMarshaller
    miniBlocksHandler := fun _ _ => (none, none) }

/-! ## What is expected of the mini block and transaction processors -/

/-- The entry that is expected of `ProcessMiniBlocks` for a mini block of hash `hash`: the hash, and the fields of the mini block with the time stamp of the header, each
converted to the type of the record. -/
def expectedMiniBlock (header : data.HeaderHandler) (mb : moaBlock.MiniBlock) (hash : Bytes) :
    schema.MiniBlock :=
  { Hash := hash
    TxHashes := mb.TxHashes
    SenderShardID := int32 mb.SenderShardID
    ReceiverShardID := int32 mb.ReceiverShardID
    Type_ := mb.Type_
    Timestamp := int64 header.methods.GetTimeStamp }

/-- The hash of a mini block, when its computation succeeds. -/
def hashOf (marshaller : marshal.Marshalizer) (hasher : hashing.Hasher)
    (mb : moaBlock.MiniBlock) : Option Bytes :=
  match core.CalculateHash marshaller hasher (.miniBlock mb) with
  | .ok hash => some hash
  | .error _ => none

/-- The pool that the type of a mini block selects: `Txs` for `TxBlock`, `Rewards` for
`RewardsBlock`, `Invalid` for `InvalidBlock`, none for any other type. -/
def selectedPool (pool : indexer.Pool) (mbType : Int) : Option TxMap :=
  if mbType = moaBlock.TxBlock then pool.Txs
  else if mbType = moaBlock.RewardsBlock then pool.Rewards
  else if mbType = moaBlock.InvalidBlock then pool.Invalid
  else none

/-- The entry of the selected pool under a hash, if there is a selected pool and it has one. -/
def selectedEntry (pool : indexer.Pool) (mb : moaBlock.MiniBlock) (txHash : Bytes) :
    Option data.TransactionHandler :=
  (selectedPool pool mb.Type_).bind fun transactions => transactions.lookup txHash

/-- The concrete type of a pool entry matches the type of the mini block: a `Transaction` in a
`TxBlock` or an `InvalidBlock`, a `RewardTx` in a `RewardsBlock`. -/
def matchesType (mbType : Int) : data.TransactionHandler → Bool
  | .Transaction _ => mbType = moaBlock.TxBlock ∨ mbType = moaBlock.InvalidBlock
  | .RewardTx _ => mbType = moaBlock.RewardsBlock
  | _ => false

/-- A mini block of a type other than `TxBlock`, `RewardsBlock` and `InvalidBlock`. -/
def otherType (mb : moaBlock.MiniBlock) : Bool :=
  mb.Type_ ≠ moaBlock.TxBlock ∧ mb.Type_ ≠ moaBlock.RewardsBlock ∧
    mb.Type_ ≠ moaBlock.InvalidBlock

/-- The hash is present in the pool that the type of the mini block selects, with an entry of
the matching type. -/
def present (pool : indexer.Pool) (mb : moaBlock.MiniBlock) (txHash : Bytes) : Bool :=
  match selectedEntry pool mb txHash with
  | some tx => matchesType mb.Type_ tx
  | none => false

/-- The four cases in which a transaction hash of a mini block gives no output: the mini block
has another type, the computation of its hash fails, the hash is absent from the selected
pool, the entry of the pool has a type that does not match. -/
def skipped (txp : transactionProcessor) (pool : indexer.Pool) (mb : moaBlock.MiniBlock)
    (txHash : Bytes) : Bool :=
  otherType mb ∨ hashOf txp.marshaller txp.hasher mb = none ∨
    selectedEntry pool mb txHash = none ∨
    ∃ tx ∈ selectedEntry pool mb txHash, matchesType mb.Type_ tx = false

/-- The output transaction `t` carries the hash and the shard IDs of the mini block `mb`. -/
def carriesMiniBlock (txp : transactionProcessor) (mb : moaBlock.MiniBlock)
    (t : schema.Transaction) : Prop :=
  hashOf txp.marshaller txp.hasher mb = some t.MiniBlockHash ∧
    t.SenderShard = int32 mb.SenderShardID ∧ t.ReceiverShard = int32 mb.ReceiverShardID

/-- A public key converter, as the stub of the tests: the prefix `"moa1"` before the key. -/
def samplePubKeyConverter : core.PubkeyConverter :=
  { Encode := fun pkBytes => [109, 111, 97, 49] ++ pkBytes
    Decode := fun _ => ([], none) }

/-- A transaction processor as in the tests. -/
def sampleTransactionProcessor : transactionProcessor :=
  { hasher := sampleHasher
    marshaller := sampleMarshaller
    pubKeyConverter := samplePubKeyConverter }

/-- A transaction processor whose marshaller fails. -/
def failingTransactionProcessor : transactionProcessor :=
  { hasher := sampleHasher
    marshaller := failingMarshaller
    pubKeyConverter := samplePubKeyConverter }

/-- A mini block processor as in the tests. -/
def sampleMiniBlocksProcessor : miniBlocksProcessor :=
  { hasher := sampleHasher
    marshaller := sampleMarshaller }

/-- A transaction. -/
def sampleTransaction : transaction.Transaction :=
  { Nonce := 1
    Value := some 2
    RcvAddr := [3]
    SndAddr := [4]
    GasPrice := 5
    GasLimit := 6
    Data := some [7]
    Signature := some [8]
    SndUserName := none
    RcvUserName := none }

/-- A reward transaction. -/
def sampleRewardTx : rewardTx.RewardTx :=
  { Round := 9
    Value := some 10
    RcvAddr := [11] }

/-- A body with a mini block of transactions and one of rewards, as in the tests. -/
def sampleBody : moaBlock.Body :=
  { MiniBlocks :=
      [ { TxHashes := [[120], [121]], ReceiverShardID := 1, SenderShardID := 2,
          Type_ := moaBlock.TxBlock },
        { TxHashes := [[122]], ReceiverShardID := 3, SenderShardID := 4,
          Type_ := moaBlock.RewardsBlock } ] }

/-- A pool that has every hash of `sampleBody` with the matching type. -/
def samplePool : indexer.Pool :=
  { Txs := some [([120], .Transaction sampleTransaction), ([121], .Transaction sampleTransaction)]
    Scrs := none
    Rewards := some [([122], .RewardTx sampleRewardTx)]
    Invalid := none
    Receipts := none
    Logs := [] }

/-- The transactions that one mini block adds to the output of `ProcessTransactions`: one
round of its loop. -/
def transactionProcessor.contribution (txp : transactionProcessor)
    (header : data.HeaderHandler) (headerHash : Bytes) (pool : indexer.Pool)
    (mb : moaBlock.MiniBlock) : List schema.Transaction :=
  match getRelevantTxPoolBasedOnMBType mb pool with
  | none => []
  | some currPool =>
    match txp.processTxsFromMiniBlock currPool mb header headerHash mb.Type_ with
    | .error _ => []
    | .ok txsInCurrMB => txsInCurrMB

/-- A marshaller that fails on the mini blocks for shard 1 and succeeds on every other
object. -/
def pickyMarshaller : marshal.Marshalizer
  | .miniBlock mb =>
    if mb.ReceiverShardID = 1 then ([], some "error marshaller stub")
    else (mb.TxHashes.flatten, none)
  | _ => ([1], none)

/-- A transaction processor with the marshaller that fails on the mini blocks for shard 1. -/
def pickyTransactionProcessor : transactionProcessor :=
  { hasher := sampleHasher
    marshaller := pickyMarshaller
    pubKeyConverter := samplePubKeyConverter }

/-! ## What is expected of a processed reward transaction -/

/-- The fields that a processed reward transaction has, for the reward transaction `r` under
the hash `txHash`: no nonce, gas price or gas limit, nil data, signature and user names, the
address of the metachain shard as the sender, the round and the value of `r` itself and its
encoded receiver. -/
def isProcessedReward (txp : transactionProcessor) (r : rewardTx.RewardTx) (txHash : Bytes)
    (t : schema.Transaction) : Prop :=
  t.Hash = txHash ∧ t.Nonce = 0 ∧ t.GasPrice = 0 ∧ t.GasLimit = 0 ∧ t.Data = none ∧
    t.Signature = none ∧ t.SenderUserName = none ∧ t.ReceiverUserName = none ∧
    t.Sender = utility.MetaChainShardAddress ∧ t.Round = int64 r.Round ∧
    t.Value = utility.GetBytes r.Value ∧
    t.Receiver = utility.EncodePubKey txp.pubKeyConverter r.RcvAddr

/-- A body with one mini block of rewards, whose hash is in the `Rewards` pool of
`samplePool`. -/
def rewardBody : moaBlock.Body :=
  { MiniBlocks :=
      [ { TxHashes := [[122]], ReceiverShardID := 3, SenderShardID := 4,
          Type_ := moaBlock.RewardsBlock } ] }

/-! ## Package `transactions`: the processor of smart contract results -/

/-- The entries that a `range` over a map visits: of the entries of the list with the same
key, the first one, which is the one that a lookup finds.  The order of the list stands for
the order that the run time picks. -/
def mapEntries : TxMap → TxMap
  | [] => []
  | entry :: rest => entry :: (mapEntries rest).filter fun e => e.1 ≠ entry.1

/-- The record `schema.SCResult`; a nil `RelayerAddr` is `none`. -/
structure schema.SCResult where
  Hash : Bytes
  Nonce : Int
  GasLimit : Int
  GasPrice : Int
  Value : Bytes
  Sender : Bytes
  Receiver : Bytes
  RelayerAddr : Option Bytes
  RelayedValue : Bytes
  Code : Bytes
  Data : Bytes
  PrevTxHash : Bytes
  OriginalTxHash : Bytes
  CallType : Int
  CodeMetadata : Bytes
  ReturnMessage : Bytes
  Timestamp : Int
  deriving DecidableEq, Repr

/-- The record `schema.Receipt`. -/
structure schema.Receipt where
  Hash : Bytes
  Value : Bytes
  Sender : Bytes
  Data : Bytes
  TxHash : Bytes
  Timestamp : Int
  deriving DecidableEq, Repr

/-- The struct `scProcessor`. -/
structure scProcessor where
  pubKeyConverter : core.PubkeyConverter

/-- Source `processSCResult`; `none` is the nil pointer. -/
def scProcessor.processSCResult (scp : scProcessor) (tx : data.TransactionHandler)
    (txHash : Bytes) (timeStamp : Nat) : Option schema.SCResult :=
  match tx with
  | .SmartContractResult scrTx =>
    let relayerAddress : Option Bytes :=
      if scrTx.RelayerAddr.length > 0 then
        some (utility.EncodePubKey scp.pubKeyConverter scrTx.RelayerAddr)
      else none
    some { Hash := txHash
           Nonce := int64 scrTx.Nonce
           GasLimit := int64 scrTx.GasLimit
           GasPrice := int64 scrTx.GasPrice
           Value := utility.GetBytes scrTx.Value
           Sender := utility.EncodePubKey scp.pubKeyConverter scrTx.SndAddr
           Receiver := utility.EncodePubKey scp.pubKeyConverter scrTx.RcvAddr
           RelayerAddr := relayerAddress
           RelayedValue := utility.GetBytes scrTx.RelayedValue
           Code := scrTx.Code
           Data := scrTx.Data
           PrevTxHash := scrTx.PrevTxHash
           OriginalTxHash := scrTx.OriginalTxHash
           CallType := int32 scrTx.CallType
           CodeMetadata := scrTx.CodeMetadata
           ReturnMessage := scrTx.ReturnMessage
           Timestamp := int64 timeStamp }
  | _ => none

/-- The loop of `ProcessSCRs` over the entries that remain, `allSCRs` being the slice built so
far. -/
def scProcessor.processAll (scp : scProcessor) (timeStamp : Nat) :
    TxMap → List schema.SCResult → List schema.SCResult
  | [], allSCRs => allSCRs
  | (currTxHash, currTx) :: rest, allSCRs =>
    match scp.processSCResult currTx currTxHash timeStamp with
    | some currSCR => scProcessor.processAll scp timeStamp rest (allSCRs ++ [currSCR])
    | none => scProcessor.processAll scp timeStamp rest allSCRs

/-- Source `ProcessSCRs`; a `range` over a nil map visits nothing. -/
def scProcessor.ProcessSCRs (scp : scProcessor) (transactions : Option TxMap)
    (timeStamp : Nat) : List schema.SCResult :=
  match transactions with
  | none => []
  | some transactions => scp.processAll timeStamp (mapEntries transactions) []

/-- The pool entry is a `*smartContractResult.SmartContractResult`. -/
def isSCR : data.TransactionHandler → Bool
  | .SmartContractResult _ => true
  | _ => false

/-- The result `res` is the processed form of the pool entry `entry`, as far as the
specification tells: the entry is a smart contract result, `Hash` is the key, `Timestamp` is
the given time stamp, `Sender` and `Receiver` are the encoded addresses, and `RelayerAddr` is
the encoded relayer address when that is not empty and nil when it is. -/
def isProcessedSCR (scp : scProcessor) (timeStamp : Nat)
    (entry : Bytes × data.TransactionHandler) (res : schema.SCResult) : Prop :=
  ∃ scr, entry.2 = .SmartContractResult scr ∧ res.Hash = entry.1 ∧
    res.Timestamp = int64 timeStamp ∧
    res.Sender = utility.EncodePubKey scp.pubKeyConverter scr.SndAddr ∧
    res.Receiver = utility.EncodePubKey scp.pubKeyConverter scr.RcvAddr ∧
    res.RelayerAddr = (if scr.RelayerAddr = [] then none
      else some (utility.EncodePubKey scp.pubKeyConverter scr.RelayerAddr))

/-- A smart contract result with a relayer. -/
def sampleSCR : smartContractResult.SmartContractResult :=
  { Nonce := 1
    GasLimit := 2
    GasPrice := 3
    Value := some 4
    SndAddr := [5]
    RcvAddr := [6]
    RelayerAddr := [7]
    RelayedValue := some 8
    Code := [9]
    Data := [10]
    PrevTxHash := [11]
    OriginalTxHash := [12]
    CallType := 1
    CodeMetadata := [13]
    ReturnMessage := [14] }

/-- A pool of two smart contract results, the second without relayer, and a transaction, as
in the tests. -/
def sampleScrs : TxMap :=
  [([1], .SmartContractResult sampleSCR), ([2], .Transaction sampleTransaction),
    ([3], .SmartContractResult { sampleSCR with RelayerAddr := [] })]

/-- A processor of smart contract results as in the tests. -/
def sampleSCProcessor : scProcessor := { pubKeyConverter := samplePubKeyConverter }

/-! ## Package `logs` -/

/-- The record `schema.Event`. -/
structure schema.Event where
  Address : Bytes
  Identifier : Bytes
  Topics : List Bytes
  Data : Bytes
  deriving DecidableEq, Repr

/-- The record `schema.Log`. -/
structure schema.Log where
  ID : Bytes
  Address : Bytes
  Events : List schema.Event
  deriving DecidableEq, Repr

/-- The struct `logsProcessor`. -/
structure logsProcessor where
  pubKeyConverter : core.PubkeyConverter

/-- Source `processEvent`; `none` is the nil pointer. -/
def logsProcessor.processEvent (lp : logsProcessor) (event : Option data.EventHandler) :
    Option schema.Event :=
  match event with
  | none => none
  | some event =>
    some { Address := utility.EncodePubKey lp.pubKeyConverter event.GetAddress
           Identifier := event.GetIdentifier
           Topics := event.GetTopics
           Data := event.GetData }

/-- The loop of `processEvents` over the events that remain, `allEvents` being the slice built
so far. -/
def logsProcessor.eventsLoop (lp : logsProcessor) :
    List (Option data.EventHandler) → List schema.Event → List schema.Event
  | [], allEvents => allEvents
  | currEvent :: rest, allEvents =>
    match lp.processEvent currEvent with
    | some processedEvent => logsProcessor.eventsLoop lp rest (allEvents ++ [processedEvent])
    | none => logsProcessor.eventsLoop lp rest allEvents

/-- Source `processEvents`. -/
def logsProcessor.processEvents (lp : logsProcessor) (events : List (Option data.EventHandler)) :
    List schema.Event :=
  lp.eventsLoop events []

/-- Source `processLog`; `none` is the nil pointer. -/
def logsProcessor.processLog (lp : logsProcessor) (logData : Option data.LogData) :
    Option schema.Log :=
  match logData with
  | none => none
  | some logData =>
    match logData.LogHandler with
    | none => none
    | some logHandler =>
      some { ID := logData.TxHash
             Address := utility.EncodePubKey lp.pubKeyConverter logHandler.GetAddress
             Events := lp.processEvents logHandler.GetLogEvents }

/-- The loop of `ProcessLogs` over the logs that remain, `allLogs` being the slice built so
far. -/
def logsProcessor.logsLoop (lp : logsProcessor) :
    List (Option data.LogData) → List schema.Log → List schema.Log
  | [], allLogs => allLogs
  | currLog :: rest, allLogs =>
    match lp.processLog currLog with
    | some processedLog => logsProcessor.logsLoop lp rest (allLogs ++ [processedLog])
    | none => logsProcessor.logsLoop lp rest allLogs

/-- Source `ProcessLogs`. -/
def logsProcessor.ProcessLogs (lp : logsProcessor) (logs : List (Option data.LogData)) :
    List schema.Log :=
  lp.logsLoop logs []

/-- The event that is expected for a non-nil event of a log: the address encoded, the rest
copied. -/
def expectedEvent (lp : logsProcessor) (event : data.EventHandler) : schema.Event :=
  { Address := utility.EncodePubKey lp.pubKeyConverter event.GetAddress
    Identifier := event.GetIdentifier
    Topics := event.GetTopics
    Data := event.GetData }

/-- The log that is expected for an input entry: none for a nil entry or a nil `LogHandler`,
and otherwise the bytes of `TxHash`, the encoded address and, in order, the expected events of
the non-nil events. -/
def expectedLog (lp : logsProcessor) (logData : Option data.LogData) : Option schema.Log :=
  match logData with
  | some { LogHandler := some logHandler, TxHash := txHash } =>
    some { ID := txHash
           Address := utility.EncodePubKey lp.pubKeyConverter logHandler.GetAddress
           Events := logHandler.GetLogEvents.filterMap (Option.map (expectedEvent lp)) }
  | _ => none

/-- A processor of logs as in the tests. -/
def sampleLogsProcessor : logsProcessor := { pubKeyConverter := samplePubKeyConverter }

/-- An event. -/
def sampleEvent (a : Nat) : data.EventHandler :=
  { GetAddress := [a]
    GetIdentifier := [a + 1]
    GetTopics := [[a + 2]]
    GetData := [a + 3] }

/-- A log with a handler, given its events. -/
def sampleLog (a : Nat) (events : List (Option data.EventHandler)) : data.LogData :=
  { LogHandler := some { GetAddress := [a], GetLogEvents := events }
    TxHash := [a + 1] }

/-- Three logs, one of them without handler, with three events and a nil event, and a nil
entry, as in the tests. -/
def sampleLogs : List (Option data.LogData) :=
  [some (sampleLog 1 [some (sampleEvent 10), none]),
    some { LogHandler := none, TxHash := [7] },
    none,
    some (sampleLog 20 [some (sampleEvent 30), some (sampleEvent 40)])]

/-! ## Package `accounts` -/

/-- The methods of a `process.ShardCoordinator`. -/
structure process.ShardCoordinator where
  SelfId : Nat
  ComputeId : Bytes → Nat

/-- A value of interface type `vmcommon.AccountHandler`, as `LoadAccount` returns it: nil, an
object that is a `data.UserAccountHandler`, or an object of another type.  An object is given
by a number that identifies it: the same number is the same object, with one state. -/
inductive vmcommon.AccountHandler where
  | nil
  | UserAccount (account : Nat)
  | other
  deriving DecidableEq, Repr

/-- A call on the accounts adapter or on an account that it handed out, with what the call
returned. -/
inductive AccountCall where
  | LoadAccount (address : Bytes) (account : vmcommon.AccountHandler) (err : Error)
  | GetBalance (account : Nat) (balance : Option Int)
  | GetNonce (account : Nat) (nonce : Nat)
  deriving DecidableEq, Repr

/-- The method `LoadAccount` of an `AccountsAdapter`, source `interface.go`, and the methods
`GetBalance` and `GetNonce` of the user accounts that it hands out.  The objects behind these
interfaces keep a state of their own (the `UserAccountMock` of the repository counts its
calls), so what a call returns is a function of the calls made so far, newest first. -/
structure AccountsAdapter where
  LoadAccount : List AccountCall → Bytes → vmcommon.AccountHandler × Error
  GetBalance : List AccountCall → Nat → Option Int
  GetNonce : List AccountCall → Nat → Nat

/-- Source `ErrCannotCastAccountHandlerToUserAccount`. -/
def ErrCannotCastAccountHandlerToUserAccount : String :=
  "cannot cast AccountHandler to UserAccountHandler"

/-- The struct `accountsProcessor`. -/
structure accountsProcessor where
  shardCoordinator : process.ShardCoordinator
  pubKeyConverter : core.PubkeyConverter
  accounts : AccountsAdapter

/-- The Go statement `addresses[key] = struct{}{}` on a `map[string]struct{}`, which is the
list of its keys, without repetition. -/
def setInsert (addresses : List Bytes) (key : Bytes) : List Bytes :=
  if key ∈ addresses then addresses else addresses ++ [key]

/-- Source `addAddressIfInSelfShard`, as the new content of the map. -/
def accountsProcessor.addAddressIfInSelfShard (ap : accountsProcessor)
    (addresses : List Bytes) (address : Bytes) : List Bytes :=
  if address = utility.MetaChainShardAddress then addresses
  else if ap.shardCoordinator.SelfId = ap.shardCoordinator.ComputeId address then
    setInsert addresses address
  else addresses

/-- Source `getAllAddresses`. -/
def accountsProcessor.getAllAddresses (ap : accountsProcessor)
    (processedTxs : List schema.Transaction) (processedSCRs : List schema.SCResult)
    (processedReceipts : List schema.Receipt) : List Bytes :=
  let addresses : List Bytes := []
  let addresses := processedTxs.foldl (fun addresses tx =>
    ap.addAddressIfInSelfShard (ap.addAddressIfInSelfShard addresses tx.Sender) tx.Receiver)
    addresses
  let addresses := processedSCRs.foldl (fun addresses scr =>
    ap.addAddressIfInSelfShard (ap.addAddressIfInSelfShard addresses scr.Sender) scr.Receiver)
    addresses
  processedReceipts.foldl (fun addresses receipt =>
    ap.addAddressIfInSelfShard addresses receipt.Sender) addresses

/-- Source `processAccount`; the address is a string, given by its bytes.  The calls on the
adapter and on the account are made in the order of the source (`LoadAccount`, then
`GetBalance`, then `GetNonce`) and are added to the history, which is returned with the
result. -/
def accountsProcessor.processAccount (ap : accountsProcessor) (history : List AccountCall)
    (address : Bytes) : Except String schema.AccountBalanceUpdate × List AccountCall :=
  match ap.pubKeyConverter.Decode address with
  | (_, some err) => (.error err, history)
  | (pubKey, none) =>
    match ap.accounts.LoadAccount history pubKey with
    | (acc, some err) => (.error err, .LoadAccount pubKey acc (some err) :: history)
    | (acc, none) =>
      let history := AccountCall.LoadAccount pubKey acc none :: history
      match acc with
      | .UserAccount account =>
        let balance := ap.accounts.GetBalance history account
        let history := AccountCall.GetBalance account balance :: history
        let nonce := ap.accounts.GetNonce history account
        let history := AccountCall.GetNonce account nonce :: history
        (.ok { Address := address
               Balance := utility.GetBytes balance
               Nonce := int64 nonce }, history)
      | _ => (.error ErrCannotCastAccountHandlerToUserAccount, history)

/-- The loop of `ProcessAccounts` over the addresses that remain, `accounts` being the slice
built so far. -/
def accountsProcessor.accountsLoop (ap : accountsProcessor) :
    List Bytes → List schema.AccountBalanceUpdate → List AccountCall →
      List schema.AccountBalanceUpdate × List AccountCall
  | [], accounts, history => (accounts, history)
  | address :: rest, accounts, history =>
    match ap.processAccount history address with
    | (.error _, history) => accountsProcessor.accountsLoop ap rest accounts history
    | (.ok account, history) =>
      accountsProcessor.accountsLoop ap rest (accounts ++ [account]) history

/-- Source `ProcessAccounts`, begun after the calls of `history`: the slice that is returned,
and the history at the end.  The keys of the map are visited in the order of the list, which
stands for the order that the run time picks. -/
def accountsProcessor.ProcessAccounts (ap : accountsProcessor) (history : List AccountCall)
    (processedTxs : List schema.Transaction) (processedSCRs : List schema.SCResult)
    (processedReceipts : List schema.Receipt) :
    List schema.AccountBalanceUpdate × List AccountCall :=
  let addresses := ap.getAllAddresses processedTxs processedSCRs processedReceipts
  ap.accountsLoop addresses [] history

/-- The addresses that occur in the inputs of `ProcessAccounts`: the senders and receivers of
the transactions and of the smart contract results, and the senders of the receipts. -/
def inputAddresses (processedTxs : List schema.Transaction)
    (processedSCRs : List schema.SCResult) (processedReceipts : List schema.Receipt) :
    List Bytes :=
  (processedTxs.flatMap fun tx => [tx.Sender, tx.Receiver]) ++
    (processedSCRs.flatMap fun scr => [scr.Sender, scr.Receiver]) ++
    processedReceipts.map fun receipt => receipt.Sender

/-- An eligible address: it occurs in the inputs, it is not the address of the metachain
shard, and it is in the shard of the node. -/
def eligible (ap : accountsProcessor) (processedTxs : List schema.Transaction)
    (processedSCRs : List schema.SCResult) (processedReceipts : List schema.Receipt)
    (address : Bytes) : Prop :=
  address ∈ inputAddresses processedTxs processedSCRs processedReceipts ∧
    address ≠ utility.MetaChainShardAddress ∧
    ap.shardCoordinator.ComputeId address = ap.shardCoordinator.SelfId

/-- The history when the turn of `address` comes, in a loop that began after the calls of
`history` and visits the addresses in the order `visit`: the addresses before it have been
processed. -/
def accountsProcessor.historyBefore (ap : accountsProcessor) (history : List AccountCall)
    (visit : List Bytes) (address : Bytes) : List AccountCall :=
  (ap.accountsLoop (visit.takeWhile fun a => decide (a ≠ address)) [] history).2

/-- What `GetBalance` returns on the user account `account` when it is called right after
`LoadAccount(pubKey)` returned that account with a nil error, the history before the load being
`before`. -/
def accountsProcessor.balanceAt (ap : accountsProcessor) (before : List AccountCall)
    (pubKey : Bytes) (account : Nat) : Option Int :=
  ap.accounts.GetBalance (.LoadAccount pubKey (.UserAccount account) none :: before) account

/-- What `GetNonce` returns on the user account `account` when it is called right after that
call of `GetBalance`. -/
def accountsProcessor.nonceAt (ap : accountsProcessor) (before : List AccountCall)
    (pubKey : Bytes) (account : Nat) : Nat :=
  ap.accounts.GetNonce
    (.GetBalance account (ap.balanceAt before pubKey account) ::
      .LoadAccount pubKey (.UserAccount account) none :: before) account

/-- The number of calls of `GetBalance` on an account in a history. -/
def balanceReads (account : Nat) (history : List AccountCall) : Nat :=
  history.countP fun call =>
    match call with
    | .GetBalance a _ => decide (a = account)
    | _ => false

/-- The number of calls of `GetNonce` on an account in a history. -/
def nonceReads (account : Nat) (history : List AccountCall) : Nat :=
  history.countP fun call =>
    match call with
    | .GetNonce a _ => decide (a = account)
    | _ => false

/-- An accounts adapter made like the `AccountsAdapterStub` of the repository with one
`UserAccountMock`: every key loads the same account `0`, whose `GetBalance` and `GetNonce`
add one to a counter and return it; the account of the key `[68]` cannot be loaded. -/
def sampleAccounts : AccountsAdapter :=
  { LoadAccount := fun _ pk =>
      if pk = [68] then (.nil, some "load account error") else (.UserAccount 0, none)
    GetBalance := fun history account => some (Int.ofNat (balanceReads account history) + 1)
    GetNonce := fun history account => nonceReads account history + 1 }

/-- An accounts processor on shard 0 that takes every address but `[66]` to shard 0; the
decoding of `[67]` fails, the account of `[68]` cannot be loaded, and every other key loads
the one counting account of `sampleAccounts`. -/
def sampleAccountsProcessor : accountsProcessor :=
  { shardCoordinator := { SelfId := 0, ComputeId := fun a => if a = [66] then 1 else 0 }
    pubKeyConverter :=
      { Encode := fun pkBytes => pkBytes
        Decode := fun a => if a = [67] then ([], some "invalid address") else (a, none) }
    accounts := sampleAccounts }

/-- A processed transaction with the given sender and receiver. -/
def sampleProcessedTx (sender receiver : Bytes) : schema.Transaction :=
  { Hash := []
    MiniBlockHash := []
    BlockHash := []
    Nonce := 0
    Round := 0
    Value := []
    Receiver := receiver
    Sender := sender
    ReceiverShard := 0
    SenderShard := 0
    GasPrice := 0
    GasLimit := 0
    Data := none
    Signature := none
    Timestamp := 0
    SenderUserName := none
    ReceiverUserName := none }

/-- Transactions between the addresses `[65]` to `[68]`, the first address twice, and a reward
from the metachain shard. -/
def sampleProcessedTxs : List schema.Transaction :=
  [sampleProcessedTx [65] [66], sampleProcessedTx [67] [65], sampleProcessedTx [68] [69],
    sampleProcessedTx utility.MetaChainShardAddress [65]]

/-! ## Package `process`: the data processor -/

/-- The record `schema.BlockResult`; a nil pointer or slice is `none` where a handler may
return one together with an error. -/
structure schema.BlockResult where
  Block : Option schema.Block
  Transactions : Option (List schema.Transaction)
  Receipts : List schema.Receipt
  SCResults : List schema.SCResult
  Logs : List schema.Log
  StateChanges : List schema.AccountBalanceUpdate
  deriving DecidableEq, Repr

/-- The methods of the handlers that `ProcessData` can invoke. -/
inductive HandlerCall where
  | ProcessBlock
  | ProcessTransactions
  | ProcessSCRs
  | ProcessReceipts
  | ProcessLogs
  | ProcessAccounts
  deriving DecidableEq, Repr

/-- The struct `dataProcessor`: each handler is the method of its interface in
`process/interface.go`. -/
structure dataProcessor where
  blockHandler : indexer.ArgsSaveBlockData → Option schema.Block × Error
  transactionHandler : data.HeaderHandler → Bytes → data.BodyHandler → indexer.Pool →
    Option (List schema.Transaction) × Error
  receiptHandler : Option TxMap → Nat → List schema.Receipt
  scHandler : Option TxMap → Nat → List schema.SCResult
  logHandler : List (Option data.LogData) → List schema.Log
  accountsHandler : Option (List schema.Transaction) → List schema.SCResult →
    List schema.Receipt → List schema.AccountBalanceUpdate

/-- The pool that `getPool` makes first: every map is empty and not nil, and there are no
logs. -/
def emptyPool : indexer.Pool :=
  { Txs := some []
    Scrs := some []
    Rewards := some []
    Invalid := some []
    Receipts := some []
    Logs := [] }

/-- Source `getPool`. -/
def getPool (args : indexer.ArgsSaveBlockData) : indexer.Pool :=
  let pool := emptyPool
  match args.TransactionsPool with
  | some transactionsPool => transactionsPool
  | none => pool

/-- Source `ProcessData`: the result, and the methods of the handlers that were invoked, in
the order of the calls. -/
def dataProcessor.ProcessData (dp : dataProcessor) (args : indexer.ArgsSaveBlockData) :
    (Option schema.BlockResult × Error) × List HandlerCall :=
  let pool := getPool args
  match dp.blockHandler args with
  | (_, some err) => ((none, some err), [.ProcessBlock])
  | (block, none) =>
    match dp.transactionHandler args.Header args.HeaderHash args.Body pool with
    | (_, some err) => ((none, some err), [.ProcessBlock, .ProcessTransactions])
    | (transactions, none) =>
      let smartContractResults := dp.scHandler pool.Scrs args.Header.methods.GetTimeStamp
      let receipts := dp.receiptHandler pool.Receipts args.Header.methods.GetTimeStamp
      let logs := dp.logHandler pool.Logs
      let accountUpdates := dp.accountsHandler transactions smartContractResults receipts
      ((some { Block := block
               Transactions := transactions
               Receipts := receipts
               SCResults := smartContractResults
               Logs := logs
               StateChanges := accountUpdates }, none),
        [.ProcessBlock, .ProcessTransactions, .ProcessSCRs, .ProcessReceipts, .ProcessLogs,
          .ProcessAccounts])

/-- A data processor made of the processors of the sources, with the sample converters. -/
def sampleDataProcessor : dataProcessor :=
  { blockHandler := fun args =>
      match sampleBlockProcessor.ProcessBlock args with
      | some result => result
      | none => (none, some "panic")
    transactionHandler := sampleTransactionProcessor.ProcessTransactions
    receiptHandler := fun _ _ => []
    scHandler := sampleSCProcessor.ProcessSCRs
    logHandler := sampleLogsProcessor.ProcessLogs
    accountsHandler := fun transactions scrs receipts =>
      (sampleAccountsProcessor.ProcessAccounts [] (transactions.getD []) scrs receipts).1 }

/-- Arguments with a body, a pool and logs. -/
def sampleDataArgs : indexer.ArgsSaveBlockData :=
  { HeaderHash := [9]
    Body := .Body sampleBody
    Header := sampleHeader
    SignersIndexes := some [1, 2, 3]
    NotarizedHeadersHashes := some ["0a", "1f"]
    TransactionsPool := some { samplePool with Scrs := some sampleScrs, Logs := sampleLogs } }

/-! ## The initial waits of `sendWithRetrial` and the slots -/

/-- The value that the most recent `SetWSSender` call of a history (newest event first)
stored in the sender slot, if the history has such a call. -/
def lastSetWSS : List Event → Option WSConn
  | [] => none
  | .setWSS wss :: _ => some wss
  | _ :: t => lastSetWSS t

/-- The value that the most recent `SetWSReceiver` call of a history (newest event first)
stored in the receiver slot, if the history has such a call. -/
def lastSetWSR : List Event → Option WSConn
  | [] => none
  | .setWSR wsr :: _ => some wsr
  | _ :: t => lastSetWSR t

/-- The slots and the channels follow the setters of the history: each slot holds what the
most recent call of its setter stored (nil when there was no call), and a caller is parked on
a channel only if the setter of that channel was called.  Holds of `covalentIndexer.new`. -/
def covalentIndexer.FollowsSetters (ci : covalentIndexer) : Prop :=
  ci.wss = (lastSetWSS ci.trace).getD none ∧ ci.wsr = (lastSetWSR ci.trace).getD none ∧
    (0 < ci.newConnectionWSS → lastSetWSS ci.trace ≠ none) ∧
    (0 < ci.newConnectionWSR → lastSetWSR ci.trace ≠ none)

/-- Surroundings in which `SetWSSender(nil)` is called while the delivering goroutine is at
its third scheduling point, the initial sender wait of `sendWithRetrial`, as the tests call
it. -/
def nilSenderEnv : Env :=
  { WriteMessage := fun _ _ _ _ => none
    ReadMessage := fun _ _ => (websocket.BinaryMessage, [7], none)
    Close := fun _ _ => none
    serverClose := fun _ => none
    arrivals := fun k => if k = 2 then [.SetWSSender none] else [] }

/-- Surroundings in which `SetWSReceiver(nil)` is called while the delivering goroutine is at
its third scheduling point. -/
def nilReceiverEnv : Env :=
  { WriteMessage := fun _ _ _ _ => none
    ReadMessage := fun _ _ => (websocket.BinaryMessage, [7], none)
    Close := fun _ _ => none
    serverClose := fun _ => none
    arrivals := fun k => if k = 2 then [.SetWSReceiver none] else [] }

/-- The indexer at the initial sender wait of `sendWithRetrial`: after the two slot reads. -/
def covalentIndexer.atInitialWait (env : Env) (ci : covalentIndexer) : covalentIndexer :=
  ((ci.callGetWSS env).2.callGetWSR env).2

/-! ## After a failed read: the steps of the delivering goroutine and the receiver slot -/

/-- The events of a history `t` (newest first) that are newer than its older part `t0`. -/
def eventsSince (t0 t : List Event) : List Event := t.take (t.length - t0.length)

/-- A property of the indexer that every step of the delivering goroutine keeps: it survives a
scheduling point, the recording of an event of the delivering goroutine, and a change of the
numbers of callers parked on the two channels. -/
structure Stable (env : Env) (P : covalentIndexer → Prop) : Prop where
  yield : ∀ ci, P ci → P (ci.yield env)
  record : ∀ ci e, e.byDelivery = true → P ci → P { ci with trace := e :: ci.trace }
  parked : ∀ ci n m, P ci → P { ci with newConnectionWSS := n, newConnectionWSR := m }

/-- The receiver slot since the indexer was in state `c0`: the history continues that of `c0`,
and the slot holds what the most recent `SetWSReceiver` call among the newer events stored, or
what it held in `c0` when there was no such call.  With `b` true, there was such a call. -/
def ReceiverSince (c0 : covalentIndexer) (b : Bool) (ci : covalentIndexer) : Prop :=
  ∃ newer, ci.trace = newer ++ c0.trace ∧ ci.wsr = (lastSetWSR newer).getD c0.wsr ∧
    (b = true → lastSetWSR newer ≠ none)

/-- The clock has passed `k0`, and once the history has `N` assignments of the receiver slot
or more, the slot does not hold the connection `r`. -/
def ReceiverAway (k0 : Nat) (r : Conn) (N : Nat) (ci : covalentIndexer) : Prop :=
  k0 ≤ ci.clock ∧ (N ≤ installsWSR ci.trace → ci.wsr ≠ some r)

/-- The indexer of the reconnection scenario when its first attempt begins: sender `10` and
receiver `20` are held, no caller is parked, and the slots were read at the start of
`sendWithRetrial` and again after the first tick. -/
def reconnectStart : covalentIndexer :=
  { covalentIndexer.new with
    wss := some 10
    wsr := some 20
    clock := 5
    trace := [.getWSR (some 20), .getWSS (some 10), .tick, .getWSR (some 20), .getWSS (some 10)] }

/-- Surroundings as `reconnectEnv`, but the call made during the receiver wait is
`SetWSReceiver(20)`: it installs again the connection whose read failed. -/
def reinstallEnv : Env :=
  { WriteMessage := fun _ _ _ _ => none
    ReadMessage := fun _ c =>
      if c = 20 then (0, [], some "read message error") else (websocket.BinaryMessage, [7], none)
    Close := fun _ _ => none
    serverClose := fun _ => none
    arrivals := fun k => if k = 7 then [.SetWSReceiver (some 20)] else [] }

/-- Surroundings as `reconnectEnv`, but only the first `WriteMessage` succeeds: every later one
returns an error, and no `SetWSSender` call is ever made. -/
def senderLostEnv : Env :=
  { WriteMessage := fun t _ _ _ => if writes t = 0 then none else some "write message error"
    ReadMessage := fun _ c =>
      if c = 20 then (0, [], some "read message error") else (websocket.BinaryMessage, [7], none)
    Close := fun _ _ => none
    serverClose := fun _ => none
    arrivals := fun k => if k = 7 then [.SetWSReceiver (some 21)] else [] }
/-! ## Lemmas on the history -/

theorem record_trace (ci : covalentIndexer) (e : Event) :
    (ci.record e).trace = e :: ci.trace := rfl

theorem io_cons (e : Event) (t : List Event) :
    io (e :: t) = if e.isIO then e :: io t else io t := by
  simp [io, List.filter_cons]

theorem runCall_io (env : Env) (ci : covalentIndexer) (c : Call) :
    io (covalentIndexer.runCall env ci c).trace = io ci.trace := by
  cases c <;>
    simp only [covalentIndexer.runCall, covalentIndexer.SetWSSender,
      covalentIndexer.SetWSReceiver, covalentIndexer.Close, covalentIndexer.record,
      covalentIndexer.getWSS, covalentIndexer.getWSR]
  · cases ci.wss <;> simp [io_cons, Event.isIO]
  · cases ci.wsr <;> simp [io_cons, Event.isIO]
  · cases ci.wss <;> cases ci.wsr <;> cases ci.server <;> simp [io_cons, Event.isIO]

theorem foldl_runCall_io (env : Env) (cs : List Call) (ci : covalentIndexer) :
    io (cs.foldl (covalentIndexer.runCall env) ci).trace = io ci.trace := by
  induction cs generalizing ci with
  | nil => rfl
  | cons c cs ih => simp [List.foldl_cons, ih, runCall_io]

theorem yield_io (env : Env) (ci : covalentIndexer) :
    io (ci.yield env).trace = io ci.trace := by
  simp [covalentIndexer.yield, foldl_runCall_io]

theorem callWriteMessage_io (env : Env) (c : Conn) (mt : Int) (d : Bytes)
    (ci : covalentIndexer) :
    io (ci.callWriteMessage env c mt d).2.trace =
      .WriteMessage c mt d (ci.callWriteMessage env c mt d).1 :: io ci.trace := by
  simp [covalentIndexer.callWriteMessage, record_trace, io_cons, Event.isIO, yield_io]

theorem callReadMessage_io (env : Env) (c : Conn) (ci : covalentIndexer) :
    io (ci.callReadMessage env c).2.trace =
      .ReadMessage c (ci.callReadMessage env c).1.1 (ci.callReadMessage env c).1.2.1
        (ci.callReadMessage env c).1.2.2 :: io ci.trace := by
  simp [covalentIndexer.callReadMessage, record_trace, io_cons, Event.isIO, yield_io]

theorem waitForWSSConnection_io (env : Env) (ci : covalentIndexer) :
    io (ci.waitForWSSConnection env).2.trace = io ci.trace := by
  simp only [covalentIndexer.waitForWSSConnection]
  split_ifs <;> simp [io_cons, Event.isIO, yield_io]

theorem waitForWSRConnection_io (env : Env) (ci : covalentIndexer) :
    io (ci.waitForWSRConnection env).2.trace = io ci.trace := by
  simp only [covalentIndexer.waitForWSRConnection]
  split_ifs <;> simp [io_cons, Event.isIO, yield_io]

theorem callGetWSS_io (env : Env) (ci : covalentIndexer) :
    io (ci.callGetWSS env).2.trace = io ci.trace := by
  simp [covalentIndexer.callGetWSS, record_trace, io_cons, Event.isIO, yield_io]

theorem callGetWSR_io (env : Env) (ci : covalentIndexer) :
    io (ci.callGetWSR env).2.trace = io ci.trace := by
  simp [covalentIndexer.callGetWSR, record_trace, io_cons, Event.isIO, yield_io]

theorem awaitTick_io (env : Env) (ci : covalentIndexer) :
    io (ci.awaitTick env).trace = io ci.trace := by
  simp [covalentIndexer.awaitTick, record_trace, io_cons, Event.isIO, yield_io]

theorem writes_io (t : List Event) : writes (io t) = writes t := by
  induction t with
  | nil => rfl
  | cons e t ih => cases e <;> simp_all [io_cons, Event.isIO, writes]

theorem reads_io (t : List Event) : reads (io t) = reads t := by
  induction t with
  | nil => rfl
  | cons e t ih => cases e <;> simp_all [io_cons, Event.isIO, reads]

theorem readsOn_io (c : Conn) (t : List Event) : readsOn c (io t) = readsOn c t := by
  induction t with
  | nil => rfl
  | cons e t ih => cases e <;> simp_all [io_cons, Event.isIO, readsOn, List.countP_cons]

/-! ## One delivery attempt -/

theorem sendDataWithAcknowledge_eq (env : Env) (data ackData : Bytes) (wss wsr : Conn)
    (ci : covalentIndexer) :
    ci.sendDataWithAcknowledge env data ackData wss wsr =
      match (if (ci.callWriteMessage env wss websocket.BinaryMessage data).1 ≠ none
          then (ci.callWriteMessage env wss websocket.BinaryMessage data).2.waitForWSSConnection env
          else (true, (ci.callWriteMessage env wss websocket.BinaryMessage data).2)) with
      | (false, ci) => (none, ci)
      | (true, ci') =>
        readAndCheck env ackData wsr
          (ci.callWriteMessage env wss websocket.BinaryMessage data).1 ci' := by
  rfl

theorem readAndCheck_shape (env : Env) (ackData : Bytes) (wsr : Conn) (errSend : Error)
    (ci : covalentIndexer) :
    ∃ msgType p errRead,
      io (readAndCheck env ackData wsr errSend ci).2.trace =
        .ReadMessage wsr msgType p errRead :: io ci.trace ∧
      (((readAndCheck env ackData wsr errSend ci).1 = none ∧ errRead ≠ none) ∨
        (readAndCheck env ackData wsr errSend ci).1 =
          some (decide (errSend = none ∧ errRead = none ∧
            msgType = websocket.BinaryMessage ∧ p = ackData))) := by
  unfold readAndCheck
  have hr := callReadMessage_io env wsr ci
  generalize ci.callReadMessage env wsr = x at hr ⊢
  obtain ⟨⟨msgType, p, errRead⟩, s2⟩ := x
  refine ⟨msgType, p, errRead, ?_⟩
  simp only at hr ⊢
  by_cases he : errRead = none
  · subst he
    by_cases h1 : errSend = none <;> by_cases h2 : msgType = websocket.BinaryMessage <;>
      by_cases h3 : p = ackData <;> simp [h1, h2, h3, hr]
  · have hw := waitForWSRConnection_io env s2
    generalize s2.waitForWSRConnection env = y at hw ⊢
    obtain ⟨b, s3⟩ := y
    cases b <;> simp_all

/-- Shape of one delivery attempt: one write, then either the goroutine stays parked in the
sender wait, or one read follows and the result is decided by the four conditions unless the
goroutine stays parked in the receiver wait. -/
theorem attempt_shape (env : Env) (data ackData : Bytes) (wss wsr : Conn)
    (ci : covalentIndexer) :
    ∃ errSend,
      ((ci.sendDataWithAcknowledge env data ackData wss wsr).1 = none ∧ errSend ≠ none ∧
        io (ci.sendDataWithAcknowledge env data ackData wss wsr).2.trace =
          .WriteMessage wss websocket.BinaryMessage data errSend :: io ci.trace) ∨
      ∃ msgType p errRead,
        io (ci.sendDataWithAcknowledge env data ackData wss wsr).2.trace =
          .ReadMessage wsr msgType p errRead ::
            .WriteMessage wss websocket.BinaryMessage data errSend :: io ci.trace ∧
        (((ci.sendDataWithAcknowledge env data ackData wss wsr).1 = none ∧ errRead ≠ none) ∨
          (ci.sendDataWithAcknowledge env data ackData wss wsr).1 =
            some (decide (errSend = none ∧ errRead = none ∧
              msgType = websocket.BinaryMessage ∧ p = ackData))) := by
  rw [sendDataWithAcknowledge_eq]
  have hw := callWriteMessage_io env wss websocket.BinaryMessage data ci
  generalize ci.callWriteMessage env wss websocket.BinaryMessage data = x at hw ⊢
  obtain ⟨errSend, s1⟩ := x
  refine ⟨errSend, ?_⟩
  simp only at hw ⊢
  by_cases he : errSend = none
  · subst he
    obtain ⟨mt, p, er, h1, h2⟩ := readAndCheck_shape env ackData wsr none s1
    exact Or.inr ⟨mt, p, er, by simpa [hw] using h1, by simpa using h2⟩
  · have hg := waitForWSSConnection_io env s1
    generalize s1.waitForWSSConnection env = y at hg ⊢
    obtain ⟨b, s2⟩ := y
    cases b
    · exact Or.inl (by simp_all)
    · obtain ⟨mt, p, er, h1, h2⟩ := readAndCheck_shape env ackData wsr errSend s2
      refine Or.inr ⟨mt, p, er, ?_, ?_⟩
      · simp_all
      · simpa [he] using h2

/-- C1 (amended): `sendDataWithAcknowledge` starts with one `WriteMessage` of the payload as a
binary frame.  Unless it stays parked in the sender wait after a failed write, one `ReadMessage`
follows, and then it returns `true` if and only if the write returned no error, the read
returned no error, the frame kind is `websocket.BinaryMessage` and the bytes equal the ack
token; in every other combination it returns `false`, or never returns because it stays parked
in the receiver wait after a failed read. -/
theorem sendDataWithAcknowledge_true_iff (env : Env) (data ackData : Bytes) (wss wsr : Conn)
    (ci : covalentIndexer) :
    ∃ errSend,
      ((ci.sendDataWithAcknowledge env data ackData wss wsr).1 = none ∧ errSend ≠ none ∧
        io (ci.sendDataWithAcknowledge env data ackData wss wsr).2.trace =
          .WriteMessage wss websocket.BinaryMessage data errSend :: io ci.trace) ∨
      ∃ msgType p errRead,
        io (ci.sendDataWithAcknowledge env data ackData wss wsr).2.trace =
          .ReadMessage wsr msgType p errRead ::
            .WriteMessage wss websocket.BinaryMessage data errSend :: io ci.trace ∧
        ((ci.sendDataWithAcknowledge env data ackData wss wsr).1 = some true ↔
          errSend = none ∧ errRead = none ∧ msgType = websocket.BinaryMessage ∧
            p = ackData) ∧
        (¬(errSend = none ∧ errRead = none ∧ msgType = websocket.BinaryMessage ∧
            p = ackData) →
          (ci.sendDataWithAcknowledge env data ackData wss wsr).1 = some false ∨
          ((ci.sendDataWithAcknowledge env data ackData wss wsr).1 = none ∧
            errRead ≠ none)) := by
  obtain ⟨errSend, h⟩ := attempt_shape env data ackData wss wsr ci
  refine ⟨errSend, ?_⟩
  rcases h with h | ⟨mt, p, er, hio, hres⟩
  · exact Or.inl h
  · refine Or.inr ⟨mt, p, er, hio, ?_, ?_⟩
    · rcases hres with ⟨hn, hne⟩ | hs
      · simp [hn, hne]
      · rw [hs]; simp
    · intro hc
      rcases hres with ⟨hn, hne⟩ | hs
      · exact Or.inr ⟨hn, hne⟩
      · left; rw [hs]; simp [hc]

/-- C1, counterexample: the write succeeds, the read returns an error and no receiver is ever
installed again; the call stays parked in `waitForWSRConnection` and returns neither `true`
nor `false`. -/
theorem sendDataWithAcknowledge_parked_after_read_error :
    (covalentIndexer.new.sendDataWithAcknowledge
        (quietEnv none (0, [], some "read message error")) [1, 2, 3] [7] 10 20).1 ≠ some false ∧
    (covalentIndexer.new.sendDataWithAcknowledge
        (quietEnv none (0, [], some "read message error")) [1, 2, 3] [7] 10 20).1 ≠ some true ∧
    io (covalentIndexer.new.sendDataWithAcknowledge
        (quietEnv none (0, [], some "read message error")) [1, 2, 3] [7] 10 20).2.trace =
      [.ReadMessage 20 0 [] (some "read message error"),
        .WriteMessage 10 websocket.BinaryMessage [1, 2, 3] none] := by
  decide

/-! ## The ticker loop -/

theorem retrialLoop_succ (env : Env) (data ackData : Bytes) (n : Nat) (ci : covalentIndexer) :
    covalentIndexer.retrialLoop env data ackData (n + 1) ci =
      match (tickSnapshot env ci).1, (tickSnapshot env ci).2.1 with
      | some wss, some wsr =>
        match (tickSnapshot env ci).2.2.sendDataWithAcknowledge env data ackData wss wsr with
        | (some true, ci) => (.returned, ci)
        | (some false, ci) => covalentIndexer.retrialLoop env data ackData n ci
        | (none, ci) => (.blocked, ci)
      | _, _ => covalentIndexer.retrialLoop env data ackData n (tickSnapshot env ci).2.2 := by
  rfl

theorem tickSnapshot_io (env : Env) (ci : covalentIndexer) :
    io (tickSnapshot env ci).2.2.trace = io ci.trace := by
  simp [tickSnapshot, callGetWSR_io, callGetWSS_io, awaitTick_io]

/-- What the ticker loop adds to the `WriteMessage` / `ReadMessage` history. -/
theorem retrialLoop_io (env : Env) (data ackData : Bytes) (n : Nat) (ci : covalentIndexer) :
    ∃ new, io (covalentIndexer.retrialLoop env data ackData n ci).2.trace = new ++ io ci.trace ∧
      (∀ e ∈ new, (∃ c err, e = .WriteMessage c websocket.BinaryMessage data err) ∨
        ∃ c mt p err, e = .ReadMessage c mt p err) ∧
      ((covalentIndexer.retrialLoop env data ackData n ci).1 = .returned →
        ∃ wss wsr mid, new = .ReadMessage wsr websocket.BinaryMessage ackData none ::
          .WriteMessage wss websocket.BinaryMessage data none :: mid) := by
  induction n generalizing ci with
  | zero => exact ⟨[], by simp [covalentIndexer.retrialLoop]⟩
  | succ n ih =>
    rw [retrialLoop_succ]
    have h3 := tickSnapshot_io env ci
    generalize tickSnapshot env ci = x at h3 ⊢
    obtain ⟨wss, wsr, ci3⟩ := x
    simp only at h3 ⊢
    have hskip : ∃ new, io (covalentIndexer.retrialLoop env data ackData n ci3).2.trace = new ++ io ci.trace ∧
      (∀ e ∈ new, (∃ c err, e = .WriteMessage c websocket.BinaryMessage data err) ∨
        ∃ c mt p err, e = .ReadMessage c mt p err) ∧
      ((covalentIndexer.retrialLoop env data ackData n ci3).1 = .returned →
        ∃ wss wsr mid, new = .ReadMessage wsr websocket.BinaryMessage ackData none ::
          .WriteMessage wss websocket.BinaryMessage data none :: mid) := by
      simpa [h3] using ih ci3
    cases wss with
    | none => exact hskip
    | some s =>
      cases wsr with
      | none => exact hskip
      | some r =>
        simp only
        obtain ⟨errSend, hshape⟩ := attempt_shape env data ackData s r ci3
        generalize ci3.sendDataWithAcknowledge env data ackData s r = y at hshape ⊢
        obtain ⟨b, ci4⟩ := y
        simp only at hshape
        rcases hshape with ⟨hb, _, hio⟩ | ⟨mt, p, er, hio, hres⟩
        · subst hb
          exact ⟨[.WriteMessage s websocket.BinaryMessage data errSend], by simp [hio, h3]⟩
        · rcases hres with ⟨hb, _⟩ | hb
          · subst hb
            exact ⟨[.ReadMessage r mt p er, .WriteMessage s websocket.BinaryMessage data errSend],
              by simp [hio, h3]⟩
          · by_cases hc : errSend = none ∧ er = none ∧ mt = websocket.BinaryMessage ∧ p = ackData
            · obtain ⟨rfl, rfl, rfl, rfl⟩ := hc
              simp only [and_self, decide_True] at hb
              subst hb
              exact ⟨[.ReadMessage r websocket.BinaryMessage p none,
                .WriteMessage s websocket.BinaryMessage data none], by simp [hio, h3]⟩
            · simp only [hc, decide_False] at hb
              subst hb
              obtain ⟨new, h1, h2, h4⟩ := ih ci4
              refine ⟨new ++ [.ReadMessage r mt p er,
                .WriteMessage s websocket.BinaryMessage data errSend], ?_, ?_, ?_⟩
              · simp [h1, hio, h3]
              · intro e he
                rcases List.mem_append.1 he with he | he
                · exact h2 e he
                · simp at he
                  rcases he with rfl | rfl
                  · exact Or.inr ⟨_, _, _, _, rfl⟩
                  · exact Or.inl ⟨_, _, rfl⟩
              · intro hret
                obtain ⟨a, b, mid, hm⟩ := h4 hret
                exact ⟨a, b, mid ++ [.ReadMessage r mt p er,
                  .WriteMessage s websocket.BinaryMessage data errSend], by simp [hm]⟩

theorem initialWaitWSS_io (env : Env) (wss : WSConn) (ci : covalentIndexer) :
    io (if wss = none then ci.waitForWSSConnection env else (true, ci)).2.trace = io ci.trace := by
  split_ifs
  · exact waitForWSSConnection_io env ci
  · rfl

theorem initialWaitWSR_io (env : Env) (wsr : WSConn) (ci : covalentIndexer) :
    io (if wsr = none then ci.waitForWSRConnection env else (true, ci)).2.trace = io ci.trace := by
  split_ifs
  · exact waitForWSRConnection_io env ci
  · rfl

/-- What `sendWithRetrial` adds to the `WriteMessage` / `ReadMessage` history. -/
theorem sendWithRetrial_io (env : Env) (ticks : Nat) (data ackData : Bytes)
    (ci : covalentIndexer) :
    ∃ new, io (ci.sendWithRetrial env ticks data ackData).2.trace = new ++ io ci.trace ∧
      (∀ e ∈ new, (∃ c err, e = .WriteMessage c websocket.BinaryMessage data err) ∨
        ∃ c mt p err, e = .ReadMessage c mt p err) ∧
      ((ci.sendWithRetrial env ticks data ackData).1 = .returned →
        ∃ wss wsr mid, new = .ReadMessage wsr websocket.BinaryMessage ackData none ::
          .WriteMessage wss websocket.BinaryMessage data none :: mid) := by
  unfold covalentIndexer.sendWithRetrial
  have h1 := callGetWSS_io env ci
  generalize ci.callGetWSS env = x at h1 ⊢
  obtain ⟨wss, c1⟩ := x
  simp only at h1 ⊢
  have h2 := callGetWSR_io env c1
  generalize c1.callGetWSR env = x at h2 ⊢
  obtain ⟨wsr, c2⟩ := x
  simp only at h2 ⊢
  have h3 := initialWaitWSS_io env wss c2
  generalize (if wss = none then c2.waitForWSSConnection env else (true, c2)) = g at h3 ⊢
  obtain ⟨b, c3⟩ := g
  cases b with
  | false => exact ⟨[], by simp_all⟩
  | true =>
    have h4 := initialWaitWSR_io env wsr c3
    simp only at h3 h4 ⊢
    generalize (if wsr = none then c3.waitForWSRConnection env else (true, c3)) = g at h4 ⊢
    obtain ⟨b, c4⟩ := g
    cases b with
    | false => exact ⟨[], by simp_all⟩
    | true =>
      simp only at h4 ⊢
      have h := retrialLoop_io env data ackData ticks c4
      rw [h4, h3, h2, h1] at h
      exact h

/-- C2: whenever `sendWithRetrial` returns, the newest `WriteMessage` / `ReadMessage` calls it
made are a write of the payload as a binary frame that returned no error, followed by a read
that returned, without error, a binary frame equal to the ack token; and whenever `SaveBlock`
returns, it returns nil after such an attempt, made with the encoded block result as payload
and the block hash as ack token. -/
theorem sendWithRetrial_returns_acknowledged :
    (∀ (env : Env) (ticks : Nat) (data ackData : Bytes) (ci : covalentIndexer),
      (ci.sendWithRetrial env ticks data ackData).1 = .returned →
      ∃ wss wsr mid, io (ci.sendWithRetrial env ticks data ackData).2.trace =
        .ReadMessage wsr websocket.BinaryMessage ackData none ::
          .WriteMessage wss websocket.BinaryMessage data none :: mid ++ io ci.trace) ∧
    (∀ (α : Type) (env : Env) (ticks : Nat) (processor : α → Option BlockResult × Error)
      (Encode : Option BlockResult → Bytes × Error) (args : α) (ci : covalentIndexer)
      (err : Error),
      (ci.SaveBlock env ticks processor Encode args).1 = .returned err →
      err = none ∧
      ∃ r block wss wsr mid, processor args = (some r, none) ∧ r.Block = some block ∧
        (Encode (some r)).2 = none ∧
        io (ci.SaveBlock env ticks processor Encode args).2.trace =
          .ReadMessage wsr websocket.BinaryMessage block.Hash none ::
            .WriteMessage wss websocket.BinaryMessage (Encode (some r)).1 none ::
              mid ++ io ci.trace) := by
  constructor
  · intro env ticks data ackData ci h
    obtain ⟨new, h1, _, h3⟩ := sendWithRetrial_io env ticks data ackData ci
    obtain ⟨wss, wsr, mid, hm⟩ := h3 h
    exact ⟨wss, wsr, mid, by rw [h1, hm]⟩
  · intro α env ticks processor Encode args ci err
    unfold covalentIndexer.SaveBlock
    rcases hp : processor args with ⟨br, e1⟩
    cases e1 with
    | some e => simp
    | none =>
      simp only
      rcases he : Encode br with ⟨dataToSend, e2⟩
      cases e2 with
      | some e => simp
      | none =>
        simp only
        cases br with
        | none => simp
        | some r =>
          cases hb : r.Block with
          | none => simp [hb]
          | some block =>
            have hbind : (some r).bind BlockResult.Block = some block := hb
            simp only [hbind]
            obtain ⟨new, h1, _, h3⟩ := sendWithRetrial_io env ticks dataToSend block.Hash ci
            generalize ci.sendWithRetrial env ticks dataToSend block.Hash = y at h1 h3 ⊢
            obtain ⟨st, c⟩ := y
            cases st with
            | returned =>
              intro h
              simp only [Outcome.returned.injEq] at h
              obtain ⟨wss, wsr, mid, hm⟩ := h3 rfl
              refine ⟨h.symm, r, block, wss, wsr, mid, rfl, hb, by simp [he], ?_⟩
              simp only at h1
              rw [h1, hm, he]
            | blocked => simp
            | ticking => simp

/-- C2, witness: with both connections held, a sender that succeeds and a receiver that
answers the ack token, `sendWithRetrial` and `SaveBlock` return at the first tick, after an
acknowledged attempt. -/
theorem sendWithRetrial_returns_acknowledged_witness :
    (({ covalentIndexer.new with wss := some 10, wsr := some 20 }).sendWithRetrial
      (quietEnv none (websocket.BinaryMessage, [7], none)) 1 [1, 2, 3] [7]).1 = .returned ∧
    (∃ wss wsr mid,
      io (({ covalentIndexer.new with wss := some 10, wsr := some 20 }).sendWithRetrial
          (quietEnv none (websocket.BinaryMessage, [7], none)) 1 [1, 2, 3] [7]).2.trace =
        .ReadMessage wsr websocket.BinaryMessage [7] none ::
          .WriteMessage wss websocket.BinaryMessage [1, 2, 3] none :: mid ++
            io ({ covalentIndexer.new with wss := some 10, wsr := some 20 }).trace) ∧
    (({ covalentIndexer.new with wss := some 10, wsr := some 20 }).SaveBlock
      (quietEnv none (websocket.BinaryMessage, [7], none)) 1
      (fun _ : Unit => (some { Block := some { Hash := [7] } }, none))
      (fun _ => ([1, 2, 3], none)) ()).1 = .returned none :=
  ⟨by decide,
    sendWithRetrial_returns_acknowledged.1 (quietEnv none (websocket.BinaryMessage, [7], none)) 1
      [1, 2, 3] [7] { covalentIndexer.new with wss := some 10, wsr := some 20 } (by decide),
    by decide⟩

/-- C5 (amended): a delivery attempt invokes `ReadMessage` exactly once, on the receiver
connection it was given, whether or not `WriteMessage` failed; the only exception is the attempt
that stays parked for ever in the wait for a new sender connection after a failed write,
which invokes `ReadMessage` zero times. -/
theorem sendDataWithAcknowledge_reads_once (env : Env) (data ackData : Bytes) (wss wsr : Conn)
    (ci : covalentIndexer) :
    (reads (ci.sendDataWithAcknowledge env data ackData wss wsr).2.trace = reads ci.trace + 1 ∧
      readsOn wsr (ci.sendDataWithAcknowledge env data ackData wss wsr).2.trace =
        readsOn wsr ci.trace + 1) ∨
    ((ci.sendDataWithAcknowledge env data ackData wss wsr).1 = none ∧
      reads (ci.sendDataWithAcknowledge env data ackData wss wsr).2.trace = reads ci.trace ∧
      ∃ errSend, errSend ≠ none ∧
        io (ci.sendDataWithAcknowledge env data ackData wss wsr).2.trace =
          .WriteMessage wss websocket.BinaryMessage data errSend :: io ci.trace) := by
  obtain ⟨errSend, h | ⟨mt, p, er, hio, _⟩⟩ := attempt_shape env data ackData wss wsr ci
  · refine Or.inr ⟨h.1, ?_, errSend, h.2.1, h.2.2⟩
    rw [← reads_io, h.2.2, ← reads_io ci.trace]
    simp [reads]
  · refine Or.inl ⟨?_, ?_⟩
    · rw [← reads_io, hio, ← reads_io ci.trace]
      simp [reads]
    · rw [← readsOn_io, hio, ← readsOn_io wsr ci.trace]
      simp [readsOn, List.countP_cons]

/-- C5, counterexample: the write fails and no sender is ever installed again; the attempt
stays parked in `waitForWSSConnection` and `ReadMessage` is never invoked. -/
theorem sendDataWithAcknowledge_no_read_when_parked :
    (covalentIndexer.new.sendDataWithAcknowledge
      (quietEnv (some "write message error") (websocket.BinaryMessage, [7], none))
      [1, 2, 3] [7] 10 20).1 = none ∧
    readsOn 20 (covalentIndexer.new.sendDataWithAcknowledge
      (quietEnv (some "write message error") (websocket.BinaryMessage, [7], none))
      [1, 2, 3] [7] 10 20).2.trace = 0 ∧
    reads (covalentIndexer.new.sendDataWithAcknowledge
      (quietEnv (some "write message error") (websocket.BinaryMessage, [7], none))
      [1, 2, 3] [7] 10 20).2.trace = 0 := by
  decide

/-- C6: a delivery attempt performs exactly one `WriteMessage` call, on the sender it was
given, with message type `websocket.BinaryMessage` and the payload as data; every tick of
`sendWithRetrial` at which both slots are held runs one attempt with the payload and the ack
token that were passed to `sendWithRetrial`; and every `WriteMessage` call made during
`sendWithRetrial` has message type `websocket.BinaryMessage` and data equal to that payload. -/
theorem sendWithRetrial_writes_payload (env : Env) (data ackData : Bytes) :
    (∀ (wss wsr : Conn) (ci : covalentIndexer),
      writes (ci.sendDataWithAcknowledge env data ackData wss wsr).2.trace =
        writes ci.trace + 1 ∧
      ∃ errSend new,
        io (ci.sendDataWithAcknowledge env data ackData wss wsr).2.trace =
          new ++ .WriteMessage wss websocket.BinaryMessage data errSend :: io ci.trace ∧
        writes new = 0) ∧
    (∀ (n : Nat) (ci : covalentIndexer) (s r : Conn),
      (tickSnapshot env ci).1 = some s → (tickSnapshot env ci).2.1 = some r →
      covalentIndexer.retrialLoop env data ackData (n + 1) ci =
        match (tickSnapshot env ci).2.2.sendDataWithAcknowledge env data ackData s r with
        | (some true, c) => (.returned, c)
        | (some false, c) => covalentIndexer.retrialLoop env data ackData n c
        | (none, c) => (.blocked, c)) ∧
    (∀ (ticks : Nat) (ci : covalentIndexer),
      ∃ new, io (ci.sendWithRetrial env ticks data ackData).2.trace = new ++ io ci.trace ∧
        ∀ c mt d err, Event.WriteMessage c mt d err ∈ new →
          mt = websocket.BinaryMessage ∧ d = data) := by
  refine ⟨?_, ?_, ?_⟩
  · intro wss wsr ci
    obtain ⟨errSend, h | ⟨mt, p, er, hio, _⟩⟩ := attempt_shape env data ackData wss wsr ci
    · refine ⟨?_, errSend, [], by simpa using h.2.2, rfl⟩
      rw [← writes_io, h.2.2, ← writes_io ci.trace]
      simp [writes]
    · refine ⟨?_, errSend, [.ReadMessage wsr mt p er], by simpa using hio, by simp [writes]⟩
      rw [← writes_io, hio, ← writes_io ci.trace]
      simp [writes]
  · intro n ci s r h1 h2
    rw [retrialLoop_succ, h1, h2]
  · intro ticks ci
    obtain ⟨new, h1, h2, _⟩ := sendWithRetrial_io env ticks data ackData ci
    refine ⟨new, h1, ?_⟩
    intro c mt d err hmem
    rcases h2 _ hmem with ⟨c', err', he⟩ | ⟨c', mt', p', err', he⟩
    · cases he; exact ⟨rfl, rfl⟩
    · cases he

/-- C6, witness: with sender `10` and receiver `20` held and a receiver that answers `[1]`
three times before the ack token, the first tick runs an attempt with the payload `[1, 2, 3]`
and the ack token `[7]`, and that attempt makes one write. -/
theorem sendWithRetrial_writes_payload_witness :
    covalentIndexer.retrialLoop (mismatchEnv 3 [1] [7]) [1, 2, 3] [7] (3 + 1)
        { covalentIndexer.new with wss := some 10, wsr := some 20 } =
      (match (tickSnapshot (mismatchEnv 3 [1] [7])
          { covalentIndexer.new with wss := some 10, wsr := some 20 }).2.2.sendDataWithAcknowledge
          (mismatchEnv 3 [1] [7]) [1, 2, 3] [7] 10 20 with
        | (some true, c) => (.returned, c)
        | (some false, c) =>
          covalentIndexer.retrialLoop (mismatchEnv 3 [1] [7]) [1, 2, 3] [7] 3 c
        | (none, c) => (.blocked, c)) ∧
    writes (({ covalentIndexer.new with wss := some 10, wsr := some 20 }).sendDataWithAcknowledge
        (mismatchEnv 3 [1] [7]) [1, 2, 3] [7] 10 20).2.trace =
      writes ({ covalentIndexer.new with wss := some 10, wsr := some 20 }).trace + 1 :=
  ⟨(sendWithRetrial_writes_payload (mismatchEnv 3 [1] [7]) [1, 2, 3] [7]).2.1 3
      { covalentIndexer.new with wss := some 10, wsr := some 20 } 10 20 rfl rfl,
    ((sendWithRetrial_writes_payload (mismatchEnv 3 [1] [7]) [1, 2, 3] [7]).1 10 20
      { covalentIndexer.new with wss := some 10, wsr := some 20 }).1⟩

/-! ## Deliveries during which no other goroutine calls the indexer -/

theorem yield_quiet (env : Env) (hq : ∀ k, env.arrivals k = []) (ci : covalentIndexer) :
    ci.yield env = { ci with clock := ci.clock + 1 } := by
  simp [covalentIndexer.yield, hq]

theorem tickSnapshot_quiet (env : Env) (hq : ∀ k, env.arrivals k = []) (ci : covalentIndexer) :
    tickSnapshot env ci =
      (ci.wss, ci.wsr, { ci with
        clock := ci.clock + 3
        trace := .getWSR ci.wsr :: .getWSS ci.wss :: .tick :: ci.trace }) := by
  simp [tickSnapshot, covalentIndexer.awaitTick, covalentIndexer.callGetWSS,
    covalentIndexer.callGetWSR, covalentIndexer.getWSS, covalentIndexer.getWSR,
    covalentIndexer.record, yield_quiet env hq]

/-- An attempt whose write and read both succeed, with no other goroutine around. -/
theorem attempt_quiet (env : Env) (hq : ∀ k, env.arrivals k = []) (data ackData : Bytes)
    (s r : Conn) (ci : covalentIndexer) (mt : Int) (p : Bytes)
    (hw : env.WriteMessage ci.trace s websocket.BinaryMessage data = none)
    (hr : env.ReadMessage (.WriteMessage s websocket.BinaryMessage data none :: ci.trace) r =
      (mt, p, none)) :
    ci.sendDataWithAcknowledge env data ackData s r =
      (some (decide (mt = websocket.BinaryMessage ∧ p = ackData)),
        { ci with
          clock := ci.clock + 2
          trace := .ReadMessage r mt p none ::
            .WriteMessage s websocket.BinaryMessage data none :: ci.trace }) := by
  by_cases h1 : mt = websocket.BinaryMessage <;> by_cases h2 : p = ackData <;>
    simp [covalentIndexer.sendDataWithAcknowledge, covalentIndexer.callWriteMessage,
      covalentIndexer.callReadMessage, covalentIndexer.record, yield_quiet env hq, hw, hr, h1, h2]

/-- One undisturbed tick with a successful write and a successful binary read. -/
theorem retrialLoop_roundTrip (env : Env) (hq : ∀ k, env.arrivals k = []) (data ackData : Bytes)
    (s r : Conn) (n : Nat) (ci : covalentIndexer) (p : Bytes)
    (hs : ci.wss = some s) (hr : ci.wsr = some r)
    (hw : ∀ t mt d, env.WriteMessage t s mt d = none)
    (hread : env.ReadMessage (.WriteMessage s websocket.BinaryMessage data none ::
        .getWSR (some r) :: .getWSS (some s) :: .tick :: ci.trace) r =
      (websocket.BinaryMessage, p, none)) :
    covalentIndexer.retrialLoop env data ackData (n + 1) ci =
      if p = ackData then (.returned, afterRoundTrip s r data p ci)
      else covalentIndexer.retrialLoop env data ackData n (afterRoundTrip s r data p ci) := by
  rw [retrialLoop_succ, tickSnapshot_quiet env hq, hs, hr]
  simp only
  rw [attempt_quiet env hq data ackData s r _ _ _ (hw _ _ _) hread]
  by_cases h : p = ackData <;> simp [h, afterRoundTrip, hs, hr, Nat.add_assoc]

/-- The ticker loop against a receiver that answers `N` more non-matching binary frames and
then the ack token. -/
theorem retrialLoop_mismatch (env : Env) (hq : ∀ k, env.arrivals k = []) (data ackData : Bytes)
    (s r : Conn) (hw : ∀ t mt d, env.WriteMessage t s mt d = none) (N : Nat) :
    ∀ (ticks : Nat) (ci : covalentIndexer), ci.wss = some s → ci.wsr = some r →
      (∀ t, readsOn r t < readsOn r ci.trace + N →
        ∃ p, p ≠ ackData ∧ env.ReadMessage t r = (websocket.BinaryMessage, p, none)) →
      (∀ t, readsOn r t = readsOn r ci.trace + N →
        env.ReadMessage t r = (websocket.BinaryMessage, ackData, none)) →
      (N < ticks →
        (covalentIndexer.retrialLoop env data ackData ticks ci).1 = .returned ∧
        writes (covalentIndexer.retrialLoop env data ackData ticks ci).2.trace =
          writes ci.trace + (N + 1) ∧
        reads (covalentIndexer.retrialLoop env data ackData ticks ci).2.trace =
          reads ci.trace + (N + 1)) ∧
      (ticks ≤ N → (covalentIndexer.retrialLoop env data ackData ticks ci).1 = .ticking) := by
  induction N with
  | zero =>
    intro ticks ci hs hr _ hgood
    cases ticks with
    | zero => simp [covalentIndexer.retrialLoop]
    | succ n =>
      have hread := hgood (.WriteMessage s websocket.BinaryMessage data none ::
        .getWSR (some r) :: .getWSS (some s) :: .tick :: ci.trace) (by simp [readsOn, List.countP_cons])
      rw [retrialLoop_roundTrip env hq data ackData s r n ci ackData hs hr hw hread]
      simp [afterRoundTrip, writes, reads, List.countP_cons]
  | succ N ih =>
    intro ticks ci hs hr hbad hgood
    cases ticks with
    | zero => simp [covalentIndexer.retrialLoop]
    | succ n =>
      obtain ⟨p, hp, hread⟩ := hbad (.WriteMessage s websocket.BinaryMessage data none ::
        .getWSR (some r) :: .getWSS (some s) :: .tick :: ci.trace)
        (by simp [readsOn, List.countP_cons])
      rw [retrialLoop_roundTrip env hq data ackData s r n ci p hs hr hw hread, if_neg hp]
      have hcount : readsOn r (afterRoundTrip s r data p ci).trace = readsOn r ci.trace + 1 := by
        simp [afterRoundTrip, readsOn, List.countP_cons]
      have hwr : writes (afterRoundTrip s r data p ci).trace = writes ci.trace + 1 := by
        simp [afterRoundTrip, writes, List.countP_cons]
      have hrd : reads (afterRoundTrip s r data p ci).trace = reads ci.trace + 1 := by
        simp [afterRoundTrip, reads, List.countP_cons]
      have := ih n (afterRoundTrip s r data p ci) hs hr
        (fun t ht => hbad t (by rw [hcount] at ht; omega))
        (fun t ht => hgood t (by rw [hcount] at ht; omega))
      refine ⟨fun hlt => ?_, fun hle => ?_⟩
      · obtain ⟨h1, h2, h3⟩ := this.1 (by omega)
        exact ⟨h1, by rw [h2, hwr]; omega, by rw [h3, hrd]; omega⟩
      · exact this.2 (by omega)

theorem sendWithRetrial_quiet (env : Env) (hq : ∀ k, env.arrivals k = []) (ticks : Nat)
    (data ackData : Bytes) (s r : Conn) (ci : covalentIndexer)
    (hs : ci.wss = some s) (hr : ci.wsr = some r) :
    ci.sendWithRetrial env ticks data ackData =
      covalentIndexer.retrialLoop env data ackData ticks
        { ci with clock := ci.clock + 2, trace := .getWSR (some r) :: .getWSS (some s) :: ci.trace } := by
  simp [covalentIndexer.sendWithRetrial, covalentIndexer.callGetWSS, covalentIndexer.callGetWSR,
    covalentIndexer.getWSS, covalentIndexer.getWSR, covalentIndexer.record, yield_quiet env hq,
    hs, hr]

/-- C3: with a sender `s` and a receiver `r` held in the slots and no `SetWSSender` /
`SetWSReceiver` / `Close` call during the delivery, a sender whose `WriteMessage` always
succeeds and a receiver that answers `N` non-matching binary frames and then a binary frame
equal to the ack token, `sendWithRetrial` returns once `N + 1` ticks have passed, having made
exactly `N + 1` `WriteMessage` calls and exactly `N + 1` `ReadMessage` calls; it has not
returned after `N` ticks or fewer. -/
theorem sendWithRetrial_mismatch_retried (env : Env) (data ackData : Bytes) (s r : Conn)
    (N ticks : Nat) (ci : covalentIndexer)
    (hs : ci.wss = some s) (hr : ci.wsr = some r)
    (hq : ∀ k, env.arrivals k = [])
    (hw : ∀ t mt d, env.WriteMessage t s mt d = none)
    (hbad : ∀ t, readsOn r t < readsOn r ci.trace + N →
      ∃ p, p ≠ ackData ∧ env.ReadMessage t r = (websocket.BinaryMessage, p, none))
    (hgood : ∀ t, readsOn r t = readsOn r ci.trace + N →
      env.ReadMessage t r = (websocket.BinaryMessage, ackData, none)) :
    (N < ticks →
      (ci.sendWithRetrial env ticks data ackData).1 = .returned ∧
      writes (ci.sendWithRetrial env ticks data ackData).2.trace = writes ci.trace + (N + 1) ∧
      reads (ci.sendWithRetrial env ticks data ackData).2.trace = reads ci.trace + (N + 1)) ∧
    (ticks ≤ N → (ci.sendWithRetrial env ticks data ackData).1 = .ticking) := by
  rw [sendWithRetrial_quiet env hq ticks data ackData s r ci hs hr]
  have h := retrialLoop_mismatch env hq data ackData s r hw N ticks
    { ci with clock := ci.clock + 2, trace := .getWSR (some r) :: .getWSS (some s) :: ci.trace }
    hs hr
    (fun t ht => hbad t (by simpa [readsOn, List.countP_cons] using ht))
    (fun t ht => hgood t (by simpa [readsOn, List.countP_cons] using ht))
  simpa [writes, reads, List.countP_cons] using h

/-- C3, witness: the receiver answers `[1]` three times and then the ack token `[7]`; the call
returns at the fourth tick after four writes and four reads. -/
theorem sendWithRetrial_mismatch_retried_witness :
    (({ covalentIndexer.new with wss := some 10, wsr := some 20 }).sendWithRetrial
        (mismatchEnv 3 [1] [7]) 4 [1, 2, 3] [7]).1 = .returned ∧
    writes (({ covalentIndexer.new with wss := some 10, wsr := some 20 }).sendWithRetrial
        (mismatchEnv 3 [1] [7]) 4 [1, 2, 3] [7]).2.trace = 4 ∧
    reads (({ covalentIndexer.new with wss := some 10, wsr := some 20 }).sendWithRetrial
        (mismatchEnv 3 [1] [7]) 4 [1, 2, 3] [7]).2.trace = 4 :=
  (sendWithRetrial_mismatch_retried (mismatchEnv 3 [1] [7]) [1, 2, 3] [7] 10 20 3 4
    { covalentIndexer.new with wss := some 10, wsr := some 20 } rfl rfl (fun _ => rfl)
    (fun _ _ _ => rfl)
    (fun t ht => ⟨[1], by decide, by
      have h : readsOn 20 t < 3 := by simpa [covalentIndexer.new, readsOn] using ht
      simp [mismatchEnv, h]⟩)
    (fun t ht => by
      have h : ¬ readsOn 20 t < 3 := by
        have : readsOn 20 t = 3 := by simpa [covalentIndexer.new, readsOn] using ht
        omega
      simp [mismatchEnv, h])).1 (by decide)

/-! ## No write or read before both connections are installed -/

theorem runCall_deliveryEvents (env : Env) (ci : covalentIndexer) (c : Call) :
    deliveryEvents (covalentIndexer.runCall env ci c).trace = deliveryEvents ci.trace := by
  cases c <;>
    simp only [covalentIndexer.runCall, covalentIndexer.SetWSSender,
      covalentIndexer.SetWSReceiver, covalentIndexer.Close, covalentIndexer.record,
      covalentIndexer.getWSS, covalentIndexer.getWSR]
  · cases ci.wss <;> simp [deliveryEvents, List.filter_cons, Event.byDelivery]
  · cases ci.wsr <;> simp [deliveryEvents, List.filter_cons, Event.byDelivery]
  · cases ci.wss <;> cases ci.wsr <;> cases ci.server <;>
      simp [deliveryEvents, List.filter_cons, Event.byDelivery]

theorem yield_deliveryEvents (env : Env) (ci : covalentIndexer) :
    deliveryEvents (ci.yield env).trace = deliveryEvents ci.trace := by
  have h : ∀ (cs : List Call) (ci : covalentIndexer),
      deliveryEvents (cs.foldl (covalentIndexer.runCall env) ci).trace =
        deliveryEvents ci.trace := by
    intro cs
    induction cs with
    | nil => intro ci; rfl
    | cons c cs ih => intro ci; simp [List.foldl_cons, ih, runCall_deliveryEvents]
  simp [covalentIndexer.yield, h]

theorem deliveryEvents_cons (e : Event) (t : List Event) :
    deliveryEvents (e :: t) = if e.byDelivery then e :: deliveryEvents t else deliveryEvents t := by
  simp [deliveryEvents, List.filter_cons]

theorem callGetWSS_deliveryEvents (env : Env) (ci : covalentIndexer) :
    deliveryEvents (ci.callGetWSS env).2.trace =
      .getWSS (ci.callGetWSS env).1 :: deliveryEvents ci.trace := by
  simp [covalentIndexer.callGetWSS, record_trace, deliveryEvents_cons, Event.byDelivery,
    yield_deliveryEvents]

theorem callGetWSR_deliveryEvents (env : Env) (ci : covalentIndexer) :
    deliveryEvents (ci.callGetWSR env).2.trace =
      .getWSR (ci.callGetWSR env).1 :: deliveryEvents ci.trace := by
  simp [covalentIndexer.callGetWSR, record_trace, deliveryEvents_cons, Event.byDelivery,
    yield_deliveryEvents]

theorem awaitTick_deliveryEvents (env : Env) (ci : covalentIndexer) :
    deliveryEvents (ci.awaitTick env).trace = .tick :: deliveryEvents ci.trace := by
  simp [covalentIndexer.awaitTick, record_trace, deliveryEvents_cons, Event.byDelivery,
    yield_deliveryEvents]

theorem tickSnapshot_deliveryEvents (env : Env) (ci : covalentIndexer) :
    deliveryEvents (tickSnapshot env ci).2.2.trace =
      .getWSR (tickSnapshot env ci).2.1 :: .getWSS (tickSnapshot env ci).1 :: .tick ::
        deliveryEvents ci.trace := by
  have e1 : (tickSnapshot env ci).2.2 =
      (((ci.awaitTick env).callGetWSS env).2.callGetWSR env).2 := rfl
  have e2 : (tickSnapshot env ci).2.1 =
      (((ci.awaitTick env).callGetWSS env).2.callGetWSR env).1 := rfl
  have e3 : (tickSnapshot env ci).1 = ((ci.awaitTick env).callGetWSS env).1 := rfl
  rw [e1, e2, e3, callGetWSR_deliveryEvents, callGetWSS_deliveryEvents, awaitTick_deliveryEvents]

theorem installedWSS_cons (e : Event) (t : List Event) (h : installedWSS t = true) :
    installedWSS (e :: t) = true := by
  simp only [installedWSS, List.any_cons, Bool.or_eq_true] at h ⊢
  exact Or.inr h

theorem installedWSR_cons (e : Event) (t : List Event) (h : installedWSR t = true) :
    installedWSR (e :: t) = true := by
  simp only [installedWSR, List.any_cons, Bool.or_eq_true] at h ⊢
  exact Or.inr h

theorem carries_cons (a b : Bool) (ci : covalentIndexer) (e : Event) (he : e.isIO = false)
    (h : Carries a b ci) : Carries a b { ci with trace := e :: ci.trace } := by
  obtain ⟨⟨h1, h2, h3⟩, h4, h5⟩ := h
  refine ⟨⟨fun h => installedWSS_cons _ _ (h1 h), fun h => installedWSR_cons _ _ (h2 h), ?_⟩,
    fun h => installedWSS_cons _ _ (h4 h), fun h => installedWSR_cons _ _ (h5 h)⟩
  simp [ioAfterInstall, he, h3]

theorem carries_cons_io (ci : covalentIndexer) (e : Event) (h : Carries true true ci) :
    Carries true true { ci with trace := e :: ci.trace } := by
  obtain ⟨⟨h1, h2, h3⟩, h4, h5⟩ := h
  refine ⟨⟨fun h => installedWSS_cons _ _ (h1 h), fun h => installedWSR_cons _ _ (h2 h), ?_⟩,
    fun h => installedWSS_cons _ _ (h4 h), fun h => installedWSR_cons _ _ (h5 h)⟩
  simp [ioAfterInstall, h3, h4 rfl, h5 rfl]

theorem carries_assign_wss (a b : Bool) (wss : WSConn) (n : Nat) (c : covalentIndexer)
    (h : Carries a b c) :
    Carries a b { c with wss := wss, trace := .setWSS wss :: c.trace, newConnectionWSS := n } := by
  obtain ⟨⟨h1, h2, h3⟩, h4, h5⟩ := h
  refine ⟨⟨fun hne => ?_, fun h => installedWSR_cons _ _ (h2 h), ?_⟩,
    fun h => installedWSS_cons _ _ (h4 h), fun h => installedWSR_cons _ _ (h5 h)⟩
  · cases wss with
    | none => exact absurd rfl hne
    | some w => simp [installedWSS]
  · simp [ioAfterInstall, Event.isIO, h3]

theorem carries_assign_wsr (a b : Bool) (wsr : WSConn) (n : Nat) (c : covalentIndexer)
    (h : Carries a b c) :
    Carries a b { c with wsr := wsr, trace := .setWSR wsr :: c.trace, newConnectionWSR := n } := by
  obtain ⟨⟨h1, h2, h3⟩, h4, h5⟩ := h
  refine ⟨⟨fun h => installedWSS_cons _ _ (h1 h), fun hne => ?_, ?_⟩,
    fun h => installedWSS_cons _ _ (h4 h), fun h => installedWSR_cons _ _ (h5 h)⟩
  · cases wsr with
    | none => exact absurd rfl hne
    | some w => simp [installedWSR]
  · simp [ioAfterInstall, Event.isIO, h3]

theorem carries_SetWSSender (env : Env) (a b : Bool) (wss : WSConn) (ci : covalentIndexer)
    (h : Carries a b ci) : Carries a b (ci.SetWSSender env wss) := by
  cases hw : ci.wss with
  | none =>
    have e : ci.SetWSSender env wss = { ci with
        wss := wss, trace := .setWSS wss :: ci.trace,
        newConnectionWSS := ci.newConnectionWSS + 1 } := by
      simp [covalentIndexer.SetWSSender, hw]
    rw [e]
    exact carries_assign_wss a b wss _ ci h
  | some old =>
    have e : ci.SetWSSender env wss = { ci.record (.Close old (env.Close ci.trace old)) with
        wss := wss
        trace := .setWSS wss :: (ci.record (.Close old (env.Close ci.trace old))).trace
        newConnectionWSS := ci.newConnectionWSS + 1 } := by
      simp [covalentIndexer.SetWSSender, hw, covalentIndexer.record]
    rw [e]
    exact carries_assign_wss a b wss _ _ (carries_cons a b ci _ rfl h)

theorem carries_SetWSReceiver (env : Env) (a b : Bool) (wsr : WSConn) (ci : covalentIndexer)
    (h : Carries a b ci) : Carries a b (ci.SetWSReceiver env wsr) := by
  cases hw : ci.wsr with
  | none =>
    have e : ci.SetWSReceiver env wsr = { ci with
        wsr := wsr, trace := .setWSR wsr :: ci.trace,
        newConnectionWSR := ci.newConnectionWSR + 1 } := by
      simp [covalentIndexer.SetWSReceiver, hw]
    rw [e]
    exact carries_assign_wsr a b wsr _ ci h
  | some old =>
    have e : ci.SetWSReceiver env wsr = { ci.record (.Close old (env.Close ci.trace old)) with
        wsr := wsr
        trace := .setWSR wsr :: (ci.record (.Close old (env.Close ci.trace old))).trace
        newConnectionWSR := ci.newConnectionWSR + 1 } := by
      simp [covalentIndexer.SetWSReceiver, hw, covalentIndexer.record]
    rw [e]
    exact carries_assign_wsr a b wsr _ _ (carries_cons a b ci _ rfl h)

theorem carries_Close (env : Env) (a b : Bool) (ci : covalentIndexer) (h : Carries a b ci) :
    Carries a b (ci.Close env).2 := by
  unfold covalentIndexer.Close
  simp only [covalentIndexer.getWSS, covalentIndexer.getWSR]
  have h1 : Carries a b (match ci.wss with
      | some c => ci.record (.Close c (env.Close ci.trace c))
      | none => ci) := by
    cases ci.wss with
    | none => exact h
    | some old => exact carries_cons a b ci _ rfl h
  generalize (match ci.wss with
      | some c => ci.record (.Close c (env.Close ci.trace c))
      | none => ci) = c1 at h1 ⊢
  have h2 : Carries a b (match ci.wsr with
      | some c => c1.record (.Close c (env.Close c1.trace c))
      | none => c1) := by
    cases ci.wsr with
    | none => exact h1
    | some old => exact carries_cons a b c1 _ rfl h1
  generalize (match ci.wsr with
      | some c => c1.record (.Close c (env.Close c1.trace c))
      | none => c1) = c2 at h2 ⊢
  split_ifs
  · exact carries_cons a b c2 _ rfl h2
  · exact h2

theorem carries_yield (env : Env) (a b : Bool) (ci : covalentIndexer) (h : Carries a b ci) :
    Carries a b (ci.yield env) := by
  have hf : ∀ (cs : List Call) (ci : covalentIndexer), Carries a b ci →
      Carries a b (cs.foldl (covalentIndexer.runCall env) ci) := by
    intro cs
    induction cs with
    | nil => intro ci h; exact h
    | cons c cs ih =>
      intro ci h
      rw [List.foldl_cons]
      apply ih
      cases c with
      | SetWSSender w => exact carries_SetWSSender env a b w ci h
      | SetWSReceiver w => exact carries_SetWSReceiver env a b w ci h
      | Close => exact carries_Close env a b ci h
  exact hf _ _ h

theorem carries_callGetWSS (env : Env) (a b : Bool) (ci : covalentIndexer) (h : Carries a b ci) :
    Carries (a || (ci.callGetWSS env).1.isSome) b (ci.callGetWSS env).2 := by
  have hy := carries_yield env a b ci h
  have hc := carries_cons a b (ci.yield env) (.getWSS (ci.yield env).getWSS) rfl hy
  refine ⟨hc.1, fun hab => ?_, hc.2.2⟩
  simp only [Bool.or_eq_true] at hab
  rcases hab with ha | hs
  · exact hc.2.1 ha
  · apply installedWSS_cons
    apply hy.1.1
    intro hn
    simp [covalentIndexer.callGetWSS, covalentIndexer.getWSS, hn] at hs

theorem carries_callGetWSR (env : Env) (a b : Bool) (ci : covalentIndexer) (h : Carries a b ci) :
    Carries a (b || (ci.callGetWSR env).1.isSome) (ci.callGetWSR env).2 := by
  have hy := carries_yield env a b ci h
  have hc := carries_cons a b (ci.yield env) (.getWSR (ci.yield env).getWSR) rfl hy
  refine ⟨hc.1, hc.2.1, fun hab => ?_⟩
  simp only [Bool.or_eq_true] at hab
  rcases hab with ha | hs
  · exact hc.2.2 ha
  · apply installedWSR_cons
    apply hy.1.2.1
    intro hn
    simp [covalentIndexer.callGetWSR, covalentIndexer.getWSR, hn] at hs

theorem carries_awaitTick (env : Env) (a b : Bool) (ci : covalentIndexer) (h : Carries a b ci) :
    Carries a b (ci.awaitTick env) :=
  carries_cons a b (ci.yield env) .tick rfl (carries_yield env a b ci h)

theorem carries_waitForWSSConnection (env : Env) (a b : Bool) (ci : covalentIndexer)
    (h : Carries a b ci) : Carries a b (ci.waitForWSSConnection env).2 := by
  have hy := carries_yield env a b ci h
  simp only [covalentIndexer.waitForWSSConnection]
  split_ifs
  · exact hy
  · exact carries_cons a b (ci.yield env) .recvWSS rfl hy

theorem carries_waitForWSRConnection (env : Env) (a b : Bool) (ci : covalentIndexer)
    (h : Carries a b ci) : Carries a b (ci.waitForWSRConnection env).2 := by
  have hy := carries_yield env a b ci h
  simp only [covalentIndexer.waitForWSRConnection]
  split_ifs
  · exact hy
  · exact carries_cons a b (ci.yield env) .recvWSR rfl hy

theorem carries_callWriteMessage (env : Env) (c : Conn) (mt : Int) (d : Bytes)
    (ci : covalentIndexer) (h : Carries true true ci) :
    Carries true true (ci.callWriteMessage env c mt d).2 :=
  carries_cons_io (ci.yield env) _ (carries_yield env true true ci h)

theorem carries_callReadMessage (env : Env) (c : Conn) (ci : covalentIndexer)
    (h : Carries true true ci) : Carries true true (ci.callReadMessage env c).2 :=
  carries_cons_io (ci.yield env) _ (carries_yield env true true ci h)

theorem carries_readAndCheck (env : Env) (ackData : Bytes) (wsr : Conn) (errSend : Error)
    (ci : covalentIndexer) (h : Carries true true ci) :
    Carries true true (readAndCheck env ackData wsr errSend ci).2 := by
  unfold readAndCheck
  have hr := carries_callReadMessage env wsr ci h
  generalize ci.callReadMessage env wsr = x at hr ⊢
  obtain ⟨⟨msgType, p, errRead⟩, s2⟩ := x
  simp only at hr ⊢
  have hg : Carries true true
      (if errRead ≠ none then s2.waitForWSRConnection env else (true, s2)).2 := by
    split_ifs
    · exact carries_waitForWSRConnection env true true s2 hr
    · exact hr
  generalize (if errRead ≠ none then s2.waitForWSRConnection env else (true, s2)) = g at hg ⊢
  obtain ⟨b, s3⟩ := g
  cases b
  · exact hg
  · simp only
    split_ifs <;> exact hg

theorem carries_sendDataWithAcknowledge (env : Env) (data ackData : Bytes) (wss wsr : Conn)
    (ci : covalentIndexer) (h : Carries true true ci) :
    Carries true true (ci.sendDataWithAcknowledge env data ackData wss wsr).2 := by
  rw [sendDataWithAcknowledge_eq]
  have hw := carries_callWriteMessage env wss websocket.BinaryMessage data ci h
  generalize ci.callWriteMessage env wss websocket.BinaryMessage data = x at hw ⊢
  obtain ⟨errSend, s1⟩ := x
  simp only at hw ⊢
  have hg : Carries true true
      (if errSend ≠ none then s1.waitForWSSConnection env else (true, s1)).2 := by
    split_ifs
    · exact carries_waitForWSSConnection env true true s1 hw
    · exact hw
  generalize (if errSend ≠ none then s1.waitForWSSConnection env else (true, s1)) = g at hg ⊢
  obtain ⟨b, s2⟩ := g
  cases b
  · exact hg
  · exact carries_readAndCheck env ackData wsr errSend s2 hg

theorem carries_tickSnapshot (env : Env) (a b : Bool) (ci : covalentIndexer)
    (h : Carries a b ci) :
    Carries (a || (tickSnapshot env ci).1.isSome) (b || (tickSnapshot env ci).2.1.isSome)
      (tickSnapshot env ci).2.2 :=
  carries_callGetWSR env _ b _ (carries_callGetWSS env a b _ (carries_awaitTick env a b ci h))

theorem consistent_retrialLoop (env : Env) (data ackData : Bytes) (n : Nat) :
    ∀ (a b : Bool) (ci : covalentIndexer), Carries a b ci →
      (covalentIndexer.retrialLoop env data ackData n ci).2.Consistent := by
  induction n with
  | zero => intro a b ci h; exact h.1
  | succ n ih =>
    intro a b ci h
    rw [retrialLoop_succ]
    have h3 := carries_tickSnapshot env a b ci h
    generalize tickSnapshot env ci = x at h3 ⊢
    obtain ⟨wss, wsr, ci3⟩ := x
    simp only at h3 ⊢
    cases wss with
    | none => exact ih _ _ ci3 h3
    | some s =>
      cases wsr with
      | none => exact ih _ _ ci3 h3
      | some r =>
        simp only
        have h3' : Carries true true ci3 := by simpa using h3
        have h4 := carries_sendDataWithAcknowledge env data ackData s r ci3 h3'
        generalize ci3.sendDataWithAcknowledge env data ackData s r = y at h4 ⊢
        obtain ⟨res, ci4⟩ := y
        cases res with
        | none => exact h4.1
        | some v =>
          cases v with
          | true => exact h4.1
          | false => exact ih true true ci4 h4

theorem consistent_sendWithRetrial (env : Env) (ticks : Nat) (data ackData : Bytes)
    (ci : covalentIndexer) (h : ci.Consistent) :
    (ci.sendWithRetrial env ticks data ackData).2.Consistent := by
  unfold covalentIndexer.sendWithRetrial
  have h0 : Carries false false ci := ⟨h, by simp, by simp⟩
  have h1 := carries_callGetWSS env false false ci h0
  generalize ci.callGetWSS env = x at h1 ⊢
  obtain ⟨wss, c1⟩ := x
  simp only at h1 ⊢
  have h2 := carries_callGetWSR env _ false c1 h1
  generalize c1.callGetWSR env = x at h2 ⊢
  obtain ⟨wsr, c2⟩ := x
  simp only at h2 ⊢
  have h3 : Carries (false || wss.isSome) (false || wsr.isSome)
      (if wss = none then c2.waitForWSSConnection env else (true, c2)).2 := by
    split_ifs
    · exact carries_waitForWSSConnection env _ _ c2 h2
    · exact h2
  generalize (if wss = none then c2.waitForWSSConnection env else (true, c2)) = g at h3 ⊢
  obtain ⟨b, c3⟩ := g
  cases b with
  | false => exact h3.1
  | true =>
    simp only at h3 ⊢
    have h4 : Carries (false || wss.isSome) (false || wsr.isSome)
        (if wsr = none then c3.waitForWSRConnection env else (true, c3)).2 := by
      split_ifs
      · exact carries_waitForWSRConnection env _ _ c3 h3
      · exact h3
    generalize (if wsr = none then c3.waitForWSRConnection env else (true, c3)) = g at h4 ⊢
    obtain ⟨b, c4⟩ := g
    cases b with
    | false => exact h4.1
    | true => exact consistent_retrialLoop env data ackData ticks _ _ c4 h4

theorem sendWithRetrial_zero_io (env : Env) (data ackData : Bytes) (ci : covalentIndexer) :
    io (ci.sendWithRetrial env 0 data ackData).2.trace = io ci.trace := by
  unfold covalentIndexer.sendWithRetrial
  have h1 := callGetWSS_io env ci
  generalize ci.callGetWSS env = x at h1 ⊢
  obtain ⟨wss, c1⟩ := x
  simp only at h1 ⊢
  have h2 := callGetWSR_io env c1
  generalize c1.callGetWSR env = x at h2 ⊢
  obtain ⟨wsr, c2⟩ := x
  simp only at h2 ⊢
  have h3 := initialWaitWSS_io env wss c2
  generalize (if wss = none then c2.waitForWSSConnection env else (true, c2)) = g at h3 ⊢
  obtain ⟨b, c3⟩ := g
  cases b with
  | false => simp_all
  | true =>
    have h4 := initialWaitWSR_io env wsr c3
    simp only at h3 h4 ⊢
    generalize (if wsr = none then c3.waitForWSRConnection env else (true, c3)) = g at h4 ⊢
    obtain ⟨b, c4⟩ := g
    cases b with
    | false => simp_all
    | true => simp_all [covalentIndexer.retrialLoop]

/-- C4: a tick of the retry loop at which `getWSS()` or `getWSR()` returned nil performs
nothing but the tick and the two slot reads (no write, no read, no wait) and goes on to the next
tick; before the first tick `sendWithRetrial` makes no `WriteMessage` / `ReadMessage` call; and
in every history that `sendWithRetrial` produces, finished or not, every `WriteMessage` /
`ReadMessage` call comes after a `SetWSSender` and a `SetWSReceiver` call that installed a
non-nil connection. -/
theorem sendWithRetrial_no_io_before_install (env : Env) (data ackData : Bytes) :
    (∀ (n : Nat) (ci : covalentIndexer),
      (tickSnapshot env ci).1 = none ∨ (tickSnapshot env ci).2.1 = none →
      covalentIndexer.retrialLoop env data ackData (n + 1) ci =
        covalentIndexer.retrialLoop env data ackData n (tickSnapshot env ci).2.2 ∧
      deliveryEvents (tickSnapshot env ci).2.2.trace =
        .getWSR (tickSnapshot env ci).2.1 :: .getWSS (tickSnapshot env ci).1 :: .tick ::
          deliveryEvents ci.trace) ∧
    (∀ ci : covalentIndexer,
      io (ci.sendWithRetrial env 0 data ackData).2.trace = io ci.trace) ∧
    (∀ (ticks : Nat) (ci : covalentIndexer), ci.Consistent →
      ioAfterInstall (ci.sendWithRetrial env ticks data ackData).2.trace = true) := by
  refine ⟨fun n ci h => ⟨?_, tickSnapshot_deliveryEvents env ci⟩, fun ci => ?_,
    fun ticks ci h => (consistent_sendWithRetrial env ticks data ackData ci h).2.2⟩
  · rw [retrialLoop_succ]
    rcases h with h | h
    · rw [h]
    · rw [h]
      cases (tickSnapshot env ci).1 <;> rfl
  · exact sendWithRetrial_zero_io env data ackData ci

/-- C4, witness: a tick of a fresh indexer with empty slots only ticks and reads the slots; and
when both connections are installed while `sendWithRetrial` waits for its first sender, all the
writes and reads of the delivery come after the two installations. -/
theorem sendWithRetrial_no_io_before_install_witness :
    (covalentIndexer.retrialLoop (quietEnv none (websocket.BinaryMessage, [7], none))
        [1, 2, 3] [7] (0 + 1) covalentIndexer.new =
      covalentIndexer.retrialLoop (quietEnv none (websocket.BinaryMessage, [7], none))
        [1, 2, 3] [7] 0
        (tickSnapshot (quietEnv none (websocket.BinaryMessage, [7], none))
          covalentIndexer.new).2.2 ∧
      deliveryEvents (tickSnapshot (quietEnv none (websocket.BinaryMessage, [7], none))
          covalentIndexer.new).2.2.trace =
        .getWSR (tickSnapshot (quietEnv none (websocket.BinaryMessage, [7], none))
            covalentIndexer.new).2.1 ::
          .getWSS (tickSnapshot (quietEnv none (websocket.BinaryMessage, [7], none))
            covalentIndexer.new).1 :: .tick :: deliveryEvents covalentIndexer.new.trace) ∧
    (covalentIndexer.new.sendWithRetrial lateEnv 4 [1, 2, 3] [7]).1 = .returned ∧
    ioAfterInstall (covalentIndexer.new.sendWithRetrial lateEnv 4 [1, 2, 3] [7]).2.trace = true :=
  ⟨(sendWithRetrial_no_io_before_install (quietEnv none (websocket.BinaryMessage, [7], none))
      [1, 2, 3] [7]).1 0 covalentIndexer.new (Or.inl rfl),
    by decide,
    (sendWithRetrial_no_io_before_install lateEnv [1, 2, 3] [7]).2.2 4 covalentIndexer.new
      ⟨fun h => absurd rfl h, fun h => absurd rfl h, rfl⟩⟩

/-! ## A failed read and the wait for a new receiver -/

theorem runCall_balanceWSR (env : Env) (ci : covalentIndexer) (c : Call) :
    (covalentIndexer.runCall env ci c).newConnectionWSR + installsWSR ci.trace =
      ci.newConnectionWSR + installsWSR (covalentIndexer.runCall env ci c).trace := by
  cases c <;>
    simp only [covalentIndexer.runCall, covalentIndexer.SetWSSender,
      covalentIndexer.SetWSReceiver, covalentIndexer.Close, covalentIndexer.record,
      covalentIndexer.getWSS, covalentIndexer.getWSR]
  · cases ci.wss <;> simp [installsWSR, List.countP_cons]
  · cases ci.wsr <;> simp [installsWSR, List.countP_cons] <;> omega
  · cases ci.wss <;> cases ci.wsr <;> cases ci.server <;> simp [installsWSR, List.countP_cons]

theorem yield_balanceWSR (env : Env) (ci : covalentIndexer) :
    (ci.yield env).newConnectionWSR + installsWSR ci.trace =
      ci.newConnectionWSR + installsWSR (ci.yield env).trace := by
  have h : ∀ (cs : List Call) (ci : covalentIndexer),
      (cs.foldl (covalentIndexer.runCall env) ci).newConnectionWSR + installsWSR ci.trace =
        ci.newConnectionWSR +
          installsWSR (cs.foldl (covalentIndexer.runCall env) ci).trace := by
    intro cs
    induction cs with
    | nil => intro ci; rfl
    | cons c cs ih =>
      intro ci
      rw [List.foldl_cons]
      have h1 := ih (covalentIndexer.runCall env ci c)
      have h2 := runCall_balanceWSR env ci c
      omega
  exact h _ ci

theorem callWriteMessage_balanceWSR (env : Env) (c : Conn) (mt : Int) (d : Bytes)
    (ci : covalentIndexer) :
    (ci.callWriteMessage env c mt d).2.newConnectionWSR + installsWSR ci.trace =
      ci.newConnectionWSR + installsWSR (ci.callWriteMessage env c mt d).2.trace := by
  have h := yield_balanceWSR env ci
  simpa [covalentIndexer.callWriteMessage, covalentIndexer.record, installsWSR,
    List.countP_cons] using h

theorem callReadMessage_balanceWSR (env : Env) (c : Conn) (ci : covalentIndexer) :
    (ci.callReadMessage env c).2.newConnectionWSR + installsWSR ci.trace =
      ci.newConnectionWSR + installsWSR (ci.callReadMessage env c).2.trace := by
  have h := yield_balanceWSR env ci
  simpa [covalentIndexer.callReadMessage, covalentIndexer.record, installsWSR,
    List.countP_cons] using h

theorem waitForWSSConnection_balanceWSR (env : Env) (ci : covalentIndexer) :
    (ci.waitForWSSConnection env).2.newConnectionWSR + installsWSR ci.trace =
      ci.newConnectionWSR + installsWSR (ci.waitForWSSConnection env).2.trace := by
  have h := yield_balanceWSR env ci
  simp only [covalentIndexer.waitForWSSConnection]
  split_ifs
  · exact h
  · simpa [installsWSR, List.countP_cons] using h

/-- A released receiver wait: unless a `SetWSReceiver` caller was parked already, a
`SetWSReceiver` call took effect during the wait. -/
theorem waitForWSRConnection_released (env : Env) (ci : covalentIndexer)
    (h : (ci.waitForWSRConnection env).1 = true) :
    installsWSR ci.trace + 1 ≤
      installsWSR (ci.waitForWSRConnection env).2.trace + ci.newConnectionWSR := by
  have hy := yield_balanceWSR env ci
  simp only [covalentIndexer.waitForWSRConnection] at h ⊢
  split_ifs at h ⊢ with h0
  · have e : installsWSR (Event.recvWSR :: (ci.yield env).trace) =
        installsWSR (ci.yield env).trace := by
      simp [installsWSR, List.countP_cons]
    show installsWSR ci.trace + 1 ≤
      installsWSR (Event.recvWSR :: (ci.yield env).trace) + ci.newConnectionWSR
    rw [e]
    omega

theorem readAndCheck_read_failed (env : Env) (ackData : Bytes) (wsr : Conn) (errSend : Error)
    (ci : covalentIndexer) (mt : Int) (p : Bytes) (e : String) (rest : List Event)
    (h : io (readAndCheck env ackData wsr errSend ci).2.trace =
      .ReadMessage wsr mt p (some e) :: rest) :
    (readAndCheck env ackData wsr errSend ci).1 ≠ some true ∧
    ((readAndCheck env ackData wsr errSend ci).1 = some false →
      installsWSR ci.trace + 1 ≤
        installsWSR (readAndCheck env ackData wsr errSend ci).2.trace +
          ci.newConnectionWSR) := by
  unfold readAndCheck at h ⊢
  have hr := callReadMessage_io env wsr ci
  have hb := callReadMessage_balanceWSR env wsr ci
  generalize ci.callReadMessage env wsr = x at hr hb h ⊢
  obtain ⟨⟨msgType, q, errRead⟩, s2⟩ := x
  simp only at hr hb h ⊢
  by_cases he : errRead = none
  · subst he
    exfalso
    by_cases h1 : errSend = none ∧ msgType = websocket.BinaryMessage <;>
      by_cases h2 : q = ackData <;> simp [h1, h2, hr] at h
  · have hw := waitForWSRConnection_io env s2
    have hrel := waitForWSRConnection_released env s2
    generalize s2.waitForWSRConnection env = y at hw hrel h ⊢
    obtain ⟨b, s3⟩ := y
    cases b
    · simp [he]
    · simp only [ne_eq, he, not_false_eq_true, ↓reduceIte, false_and, and_false, reduceCtorEq,
        Option.some.injEq, Bool.false_eq_true, forall_const, true_and]
      have := hrel rfl
      simp only at this
      omega

/-- An attempt whose read returned an error is not acknowledged, and if it returns although no
`SetWSReceiver` caller was parked when it began, a `SetWSReceiver` call took effect during
the attempt. -/
theorem attempt_read_failed (env : Env) (data ackData : Bytes) (wss wsr : Conn)
    (ci : covalentIndexer) (mt : Int) (p : Bytes) (e : String) (rest : List Event)
    (h : io (ci.sendDataWithAcknowledge env data ackData wss wsr).2.trace =
      .ReadMessage wsr mt p (some e) :: rest) :
    (ci.sendDataWithAcknowledge env data ackData wss wsr).1 ≠ some true ∧
    ((ci.sendDataWithAcknowledge env data ackData wss wsr).1 = some false →
      installsWSR ci.trace + 1 ≤
        installsWSR (ci.sendDataWithAcknowledge env data ackData wss wsr).2.trace +
          ci.newConnectionWSR) := by
  rw [sendDataWithAcknowledge_eq] at h ⊢
  have hw := callWriteMessage_io env wss websocket.BinaryMessage data ci
  have hb := callWriteMessage_balanceWSR env wss websocket.BinaryMessage data ci
  generalize ci.callWriteMessage env wss websocket.BinaryMessage data = x at hw hb h ⊢
  obtain ⟨errSend, s1⟩ := x
  simp only at hw hb h ⊢
  have hg : (if errSend ≠ none then s1.waitForWSSConnection env else (true, s1)).2.newConnectionWSR +
      installsWSR s1.trace = s1.newConnectionWSR +
        installsWSR (if errSend ≠ none then s1.waitForWSSConnection env else (true, s1)).2.trace := by
    split_ifs
    · exact waitForWSSConnection_balanceWSR env s1
    · rfl
  have hio : io (if errSend ≠ none then s1.waitForWSSConnection env else (true, s1)).2.trace =
      io s1.trace := by
    split_ifs
    · exact waitForWSSConnection_io env s1
    · rfl
  generalize (if errSend ≠ none then s1.waitForWSSConnection env else (true, s1)) = g at hg hio h ⊢
  obtain ⟨b, s2⟩ := g
  cases b
  · simp only at h hio
    rw [hio, hw] at h
    simp at h
  · simp only at h hg ⊢
    obtain ⟨h1, h2⟩ := readAndCheck_read_failed env ackData wsr errSend s2 mt p e rest h
    refine ⟨h1, fun hf => ?_⟩
    have := h2 hf
    omega

/-! ## Properties that the steps of the delivering goroutine keep -/

theorem stable_callGetWSS (env : Env) (P : covalentIndexer → Prop) (hS : Stable env P)
    (ci : covalentIndexer) (h : P ci) : P (ci.callGetWSS env).2 :=
  hS.record _ _ rfl (hS.yield _ h)

theorem stable_callGetWSR (env : Env) (P : covalentIndexer → Prop) (hS : Stable env P)
    (ci : covalentIndexer) (h : P ci) : P (ci.callGetWSR env).2 :=
  hS.record _ _ rfl (hS.yield _ h)

theorem stable_awaitTick (env : Env) (P : covalentIndexer → Prop) (hS : Stable env P)
    (ci : covalentIndexer) (h : P ci) : P (ci.awaitTick env) :=
  hS.record _ _ rfl (hS.yield _ h)

theorem stable_callWriteMessage (env : Env) (P : covalentIndexer → Prop) (hS : Stable env P)
    (c : Conn) (mt : Int) (d : Bytes) (ci : covalentIndexer) (h : P ci) :
    P (ci.callWriteMessage env c mt d).2 :=
  hS.record _ _ rfl (hS.yield _ h)

theorem stable_callReadMessage (env : Env) (P : covalentIndexer → Prop) (hS : Stable env P)
    (c : Conn) (ci : covalentIndexer) (h : P ci) : P (ci.callReadMessage env c).2 :=
  hS.record _ _ rfl (hS.yield _ h)

theorem stable_waitForWSSConnection (env : Env) (P : covalentIndexer → Prop)
    (hS : Stable env P) (ci : covalentIndexer) (h : P ci) :
    P (ci.waitForWSSConnection env).2 := by
  simp only [covalentIndexer.waitForWSSConnection]
  split_ifs
  · exact hS.yield _ h
  · exact hS.record _ .recvWSS rfl
      (hS.parked _ ((ci.yield env).newConnectionWSS - 1) (ci.yield env).newConnectionWSR
        (hS.yield _ h))

theorem stable_waitForWSRConnection (env : Env) (P : covalentIndexer → Prop)
    (hS : Stable env P) (ci : covalentIndexer) (h : P ci) :
    P (ci.waitForWSRConnection env).2 := by
  simp only [covalentIndexer.waitForWSRConnection]
  split_ifs
  · exact hS.yield _ h
  · exact hS.record _ .recvWSR rfl
      (hS.parked _ (ci.yield env).newConnectionWSS ((ci.yield env).newConnectionWSR - 1)
        (hS.yield _ h))

theorem stable_readAndCheck (env : Env) (P : covalentIndexer → Prop) (hS : Stable env P)
    (ackData : Bytes) (wsr : Conn) (errSend : Error) (ci : covalentIndexer) (h : P ci) :
    P (readAndCheck env ackData wsr errSend ci).2 := by
  unfold readAndCheck
  have hr := stable_callReadMessage env P hS wsr ci h
  generalize ci.callReadMessage env wsr = x at hr ⊢
  obtain ⟨⟨msgType, q, errRead⟩, s2⟩ := x
  simp only at hr ⊢
  have hg : P (if errRead ≠ none then s2.waitForWSRConnection env else (true, s2)).2 := by
    split_ifs
    · exact stable_waitForWSRConnection env P hS s2 hr
    · exact hr
  generalize (if errRead ≠ none then s2.waitForWSRConnection env else (true, s2)) = g at hg ⊢
  obtain ⟨b, s3⟩ := g
  cases b
  · exact hg
  · simp only
    split_ifs <;> exact hg

theorem stable_sendDataWithAcknowledge (env : Env) (P : covalentIndexer → Prop)
    (hS : Stable env P) (data ackData : Bytes) (wss wsr : Conn) (ci : covalentIndexer)
    (h : P ci) : P (ci.sendDataWithAcknowledge env data ackData wss wsr).2 := by
  rw [sendDataWithAcknowledge_eq]
  have hw := stable_callWriteMessage env P hS wss websocket.BinaryMessage data ci h
  generalize ci.callWriteMessage env wss websocket.BinaryMessage data = x at hw ⊢
  obtain ⟨errSend, s1⟩ := x
  simp only at hw ⊢
  have hg : P (if errSend ≠ none then s1.waitForWSSConnection env else (true, s1)).2 := by
    split_ifs
    · exact stable_waitForWSSConnection env P hS s1 hw
    · exact hw
  generalize (if errSend ≠ none then s1.waitForWSSConnection env else (true, s1)) = g at hg ⊢
  obtain ⟨b, s2⟩ := g
  cases b
  · exact hg
  · exact stable_readAndCheck env P hS ackData wsr errSend s2 hg

theorem stable_tickSnapshot (env : Env) (P : covalentIndexer → Prop) (hS : Stable env P)
    (ci : covalentIndexer) (h : P ci) : P (tickSnapshot env ci).2.2 :=
  stable_callGetWSR env P hS _
    (stable_callGetWSS env P hS _ (stable_awaitTick env P hS ci h))

theorem stable_retrialLoop (env : Env) (P : covalentIndexer → Prop) (hS : Stable env P)
    (data ackData : Bytes) (n : Nat) :
    ∀ ci : covalentIndexer, P ci → P (covalentIndexer.retrialLoop env data ackData n ci).2 := by
  induction n with
  | zero => intro ci h; exact h
  | succ n ih =>
    intro ci h
    rw [retrialLoop_succ]
    have h3 := stable_tickSnapshot env P hS ci h
    generalize tickSnapshot env ci = x at h3 ⊢
    obtain ⟨wss, wsr, ci3⟩ := x
    simp only at h3 ⊢
    cases wss with
    | none => exact ih ci3 h3
    | some s =>
      cases wsr with
      | none => exact ih ci3 h3
      | some r =>
        simp only
        have h4 := stable_sendDataWithAcknowledge env P hS data ackData s r ci3 h3
        generalize ci3.sendDataWithAcknowledge env data ackData s r = y at h4 ⊢
        obtain ⟨b, ci4⟩ := y
        cases b with
        | none => exact h4
        | some b =>
          cases b
          · exact ih ci4 h4
          · exact h4

theorem lastSetWSR_append (a b : List Event) :
    lastSetWSR (a ++ b) = (lastSetWSR a).orElse fun _ => lastSetWSR b := by
  induction a with
  | nil => cases h : lastSetWSR b <;> simp [lastSetWSR, h]
  | cons e a ih => cases e <;> simp [lastSetWSR, ih]

theorem installsWSR_append (a b : List Event) :
    installsWSR (a ++ b) = installsWSR a + installsWSR b := by
  simp [installsWSR, List.countP_append]

theorem lastSetWSR_of_installs (a : List Event) (h : 0 < installsWSR a) :
    lastSetWSR a ≠ none := by
  induction a with
  | nil => simp [installsWSR] at h
  | cons e a ih =>
    cases e <;> simp [lastSetWSR]
    all_goals
      apply ih
      simpa [installsWSR, List.countP_cons] using h

theorem eventsSince_append (newer t0 : List Event) : eventsSince t0 (newer ++ t0) = newer := by
  simp [eventsSince]

theorem receiverSince_runCall (env : Env) (c0 : covalentIndexer) (b : Bool)
    (ci : covalentIndexer) (x : Call) (h : ReceiverSince c0 b ci) :
    ReceiverSince c0 b (covalentIndexer.runCall env ci x) := by
  obtain ⟨newer, ht, hw, hb⟩ := h
  obtain ⟨server, wss, wsr, m, n, k, t⟩ := ci
  simp only at ht hw
  subst ht
  cases x with
  | SetWSSender w =>
    cases wss with
    | none => exact ⟨.setWSS w :: newer, rfl, hw, hb⟩
    | some old => exact ⟨.setWSS w :: .Close old _ :: newer, rfl, hw, hb⟩
  | SetWSReceiver w =>
    cases wsr with
    | none => exact ⟨.setWSR w :: newer, rfl, rfl, fun _ => by simp [lastSetWSR]⟩
    | some old =>
      exact ⟨.setWSR w :: .Close old _ :: newer, rfl, rfl, fun _ => by simp [lastSetWSR]⟩
  | Close =>
    cases wss with
    | none =>
      cases wsr with
      | none =>
        cases server
        · exact ⟨newer, rfl, hw, hb⟩
        · exact ⟨.ServerClose _ :: newer, rfl, hw, hb⟩
      | some r =>
        cases server
        · exact ⟨.Close r _ :: newer, rfl, hw, hb⟩
        · exact ⟨.ServerClose _ :: .Close r _ :: newer, rfl, hw, hb⟩
    | some s =>
      cases wsr with
      | none =>
        cases server
        · exact ⟨.Close s _ :: newer, rfl, hw, hb⟩
        · exact ⟨.ServerClose _ :: .Close s _ :: newer, rfl, hw, hb⟩
      | some r =>
        cases server
        · exact ⟨.Close r _ :: .Close s _ :: newer, rfl, hw, hb⟩
        · exact ⟨.ServerClose _ :: .Close r _ :: .Close s _ :: newer, rfl, hw, hb⟩

theorem receiverSince_runCalls (env : Env) (c0 : covalentIndexer) (b : Bool)
    (calls : List Call) :
    ∀ ci, ReceiverSince c0 b ci →
      ReceiverSince c0 b (calls.foldl (covalentIndexer.runCall env) ci) := by
  induction calls with
  | nil => intro ci h; exact h
  | cons x rest ih => intro ci h; exact ih _ (receiverSince_runCall env c0 b ci x h)

/-- The receiver slot follows the `SetWSReceiver` calls made since `c0`, through every step of
the delivering goroutine. -/
theorem stable_receiverSince (env : Env) (c0 : covalentIndexer) (b : Bool) :
    Stable env (ReceiverSince c0 b) where
  yield := by
    intro ci h
    obtain ⟨newer, ht, hw, hb⟩ := receiverSince_runCalls env c0 b (env.arrivals ci.clock) ci h
    exact ⟨newer, ht, hw, hb⟩
  record := by
    intro ci e he h
    obtain ⟨newer, ht, hw, hb⟩ := h
    refine ⟨e :: newer, by simp [ht], ?_, ?_⟩
    · cases e <;> first | (simp [Event.byDelivery] at he; done) | (simpa [lastSetWSR] using hw)
    · intro hbt
      cases e <;> first | (simp [Event.byDelivery] at he; done) | (simpa [lastSetWSR] using hb hbt)
  parked := by
    intro ci n m h
    obtain ⟨newer, ht, hw, hb⟩ := h
    exact ⟨newer, ht, hw, hb⟩

theorem runCall_clock (env : Env) (ci : covalentIndexer) (x : Call) :
    (covalentIndexer.runCall env ci x).clock = ci.clock := by
  cases x <;>
    simp only [covalentIndexer.runCall, covalentIndexer.SetWSSender,
      covalentIndexer.SetWSReceiver, covalentIndexer.Close, covalentIndexer.record,
      covalentIndexer.getWSS, covalentIndexer.getWSR]
  · cases ci.wss <;> rfl
  · cases ci.wsr <;> rfl
  · cases ci.wss <;> cases ci.wsr <;> cases ci.server <;> rfl

theorem receiverAway_runCall (env : Env) (k0 : Nat) (r : Conn) (N : Nat)
    (ci : covalentIndexer) (x : Call) (hx : x ≠ .SetWSReceiver (some r))
    (h : ReceiverAway k0 r N ci) : ReceiverAway k0 r N (covalentIndexer.runCall env ci x) := by
  obtain ⟨hk, hN⟩ := h
  refine ⟨by rw [runCall_clock]; exact hk, ?_⟩
  obtain ⟨server, wss, wsr, m, n, k, t⟩ := ci
  simp only at hN
  cases x with
  | SetWSSender w =>
    cases wss <;>
      simpa [covalentIndexer.runCall, covalentIndexer.SetWSSender, covalentIndexer.record,
        installsWSR, List.countP_cons] using hN
  | SetWSReceiver w =>
    have hw : w ≠ some r := fun e => hx (by rw [e])
    cases wsr <;>
      simp [covalentIndexer.runCall, covalentIndexer.SetWSReceiver, covalentIndexer.record, hw]
  | Close =>
    cases wss <;> cases wsr <;> cases server <;>
      first
      | (simp [covalentIndexer.runCall, covalentIndexer.Close, covalentIndexer.record,
          covalentIndexer.getWSS, covalentIndexer.getWSR, installsWSR, List.countP_cons]; done)
      | simpa [covalentIndexer.runCall, covalentIndexer.Close, covalentIndexer.record,
          covalentIndexer.getWSS, covalentIndexer.getWSR, installsWSR, List.countP_cons] using hN

theorem receiverAway_runCalls (env : Env) (k0 : Nat) (r : Conn) (N : Nat) (calls : List Call)
    (hcalls : Call.SetWSReceiver (some r) ∉ calls) :
    ∀ ci, ReceiverAway k0 r N ci →
      ReceiverAway k0 r N (calls.foldl (covalentIndexer.runCall env) ci) ∧
      (calls.foldl (covalentIndexer.runCall env) ci).clock = ci.clock := by
  induction calls with
  | nil => intro ci h; exact ⟨h, rfl⟩
  | cons x rest ih =>
    intro ci h
    rw [List.mem_cons, not_or] at hcalls
    obtain ⟨h1, h2⟩ := ih hcalls.2 _
      (receiverAway_runCall env k0 r N ci x (fun e => hcalls.1 e.symm) h)
    exact ⟨h1, by rw [List.foldl_cons, h2, runCall_clock]⟩

/-- While no `SetWSReceiver` call installs `r` from the clock value `k0` on, the receiver slot
stays away from `r` through every step of the delivering goroutine. -/
theorem stable_receiverAway (env : Env) (k0 : Nat) (r : Conn) (N : Nat)
    (hP : ∀ k, k0 ≤ k → Call.SetWSReceiver (some r) ∉ env.arrivals k) :
    Stable env (ReceiverAway k0 r N) where
  yield := by
    intro ci h
    obtain ⟨⟨h1, h2⟩, h3⟩ := receiverAway_runCalls env k0 r N (env.arrivals ci.clock)
      (hP ci.clock h.1) ci h
    exact ⟨Nat.le_succ_of_le h1, h2⟩
  record := by
    intro ci e he h
    obtain ⟨hk, hN⟩ := h
    refine ⟨hk, ?_⟩
    cases e <;> first | (simp [Event.byDelivery] at he; done) | (simpa [installsWSR, List.countP_cons] using hN)
  parked := by
    intro ci n m h
    exact h

theorem readsOn_cons_write (r c : Conn) (mt : Int) (d : Bytes) (err : Error) (t : List Event) :
    readsOn r (.WriteMessage c mt d err :: t) = readsOn r t := by
  simp [readsOn, List.countP_cons]

theorem readsOn_cons_read (r c : Conn) (mt : Int) (p : Bytes) (err : Error) (t : List Event) :
    readsOn r (.ReadMessage c mt p err :: t) = readsOn r t + if c = r then 1 else 0 := by
  simp [readsOn, List.countP_cons]

theorem tickSnapshot_wsr (env : Env) (ci : covalentIndexer) :
    (tickSnapshot env ci).2.1 = (tickSnapshot env ci).2.2.wsr := by
  rfl

/-- An attempt made on a receiver other than `r` makes no read on `r`. -/
theorem attempt_readsOn_other (env : Env) (data ackData : Bytes) (wss wsr r : Conn)
    (ci : covalentIndexer) (hne : wsr ≠ r) :
    readsOn r (ci.sendDataWithAcknowledge env data ackData wss wsr).2.trace =
      readsOn r ci.trace := by
  obtain ⟨errSend, h⟩ := attempt_shape env data ackData wss wsr ci
  rw [← readsOn_io, ← readsOn_io r ci.trace]
  rcases h with ⟨_, _, hio⟩ | ⟨mt, p, er, hio, _⟩
  · rw [hio, readsOn_cons_write]
  · rw [hio, readsOn_cons_read, readsOn_cons_write]
    simp [hne]

/-- While the receiver slot stays away from `r`, the ticker loop makes no read on `r`. -/
theorem retrialLoop_readsOn_away (env : Env) (data ackData : Bytes) (k0 : Nat) (r : Conn)
    (hP : ∀ k, k0 ≤ k → Call.SetWSReceiver (some r) ∉ env.arrivals k) (n : Nat) :
    ∀ ci : covalentIndexer, ReceiverAway k0 r 0 ci →
      readsOn r (covalentIndexer.retrialLoop env data ackData n ci).2.trace =
        readsOn r ci.trace := by
  have hS := stable_receiverAway env k0 r 0 hP
  induction n with
  | zero => intro ci _; rfl
  | succ n ih =>
    intro ci h
    rw [retrialLoop_succ]
    have h3 := stable_tickSnapshot env _ hS ci h
    have hio := tickSnapshot_io env ci
    have hwsr := tickSnapshot_wsr env ci
    generalize tickSnapshot env ci = x at h3 hio hwsr ⊢
    obtain ⟨wss, wsr, ci3⟩ := x
    simp only at h3 hio hwsr ⊢
    have e3 : readsOn r ci3.trace = readsOn r ci.trace := by
      rw [← readsOn_io, hio, readsOn_io]
    cases wss with
    | none => exact (ih ci3 h3).trans e3
    | some s =>
      cases wsr with
      | none => exact (ih ci3 h3).trans e3
      | some r' =>
        simp only
        have hne : r' ≠ r := by
          intro e
          exact h3.2 (Nat.zero_le _) (by rw [← hwsr, e])
        have h4 := stable_sendDataWithAcknowledge env _ hS data ackData s r' ci3 h3
        have e4 := attempt_readsOn_other env data ackData s r' r ci3 hne
        generalize ci3.sendDataWithAcknowledge env data ackData s r' = y at h4 e4 ⊢
        obtain ⟨b, ci4⟩ := y
        simp only at h4 e4
        cases b with
        | none => exact e4.trans e3
        | some b =>
          cases b
          · exact (ih ci4 h4).trans (e4.trans e3)
          · exact e4.trans e3

/-- C7 (amended): an attempt whose `ReadMessage`, made on the receiver `r`, returned an error
is not acknowledged, and it made that one read on `r`.  When it returns, the loop goes on with
the next tick.  When it returns and no `SetWSReceiver` caller was parked on the new-connection
channel as the attempt began, then, whatever the other goroutines do and whenever they do it:
a `SetWSReceiver` call took effect during the attempt; every later attempt, the next one
included, is made on the sender and on the receiver found in the slots at its tick, that
receiver being the one that the most recent `SetWSReceiver` call since the failed attempt
began has stored; that attempt writes the full payload on that sender and, unless it stays
parked in the sender wait after a failed write, reads from that receiver; and if from the
failed attempt on no `SetWSReceiver` call installs `r` again, then, however long the loop
runs, `r` has been read exactly once since the failed attempt began. -/
theorem sendWithRetrial_read_failed_reconnected (env : Env) (data ackData : Bytes)
    (s r : Conn) (c0 : covalentIndexer) (mt : Int) (p : Bytes) (e : String)
    (rest : List Event)
    (hread : io (c0.sendDataWithAcknowledge env data ackData s r).2.trace =
      .ReadMessage r mt p (some e) :: rest) :
    (c0.sendDataWithAcknowledge env data ackData s r).1 ≠ some true ∧
    readsOn r (c0.sendDataWithAcknowledge env data ackData s r).2.trace =
      readsOn r c0.trace + 1 ∧
    ((c0.sendDataWithAcknowledge env data ackData s r).1 = some false →
      ∀ ci n, tickSnapshot env ci = (some s, some r, c0) →
        covalentIndexer.retrialLoop env data ackData (n + 1) ci =
          covalentIndexer.retrialLoop env data ackData n
            (c0.sendDataWithAcknowledge env data ackData s r).2) ∧
    ((c0.sendDataWithAcknowledge env data ackData s r).1 = some false →
      c0.newConnectionWSR = 0 →
      installsWSR c0.trace <
        installsWSR (c0.sendDataWithAcknowledge env data ackData s r).2.trace ∧
      (∀ m cm s' r' c2,
        covalentIndexer.retrialLoop env data ackData m
          (c0.sendDataWithAcknowledge env data ackData s r).2 = (.ticking, cm) →
        tickSnapshot env cm = (some s', some r', c2) →
        lastSetWSR (eventsSince c0.trace c2.trace) = some (some r') ∧
        ∃ errSend,
          ((c2.sendDataWithAcknowledge env data ackData s' r').1 = none ∧ errSend ≠ none ∧
            io (c2.sendDataWithAcknowledge env data ackData s' r').2.trace =
              .WriteMessage s' websocket.BinaryMessage data errSend :: io c2.trace) ∨
          ∃ mt' p' errRead,
            io (c2.sendDataWithAcknowledge env data ackData s' r').2.trace =
              .ReadMessage r' mt' p' errRead ::
                .WriteMessage s' websocket.BinaryMessage data errSend :: io c2.trace) ∧
      ((∀ k, c0.clock ≤ k → Call.SetWSReceiver (some r) ∉ env.arrivals k) →
        ∀ m, readsOn r (covalentIndexer.retrialLoop env data ackData m
          (c0.sendDataWithAcknowledge env data ackData s r).2).2.trace =
            readsOn r c0.trace + 1)) := by
  obtain ⟨hA, hinst⟩ := attempt_read_failed env data ackData s r c0 mt p e rest hread
  have hB : readsOn r (c0.sendDataWithAcknowledge env data ackData s r).2.trace =
      readsOn r c0.trace + 1 := by
    obtain ⟨errSend, h⟩ := attempt_shape env data ackData s r c0
    rw [← readsOn_io, ← readsOn_io r c0.trace]
    rcases h with ⟨_, _, hio⟩ | ⟨mt', p', er, hio, _⟩
    · rw [hio] at hread
      exact absurd hread (by simp)
    · rw [hio, readsOn_cons_read, readsOn_cons_write]
      simp
  refine ⟨hA, hB, ?_, ?_⟩
  · intro hf ci n hsnap
    rw [retrialLoop_succ, hsnap]
    simp only
    generalize c0.sendDataWithAcknowledge env data ackData s r = y at hf ⊢
    obtain ⟨b, c1⟩ := y
    simp only at hf
    subst hf
    rfl
  · intro hf hn
    have hlt : installsWSR c0.trace <
        installsWSR (c0.sendDataWithAcknowledge env data ackData s r).2.trace := by
      have := hinst hf
      omega
    refine ⟨hlt, ?_, ?_⟩
    · intro m cm s' r' c2 hloop hsnap
      have h0 : ReceiverSince c0 false c0 := ⟨[], rfl, rfl, fun h => by simp at h⟩
      obtain ⟨newer, ht, hw, _⟩ := stable_sendDataWithAcknowledge env _
        (stable_receiverSince env c0 false) data ackData s r c0 h0
      have h1 : ReceiverSince c0 true (c0.sendDataWithAcknowledge env data ackData s r).2 := by
        refine ⟨newer, ht, hw, fun _ => lastSetWSR_of_installs newer ?_⟩
        rw [ht, installsWSR_append] at hlt
        omega
      have h2 := stable_retrialLoop env _ (stable_receiverSince env c0 true) data ackData m _ h1
      rw [hloop] at h2
      have h3 := stable_tickSnapshot env _ (stable_receiverSince env c0 true) cm h2
      have hwsr := tickSnapshot_wsr env cm
      rw [hsnap] at h3 hwsr
      simp only at h3 hwsr
      obtain ⟨newer2, ht2, hw2, hb2⟩ := h3
      refine ⟨?_, ?_⟩
      · rw [ht2, eventsSince_append]
        have hb := hb2 rfl
        cases hl : lastSetWSR newer2 with
        | none => exact absurd hl hb
        | some w =>
          rw [hl] at hw2
          simp only [Option.getD_some] at hw2
          rw [hwsr, hw2]
      · obtain ⟨errSend, h⟩ := attempt_shape env data ackData s' r' c2
        refine ⟨errSend, ?_⟩
        rcases h with h | ⟨mt', p', er, hio, _⟩
        · exact Or.inl h
        · exact Or.inr ⟨mt', p', er, hio⟩
    · intro hP m
      have h0 : ReceiverAway c0.clock r (installsWSR c0.trace + 1) c0 :=
        ⟨Nat.le_refl _, fun h => absurd h (by omega)⟩
      have h1 := stable_sendDataWithAcknowledge env _
        (stable_receiverAway env c0.clock r (installsWSR c0.trace + 1) hP) data ackData s r c0 h0
      have h2 : ReceiverAway c0.clock r 0 (c0.sendDataWithAcknowledge env data ackData s r).2 :=
        ⟨h1.1, fun _ => h1.2 hlt⟩
      rw [retrialLoop_readsOn_away env data ackData c0.clock r hP m _ h2, hB]

/-- C7, witness: the scenario of the test.  Sender `10` and receiver `20` are held and no
caller is parked; the first attempt begins in the state `reconnectStart`, its read on `20`
fails, and `SetWSReceiver(21)` is called during the receiver wait.  The attempt is not
acknowledged, the next tick finds the receiver `21`, stored by the most recent `SetWSReceiver`
call, `20` is read once, and the delivery returns after 2 writes on `10`, 1 read on `20` and
1 read on `21`. -/
theorem sendWithRetrial_read_failed_reconnected_witness :
    tickSnapshot reconnectEnv
        (afterSlotReads 10 20 { covalentIndexer.new with wss := some 10, wsr := some 20 }) =
      (some 10, some 20, reconnectStart) ∧
    (reconnectStart.sendDataWithAcknowledge reconnectEnv [1, 2, 3] [7] 10 20).1 ≠ some true ∧
    readsOn 20 (covalentIndexer.retrialLoop reconnectEnv [1, 2, 3] [7] 1
        (reconnectStart.sendDataWithAcknowledge reconnectEnv [1, 2, 3] [7] 10 20).2).2.trace =
      readsOn 20 reconnectStart.trace + 1 ∧
    lastSetWSR (eventsSince reconnectStart.trace
        (tickSnapshot reconnectEnv
          (reconnectStart.sendDataWithAcknowledge reconnectEnv [1, 2, 3] [7] 10 20).2).2.2.trace) =
      some (some 21) ∧
    (({ covalentIndexer.new with wss := some 10, wsr := some 20 }).sendWithRetrial
        reconnectEnv 2 [1, 2, 3] [7]).1 = .returned ∧
    io (({ covalentIndexer.new with wss := some 10, wsr := some 20 }).sendWithRetrial
        reconnectEnv 2 [1, 2, 3] [7]).2.trace =
      [.ReadMessage 21 websocket.BinaryMessage [7] none,
        .WriteMessage 10 websocket.BinaryMessage [1, 2, 3] none,
        .ReadMessage 20 0 [] (some "read message error"),
        .WriteMessage 10 websocket.BinaryMessage [1, 2, 3] none] :=
  ⟨by decide,
    (sendWithRetrial_read_failed_reconnected reconnectEnv [1, 2, 3] [7] 10 20 reconnectStart
      0 [] "read message error" [.WriteMessage 10 websocket.BinaryMessage [1, 2, 3] none]
      (by decide)).1,
    ((sendWithRetrial_read_failed_reconnected reconnectEnv [1, 2, 3] [7] 10 20 reconnectStart
      0 [] "read message error" [.WriteMessage 10 websocket.BinaryMessage [1, 2, 3] none]
      (by decide)).2.2.2 (by decide) (by decide)).2.2
      (fun k _ => by simp only [reconnectEnv]; split_ifs <;> simp) 1,
    (((sendWithRetrial_read_failed_reconnected reconnectEnv [1, 2, 3] [7] 10 20 reconnectStart
      0 [] "read message error" [.WriteMessage 10 websocket.BinaryMessage [1, 2, 3] none]
      (by decide)).2.2.2 (by decide) (by decide)).2.1 0 _ 10 21 _ rfl (by decide)).1,
    by decide, by decide⟩

/-- C7, counterexample, in three runs of two ticks on an indexer that holds sender `10` and
receiver `20`, the read on `20` failing each time.  In the first, `10` and `20` were installed
before the delivery began, so a `SetWSReceiver` caller is still parked on the channel: the
receiver wait is released at once by that caller although no `SetWSReceiver` call is made
during the delivery, and the next tick reads from `20` a second time.  In the second, no
caller is parked and the call made during the receiver wait is `SetWSReceiver(20)`: the next
tick reads from `20` a second time.  In the third, no caller is parked, `SetWSReceiver(21)`
is called during the receiver wait, and the write of the next attempt fails while no sender
is installed any more: that attempt stays parked in the sender wait and never reads from
`21`. -/
theorem sendWithRetrial_read_failed_not_reconnected :
    (io (installedBefore.sendWithRetrial (quietEnv none (0, [], some "read message error"))
        2 [1, 2, 3] [7]).2.trace =
      [.ReadMessage 20 0 [] (some "read message error"),
        .WriteMessage 10 websocket.BinaryMessage [1, 2, 3] none,
        .ReadMessage 20 0 [] (some "read message error"),
        .WriteMessage 10 websocket.BinaryMessage [1, 2, 3] none] ∧
      readsOn 20 (installedBefore.sendWithRetrial
        (quietEnv none (0, [], some "read message error")) 2 [1, 2, 3] [7]).2.trace = 2 ∧
      installsWSR (installedBefore.sendWithRetrial
        (quietEnv none (0, [], some "read message error")) 2 [1, 2, 3] [7]).2.trace =
        installsWSR installedBefore.trace) ∧
    (reconnectStart.newConnectionWSR = 0 ∧
      tickSnapshot reinstallEnv
          (afterSlotReads 10 20 { covalentIndexer.new with wss := some 10, wsr := some 20 }) =
        (some 10, some 20, reconnectStart) ∧
      installsWSR (({ covalentIndexer.new with wss := some 10, wsr := some 20 }).sendWithRetrial
        reinstallEnv 2 [1, 2, 3] [7]).2.trace = 1 ∧
      readsOn 20 (({ covalentIndexer.new with wss := some 10, wsr := some 20 }).sendWithRetrial
        reinstallEnv 2 [1, 2, 3] [7]).2.trace = 2) ∧
    (tickSnapshot senderLostEnv
          (afterSlotReads 10 20 { covalentIndexer.new with wss := some 10, wsr := some 20 }) =
        (some 10, some 20, reconnectStart) ∧
      (({ covalentIndexer.new with wss := some 10, wsr := some 20 }).sendWithRetrial
        senderLostEnv 2 [1, 2, 3] [7]).1 = .blocked ∧
      (({ covalentIndexer.new with wss := some 10, wsr := some 20 }).sendWithRetrial
        senderLostEnv 2 [1, 2, 3] [7]).2.wsr = some 21 ∧
      io (({ covalentIndexer.new with wss := some 10, wsr := some 20 }).sendWithRetrial
        senderLostEnv 2 [1, 2, 3] [7]).2.trace =
        [.WriteMessage 10 websocket.BinaryMessage [1, 2, 3] (some "write message error"),
          .ReadMessage 20 0 [] (some "read message error"),
          .WriteMessage 10 websocket.BinaryMessage [1, 2, 3] none] ∧
      readsOn 21 (({ covalentIndexer.new with wss := some 10, wsr := some 20 }).sendWithRetrial
        senderLostEnv 2 [1, 2, 3] [7]).2.trace = 0) := by
  decide

/-! ## The connection slots -/

theorem closesOf_cons (c : Conn) (e : Event) (t : List Event) :
    closesOf c (e :: t) =
      closesOf c t + (match e with
        | .Close c' _ => if c' = c then 1 else 0
        | _ => 0) := by
  cases e <;> simp [closesOf, List.countP_cons]

/-- C8 (amended): `SetWSSender(B)` on a sender slot holding `A` invokes `A.Close()` exactly
once, before the assignment that makes `B` the value of `getWSS`, and closes no other
connection, so it invokes `B.Close()` zero times when `B` is another connection than `A`; on
an empty slot it invokes no `Close` at all; afterwards the slot holds `B`.  The same holds of
`SetWSReceiver` and the receiver slot. -/
theorem SetWS_closes_previous (env : Env) (B : WSConn) (ci : covalentIndexer) :
    ((∀ A, ci.wss = some A →
        (ci.SetWSSender env B).trace =
          .setWSS B :: .Close A (env.Close ci.trace A) :: ci.trace ∧
        closesOf A (ci.SetWSSender env B).trace = closesOf A ci.trace + 1 ∧
        ∀ c, c ≠ A → closesOf c (ci.SetWSSender env B).trace = closesOf c ci.trace) ∧
      (ci.wss = none →
        (ci.SetWSSender env B).trace = .setWSS B :: ci.trace ∧
        ∀ c, closesOf c (ci.SetWSSender env B).trace = closesOf c ci.trace) ∧
      (ci.SetWSSender env B).getWSS = B) ∧
    ((∀ A, ci.wsr = some A →
        (ci.SetWSReceiver env B).trace =
          .setWSR B :: .Close A (env.Close ci.trace A) :: ci.trace ∧
        closesOf A (ci.SetWSReceiver env B).trace = closesOf A ci.trace + 1 ∧
        ∀ c, c ≠ A → closesOf c (ci.SetWSReceiver env B).trace = closesOf c ci.trace) ∧
      (ci.wsr = none →
        (ci.SetWSReceiver env B).trace = .setWSR B :: ci.trace ∧
        ∀ c, closesOf c (ci.SetWSReceiver env B).trace = closesOf c ci.trace) ∧
      (ci.SetWSReceiver env B).getWSR = B) := by
  refine ⟨⟨fun A hA => ?_, fun h => ?_, rfl⟩, ⟨fun A hA => ?_, fun h => ?_, rfl⟩⟩
  · have e : (ci.SetWSSender env B).trace =
        .setWSS B :: .Close A (env.Close ci.trace A) :: ci.trace := by
      simp [covalentIndexer.SetWSSender, hA, covalentIndexer.record]
    refine ⟨e, ?_, fun c hc => ?_⟩
    · rw [e]; simp [closesOf_cons]
    · rw [e]; simp [closesOf_cons, Ne.symm hc]
  · have e : (ci.SetWSSender env B).trace = .setWSS B :: ci.trace := by
      simp [covalentIndexer.SetWSSender, h]
    exact ⟨e, fun c => by rw [e]; simp [closesOf_cons]⟩
  · have e : (ci.SetWSReceiver env B).trace =
        .setWSR B :: .Close A (env.Close ci.trace A) :: ci.trace := by
      simp [covalentIndexer.SetWSReceiver, hA, covalentIndexer.record]
    refine ⟨e, ?_, fun c hc => ?_⟩
    · rw [e]; simp [closesOf_cons]
    · rw [e]; simp [closesOf_cons, Ne.symm hc]
  · have e : (ci.SetWSReceiver env B).trace = .setWSR B :: ci.trace := by
      simp [covalentIndexer.SetWSReceiver, h]
    exact ⟨e, fun c => by rw [e]; simp [closesOf_cons]⟩

/-- C8, witness: as in the tests, `SetWSSender(nil)`, `SetWSSender(1)`, `SetWSSender(2)` on a
fresh indexer: only the third call closes a connection, namely `1`, once. -/
theorem SetWS_closes_previous_witness :
    closesOf 1 ((((covalentIndexer.new.SetWSSender (quietEnv none (0, [], none)) none).SetWSSender
      (quietEnv none (0, [], none)) (some 1)).SetWSSender
      (quietEnv none (0, [], none)) (some 2)).trace) =
      closesOf 1 (((covalentIndexer.new.SetWSSender (quietEnv none (0, [], none)) none).SetWSSender
        (quietEnv none (0, [], none)) (some 1)).trace) + 1 ∧
    closesOf 2 ((((covalentIndexer.new.SetWSSender (quietEnv none (0, [], none)) none).SetWSSender
      (quietEnv none (0, [], none)) (some 1)).SetWSSender
      (quietEnv none (0, [], none)) (some 2)).trace) =
      closesOf 2 (((covalentIndexer.new.SetWSSender (quietEnv none (0, [], none)) none).SetWSSender
        (quietEnv none (0, [], none)) (some 1)).trace) ∧
    closesOf 1 (((covalentIndexer.new.SetWSSender (quietEnv none (0, [], none)) none).SetWSSender
      (quietEnv none (0, [], none)) (some 1)).trace) = 0 :=
  ⟨((SetWS_closes_previous (quietEnv none (0, [], none)) (some 2)
      ((covalentIndexer.new.SetWSSender (quietEnv none (0, [], none)) none).SetWSSender
        (quietEnv none (0, [], none)) (some 1))).1.1 1 rfl).2.1,
    ((SetWS_closes_previous (quietEnv none (0, [], none)) (some 2)
      ((covalentIndexer.new.SetWSSender (quietEnv none (0, [], none)) none).SetWSSender
        (quietEnv none (0, [], none)) (some 1))).1.1 1 rfl).2.2 2 (by decide),
    by decide⟩

/-- C8, counterexample: the setters do not compare the new connection with the held one.
`SetWSSender(1)` on a sender slot that holds connection `1` invokes `Close` on `1`, the
connection being installed, once and not zero times, and the slot holds `1` afterwards; the
same with `SetWSReceiver(1)` on a receiver slot that holds `1`. -/
theorem SetWS_closes_reinstalled_connection :
    ((covalentIndexer.new.SetWSSender (quietEnv none (0, [], none)) (some 1)).SetWSSender
        (quietEnv none (0, [], none)) (some 1)).trace =
      [.setWSS (some 1), .Close 1 none, .setWSS (some 1)] ∧
    closesOf 1 (covalentIndexer.new.SetWSSender (quietEnv none (0, [], none)) (some 1)).trace =
      0 ∧
    closesOf 1 ((covalentIndexer.new.SetWSSender (quietEnv none (0, [], none))
        (some 1)).SetWSSender (quietEnv none (0, [], none)) (some 1)).trace = 1 ∧
    ((covalentIndexer.new.SetWSSender (quietEnv none (0, [], none)) (some 1)).SetWSSender
        (quietEnv none (0, [], none)) (some 1)).getWSS = some 1 ∧
    ((covalentIndexer.new.SetWSReceiver (quietEnv none (0, [], none)) (some 1)).SetWSReceiver
        (quietEnv none (0, [], none)) (some 1)).trace =
      [.setWSR (some 1), .Close 1 none, .setWSR (some 1)] ∧
    closesOf 1 ((covalentIndexer.new.SetWSReceiver (quietEnv none (0, [], none))
        (some 1)).SetWSReceiver (quietEnv none (0, [], none)) (some 1)).trace = 1 ∧
    ((covalentIndexer.new.SetWSReceiver (quietEnv none (0, [], none)) (some 1)).SetWSReceiver
        (quietEnv none (0, [], none)) (some 1)).getWSR = some 1 := by
  decide

theorem runCall_set_balance (env : Env) (c : Conn) (ci : covalentIndexer) (call : Call)
    (h : call ≠ .Close) :
    closesOf c (covalentIndexer.runCall env ci call).trace +
        held c (covalentIndexer.runCall env ci call) =
      closesOf c ci.trace + held c ci + installsOf c [call] := by
  cases call with
  | Close => exact absurd rfl h
  | SetWSSender w =>
    cases hw : ci.wss with
    | none =>
      simp only [covalentIndexer.runCall, covalentIndexer.SetWSSender, hw, held, installsOf,
        closesOf_cons, List.countP_cons, List.countP_nil]
      by_cases h1 : w = some c <;> simp [h1]
      omega
    | some old =>
      simp only [covalentIndexer.runCall, covalentIndexer.SetWSSender, hw, held, installsOf,
        closesOf_cons, List.countP_cons, List.countP_nil, covalentIndexer.record]
      by_cases h1 : w = some c <;> by_cases h2 : old = c <;> simp [h1, h2] <;> omega
  | SetWSReceiver w =>
    cases hw : ci.wsr with
    | none =>
      simp only [covalentIndexer.runCall, covalentIndexer.SetWSReceiver, hw, held, installsOf,
        closesOf_cons, List.countP_cons, List.countP_nil]
      by_cases h1 : w = some c <;> simp [h1]
      omega
    | some old =>
      simp only [covalentIndexer.runCall, covalentIndexer.SetWSReceiver, hw, held, installsOf,
        closesOf_cons, List.countP_cons, List.countP_nil, covalentIndexer.record]
      by_cases h1 : w = some c <;> by_cases h2 : old = c <;> simp [h1, h2] <;> omega

theorem runCalls_set_balance (env : Env) (c : Conn) (calls : List Call) :
    ∀ ci : covalentIndexer, Call.Close ∉ calls →
      closesOf c (runCalls env calls ci).trace + held c (runCalls env calls ci) =
        closesOf c ci.trace + held c ci + installsOf c calls := by
  induction calls with
  | nil => intro ci _; simp [runCalls, installsOf]
  | cons x xs ih =>
    intro ci h
    have hx : x ≠ .Close := fun e => h (by simp [e])
    have hxs : Call.Close ∉ xs := fun e => h (by simp [e])
    have h1 := runCall_set_balance env c ci x hx
    have h2 := ih (covalentIndexer.runCall env ci x) hxs
    have h3 : installsOf c (x :: xs) = installsOf c [x] + installsOf c xs := by
      simp [installsOf, List.countP_cons]
      omega
    simp only [runCalls, List.foldl_cons] at h2 ⊢
    omega

theorem Close_closes_held (env : Env) (c : Conn) (ci : covalentIndexer) :
    closesOf c (ci.Close env).2.trace = closesOf c ci.trace + held c ci := by
  simp only [covalentIndexer.Close, covalentIndexer.getWSS, covalentIndexer.getWSR, held,
    covalentIndexer.record]
  cases ci.wss <;> cases ci.wsr <;> cases ci.server <;> simp [closesOf_cons] <;> omega

/-- C9 (amended): over every sequence of `SetWSSender` and `SetWSReceiver` calls on an indexer
with empty slots, optionally followed by one `Close` call, `Close` is invoked on a connection at
most as many times as that connection was installed: at most once for a connection installed
once. -/
theorem Close_at_most_once_per_install (env : Env) (calls : List Call) (c : Conn)
    (ci : covalentIndexer) (thenClose : Bool)
    (hcalls : Call.Close ∉ calls) (hs : ci.wss = none) (hr : ci.wsr = none) :
    closesOf c (if thenClose then ((runCalls env calls ci).Close env).2
        else runCalls env calls ci).trace ≤ closesOf c ci.trace + installsOf c calls := by
  have h := runCalls_set_balance env c calls ci hcalls
  have h0 : held c ci = 0 := by simp [held, hs, hr]
  cases thenClose with
  | false => simp only [Bool.false_eq_true, ↓reduceIte]; omega
  | true =>
    simp only [↓reduceIte]
    rw [Close_closes_held]
    omega

/-- C9, witness: `SetWSSender(1)`, `SetWSReceiver(2)`, `SetWSSender(3)` and then `Close` on a
fresh indexer close connection `1` at most once. -/
theorem Close_at_most_once_per_install_witness :
    closesOf 1 (((runCalls (quietEnv none (0, [], none))
      [.SetWSSender (some 1), .SetWSReceiver (some 2), .SetWSSender (some 3)]
      covalentIndexer.new).Close (quietEnv none (0, [], none))).2).trace ≤ 0 + 1 :=
  Close_at_most_once_per_install (quietEnv none (0, [], none))
    [.SetWSSender (some 1), .SetWSReceiver (some 2), .SetWSSender (some 3)] 1
    covalentIndexer.new true (by decide) rfl rfl

/-- C9, counterexample: `SetWSSender(1)`, `Close`, `SetWSSender(2)` on a fresh indexer.  `Close`
closes connection `1` and leaves it in the sender slot; the replacement closes it a second
time. -/
theorem Close_twice_after_shutdown :
    closesOf 1 (runCalls (quietEnv none (0, [], none))
      [.SetWSSender (some 1), .Close, .SetWSSender (some 2)] covalentIndexer.new).trace = 2 := by
  decide

/-- C10 (amended): `SetWSReceiver` never changes the sender slot and invokes `Close` on no
connection other than the one held in the receiver slot, so it closes the connection held in
the sender slot only when the receiver slot holds that same connection; symmetrically for
`SetWSSender` and the receiver slot. -/
theorem SetWS_leaves_other_slot (env : Env) (w : WSConn) (ci : covalentIndexer) :
    ((ci.SetWSReceiver env w).getWSS = ci.getWSS ∧
      ∀ c, ci.wsr ≠ some c →
        closesOf c (ci.SetWSReceiver env w).trace = closesOf c ci.trace) ∧
    ((ci.SetWSSender env w).getWSR = ci.getWSR ∧
      ∀ c, ci.wss ≠ some c →
        closesOf c (ci.SetWSSender env w).trace = closesOf c ci.trace) := by
  refine ⟨⟨?_, fun c hc => ?_⟩, ⟨?_, fun c hc => ?_⟩⟩
  · simp only [covalentIndexer.SetWSReceiver, covalentIndexer.getWSS, covalentIndexer.record]
    cases ci.wsr <;> rfl
  · cases hw : ci.wsr with
    | none => simp [covalentIndexer.SetWSReceiver, hw, closesOf_cons]
    | some old =>
      have : old ≠ c := fun e => hc (by rw [hw, e])
      simp [covalentIndexer.SetWSReceiver, hw, closesOf_cons, covalentIndexer.record, this]
  · simp only [covalentIndexer.SetWSSender, covalentIndexer.getWSR, covalentIndexer.record]
    cases ci.wss <;> rfl
  · cases hw : ci.wss with
    | none => simp [covalentIndexer.SetWSSender, hw, closesOf_cons]
    | some old =>
      have : old ≠ c := fun e => hc (by rw [hw, e])
      simp [covalentIndexer.SetWSSender, hw, closesOf_cons, covalentIndexer.record, this]

/-- C10, witness: with sender `10` and receiver `20` held, `SetWSReceiver(21)` leaves the sender
slot alone and does not close `10`. -/
theorem SetWS_leaves_other_slot_witness :
    (installedBefore.SetWSReceiver (quietEnv none (0, [], none)) (some 21)).getWSS =
      installedBefore.getWSS ∧
    closesOf 10 (installedBefore.SetWSReceiver (quietEnv none (0, [], none)) (some 21)).trace =
      closesOf 10 installedBefore.trace :=
  ⟨(SetWS_leaves_other_slot (quietEnv none (0, [], none)) (some 21) installedBefore).1.1,
    (SetWS_leaves_other_slot (quietEnv none (0, [], none)) (some 21) installedBefore).1.2 10
      (by decide)⟩

/-- C10, counterexample: after `SetWSSender(1)` and `SetWSReceiver(1)` both slots hold
connection `1`; `SetWSReceiver(2)` then invokes `Close` on connection `1`, which the sender slot
holds before and after the call. -/
theorem SetWSReceiver_closes_shared_connection :
    (runCalls (quietEnv none (0, [], none)) [.SetWSSender (some 1), .SetWSReceiver (some 1)]
      covalentIndexer.new).getWSS = some 1 ∧
    ((runCalls (quietEnv none (0, [], none)) [.SetWSSender (some 1), .SetWSReceiver (some 1)]
      covalentIndexer.new).SetWSReceiver (quietEnv none (0, [], none)) (some 2)).getWSS = some 1 ∧
    closesOf 1 ((runCalls (quietEnv none (0, [], none))
      [.SetWSSender (some 1), .SetWSReceiver (some 1)]
      covalentIndexer.new).SetWSReceiver (quietEnv none (0, [], none)) (some 2)).trace =
      closesOf 1 (runCalls (quietEnv none (0, [], none))
        [.SetWSSender (some 1), .SetWSReceiver (some 1)] covalentIndexer.new).trace + 1 := by
  decide

/-! ## Construction, setters and shutdown -/

/-- C11: `SetWSSender` and `SetWSReceiver` have no result to report a failure with, and the
slots and channel counters they leave do not depend on what closing the previously held
connection returned: whatever the surroundings answer to `Close`, the slot of the setter
holds the new connection, the other slot is unchanged and the caller is at the channel send. -/
theorem SetWS_ignores_close_error (env env' : Env) (w : WSConn) (ci : covalentIndexer) :
    (slotState (ci.SetWSSender env w) = slotState (ci.SetWSSender env' w) ∧
      slotState (ci.SetWSSender env w) =
        (w, ci.wsr, ci.newConnectionWSS + 1, ci.newConnectionWSR)) ∧
    (slotState (ci.SetWSReceiver env w) = slotState (ci.SetWSReceiver env' w) ∧
      slotState (ci.SetWSReceiver env w) =
        (ci.wss, w, ci.newConnectionWSS, ci.newConnectionWSR + 1)) := by
  have h1 : ∀ e : Env, slotState (ci.SetWSSender e w) =
      (w, ci.wsr, ci.newConnectionWSS + 1, ci.newConnectionWSR) := by
    intro e
    simp only [slotState, covalentIndexer.SetWSSender, covalentIndexer.record]
    cases ci.wss <;> rfl
  have h2 : ∀ e : Env, slotState (ci.SetWSReceiver e w) =
      (ci.wss, w, ci.newConnectionWSS, ci.newConnectionWSR + 1) := by
    intro e
    simp only [slotState, covalentIndexer.SetWSReceiver, covalentIndexer.record]
    cases ci.wsr <;> rfl
  exact ⟨⟨by rw [h1, h1], h1 env⟩, ⟨by rw [h2, h2], h2 env⟩⟩

/-- C12: `NewCovalentDataIndexer` returns `(nil, ErrNilDataHandler)` for a nil processor,
whatever the server; else `(nil, ErrNilHTTPServer)` for a nil server; else an indexer with both
slots empty and a nil error.  The two errors are different values. -/
theorem NewCovalentDataIndexer_cases (π σ : Type) :
    (∀ server : Option σ,
      NewCovalentDataIndexer (none : Option π) server = (none, some ErrNilDataHandler)) ∧
    (∀ p : π, NewCovalentDataIndexer (some p) (none : Option σ) =
      (none, some ErrNilHTTPServer)) ∧
    (∀ (p : π) (s : σ), ∃ ci, NewCovalentDataIndexer (some p) (some s) = (some ci, none) ∧
      ci.getWSS = none ∧ ci.getWSR = none) ∧
    ErrNilDataHandler ≠ ErrNilHTTPServer := by
  refine ⟨fun _ => rfl, fun _ => rfl, fun _ _ => ⟨covalentIndexer.new, rfl, rfl, rfl⟩, ?_⟩
  decide

/-- C13: when `ProcessData` returns an error, or `Encode` returns an error, `SaveBlock` panics
and leaves the indexer as it was: no `WriteMessage`, no `ReadMessage`, no wait. -/
theorem SaveBlock_panics_on_failure {α : Type} (env : Env) (ticks : Nat)
    (processor : α → Option BlockResult × Error) (Encode : Option BlockResult → Bytes × Error)
    (args : α) (ci : covalentIndexer)
    (h : (processor args).2 ≠ none ∨ (Encode (processor args).1).2 ≠ none) :
    ci.SaveBlock env ticks processor Encode args = (.panicked, ci) ∧
    io (ci.SaveBlock env ticks processor Encode args).2.trace = io ci.trace := by
  have hmain : ci.SaveBlock env ticks processor Encode args = (.panicked, ci) := by
    unfold covalentIndexer.SaveBlock
    rcases hp : processor args with ⟨br, e1⟩
    rw [hp] at h
    cases e1 with
    | some e => rfl
    | none =>
      simp only
      rcases he : Encode br with ⟨d, e2⟩
      rw [he] at h
      cases e2 with
      | some e => rfl
      | none => simp at h
  exact ⟨hmain, by rw [hmain]⟩

/-- C13, witness: the two tests, a processor that returns an error and an encoder that returns
an error on the nil block result; `SaveBlock` panics with both connections untouched. -/
theorem SaveBlock_panics_on_failure_witness :
    ({ covalentIndexer.new with wss := some 10, wsr := some 20 }).SaveBlock
        (quietEnv none (websocket.BinaryMessage, [7], none)) 4
        (fun _ : Unit => (none, some "local error")) (fun _ => ([1, 2, 3], none)) () =
      (.panicked, { covalentIndexer.new with wss := some 10, wsr := some 20 }) ∧
    ({ covalentIndexer.new with wss := some 10, wsr := some 20 }).SaveBlock
        (quietEnv none (websocket.BinaryMessage, [7], none)) 4
        (fun _ : Unit => (none, none)) (fun _ => ([], some "nil record")) () =
      (.panicked, { covalentIndexer.new with wss := some 10, wsr := some 20 }) :=
  ⟨(SaveBlock_panics_on_failure (quietEnv none (websocket.BinaryMessage, [7], none)) 4
      (fun _ : Unit => (none, some "local error")) (fun _ => ([1, 2, 3], none)) ()
      { covalentIndexer.new with wss := some 10, wsr := some 20 } (Or.inl (by decide))).1,
    (SaveBlock_panics_on_failure (quietEnv none (websocket.BinaryMessage, [7], none)) 4
      (fun _ : Unit => (none, none)) (fun _ => ([], some "nil record")) ()
      { covalentIndexer.new with wss := some 10, wsr := some 20 } (Or.inr (by decide))).1⟩

/-- C14: when `ProcessData` returns the block result `r` without error, `Encode(r)` returns the
bytes `d` without error and `r.Block` is the block `block`, `SaveBlock` is the run of
`sendWithRetrial` with payload `d` and ack token `block.Hash`: it leaves the same indexer, it
returns exactly when that run returns, and what it returns is nil. -/
theorem SaveBlock_delivers {α : Type} (env : Env) (ticks : Nat)
    (processor : α → Option BlockResult × Error) (Encode : Option BlockResult → Bytes × Error)
    (args : α) (ci : covalentIndexer) (r : BlockResult) (block : Block) (d : Bytes)
    (hp : processor args = (some r, none)) (he : Encode (some r) = (d, none))
    (hb : r.Block = some block) :
    ci.SaveBlock env ticks processor Encode args =
      ((ci.sendWithRetrial env ticks d block.Hash).1.toOutcome,
        (ci.sendWithRetrial env ticks d block.Hash).2) ∧
    ((ci.sendWithRetrial env ticks d block.Hash).1 = .returned ↔
      (ci.SaveBlock env ticks processor Encode args).1 = .returned none) ∧
    (∀ e, (ci.SaveBlock env ticks processor Encode args).1 = .returned e → e = none) := by
  have hbind : (some r).bind BlockResult.Block = some block := hb
  have hmain : ci.SaveBlock env ticks processor Encode args =
      ((ci.sendWithRetrial env ticks d block.Hash).1.toOutcome,
        (ci.sendWithRetrial env ticks d block.Hash).2) := by
    unfold covalentIndexer.SaveBlock
    rw [hp]
    simp only [he, hbind]
    generalize ci.sendWithRetrial env ticks d block.Hash = y
    obtain ⟨st, c⟩ := y
    cases st <;> rfl
  refine ⟨hmain, ?_, ?_⟩
  · rw [hmain]
    cases (ci.sendWithRetrial env ticks d block.Hash).1 <;>
      simp [covalentIndexer.Status.toOutcome]
  · intro e
    rw [hmain]
    cases (ci.sendWithRetrial env ticks d block.Hash).1 <;>
      simp [covalentIndexer.Status.toOutcome]
    intro h; exact h.symm

/-- C14, witness: the block result with hash `[7]` encoded as `[1, 2, 3]`; `SaveBlock` returns
nil after writing `[1, 2, 3]` and reading `[7]`. -/
theorem SaveBlock_delivers_witness :
    ({ covalentIndexer.new with wss := some 10, wsr := some 20 }).SaveBlock
        (quietEnv none (websocket.BinaryMessage, [7], none)) 1
        (fun _ : Unit => (some { Block := some { Hash := [7] } }, none))
        (fun _ => ([1, 2, 3], none)) () =
      ((({ covalentIndexer.new with wss := some 10, wsr := some 20 }).sendWithRetrial
          (quietEnv none (websocket.BinaryMessage, [7], none)) 1 [1, 2, 3] [7]).1.toOutcome,
        (({ covalentIndexer.new with wss := some 10, wsr := some 20 }).sendWithRetrial
          (quietEnv none (websocket.BinaryMessage, [7], none)) 1 [1, 2, 3] [7]).2) ∧
    (({ covalentIndexer.new with wss := some 10, wsr := some 20 }).SaveBlock
        (quietEnv none (websocket.BinaryMessage, [7], none)) 1
        (fun _ : Unit => (some { Block := some { Hash := [7] } }, none))
        (fun _ => ([1, 2, 3], none)) ()).1 = .returned none :=
  ⟨(SaveBlock_delivers (quietEnv none (websocket.BinaryMessage, [7], none)) 1
      (fun _ : Unit => (some { Block := some { Hash := [7] } }, none))
      (fun _ => ([1, 2, 3], none)) ()
      { covalentIndexer.new with wss := some 10, wsr := some 20 }
      { Block := some { Hash := [7] } } { Hash := [7] } [1, 2, 3] rfl rfl rfl).1,
    by decide⟩

/-- C15: `Close` on an indexer with a server invokes `Close` once for the sender slot and once
for the receiver slot, on the connection found there, in this order; an empty slot is skipped;
whatever errors these calls return, the server is closed next and `Close` returns exactly the
result of closing the server. -/
theorem Close_closes_both (env : Env) (ci : covalentIndexer) (hserver : ci.server = true) :
    ∃ err closes,
      (ci.Close env).1 = err ∧
      (ci.Close env).2.trace = .ServerClose err :: closes ++ ci.trace ∧
      err = env.serverClose (closes ++ ci.trace) ∧
      closedConns closes = ci.wsr.toList ++ ci.wss.toList ∧
      closes.length = (ci.wsr.toList ++ ci.wss.toList).length := by
  cases hs : ci.wss with
  | none =>
    cases hr : ci.wsr with
    | none =>
      refine ⟨env.serverClose ci.trace, [], ?_⟩
      simp [covalentIndexer.Close, covalentIndexer.getWSS, covalentIndexer.getWSR,
        covalentIndexer.record, hs, hr, hserver, closedConns]
    | some r =>
      refine ⟨env.serverClose (.Close r (env.Close ci.trace r) :: ci.trace),
        [.Close r (env.Close ci.trace r)], ?_⟩
      simp [covalentIndexer.Close, covalentIndexer.getWSS, covalentIndexer.getWSR,
        covalentIndexer.record, hs, hr, hserver, closedConns]
  | some s =>
    cases hr : ci.wsr with
    | none =>
      refine ⟨env.serverClose (.Close s (env.Close ci.trace s) :: ci.trace),
        [.Close s (env.Close ci.trace s)], ?_⟩
      simp [covalentIndexer.Close, covalentIndexer.getWSS, covalentIndexer.getWSR,
        covalentIndexer.record, hs, hr, hserver, closedConns]
    | some r =>
      refine ⟨env.serverClose (.Close r (env.Close (.Close s (env.Close ci.trace s) ::
          ci.trace) r) :: .Close s (env.Close ci.trace s) :: ci.trace),
        [.Close r (env.Close (.Close s (env.Close ci.trace s) :: ci.trace) r),
          .Close s (env.Close ci.trace s)], ?_⟩
      simp [covalentIndexer.Close, covalentIndexer.getWSS, covalentIndexer.getWSR,
        covalentIndexer.record, hs, hr, hserver, closedConns]

/-- C15, witness: sender `10` and receiver `20` held, both `Close` calls return an error; the
two connections are closed once each and `Close` returns what closing the server returned. -/
theorem Close_closes_both_witness :
    (∃ err closes,
      (installedBefore.Close (closingEnv none (0, [], none) (some "use of closed connection"))).1 =
        err ∧
      (installedBefore.Close
          (closingEnv none (0, [], none) (some "use of closed connection"))).2.trace =
        .ServerClose err :: closes ++ installedBefore.trace ∧
      err = (closingEnv none (0, [], none) (some "use of closed connection")).serverClose
        (closes ++ installedBefore.trace) ∧
      closedConns closes = installedBefore.wsr.toList ++ installedBefore.wss.toList ∧
      closes.length = (installedBefore.wsr.toList ++ installedBefore.wss.toList).length) ∧
    (installedBefore.Close (closingEnv none (0, [], none) (some "use of closed connection"))).1 =
      some "http: Server closed" ∧
    closedConns (installedBefore.Close
      (closingEnv none (0, [], none) (some "use of closed connection"))).2.trace = [20, 10] :=
  ⟨Close_closes_both (closingEnv none (0, [], none) (some "use of closed connection"))
    installedBefore rfl, by decide, by decide⟩

theorem runCall_wss_origin (env : Env) (ci : covalentIndexer) (x : Call) (c : Conn)
    (h : (covalentIndexer.runCall env ci x).wss = some c) :
    ci.wss = some c ∨ x = .SetWSSender (some c) := by
  cases x with
  | SetWSSender w =>
    right
    have : (covalentIndexer.runCall env ci (.SetWSSender w)).wss = w := by
      simp only [covalentIndexer.runCall, covalentIndexer.SetWSSender, covalentIndexer.record]
    rw [this] at h; rw [h]
  | SetWSReceiver w =>
    left
    have : (covalentIndexer.runCall env ci (.SetWSReceiver w)).wss = ci.wss := by
      obtain ⟨server, wss, wsr, m, n, k, t⟩ := ci
      cases wsr <;> rfl
    rw [this] at h; exact h
  | Close =>
    left
    have : (covalentIndexer.runCall env ci .Close).wss = ci.wss := by
      obtain ⟨server, wss, wsr, m, n, k, t⟩ := ci
      cases wss <;> cases wsr <;> cases server <;> rfl
    rw [this] at h; exact h

theorem runCall_wsr_origin (env : Env) (ci : covalentIndexer) (x : Call) (c : Conn)
    (h : (covalentIndexer.runCall env ci x).wsr = some c) :
    ci.wsr = some c ∨ x = .SetWSReceiver (some c) := by
  cases x with
  | SetWSReceiver w =>
    right
    have : (covalentIndexer.runCall env ci (.SetWSReceiver w)).wsr = w := by
      simp only [covalentIndexer.runCall, covalentIndexer.SetWSReceiver, covalentIndexer.record]
    rw [this] at h; rw [h]
  | SetWSSender w =>
    left
    have : (covalentIndexer.runCall env ci (.SetWSSender w)).wsr = ci.wsr := by
      obtain ⟨server, wss, wsr, m, n, k, t⟩ := ci
      cases wss <;> rfl
    rw [this] at h; exact h
  | Close =>
    left
    have : (covalentIndexer.runCall env ci .Close).wsr = ci.wsr := by
      obtain ⟨server, wss, wsr, m, n, k, t⟩ := ci
      cases wss <;> cases wsr <;> cases server <;> rfl
    rw [this] at h; exact h

theorem runCalls_slot_origin (env : Env) (calls : List Call) (c : Conn) :
    ∀ ci : covalentIndexer,
      ((runCalls env calls ci).wss = some c →
        ci.wss = some c ∨ Call.SetWSSender (some c) ∈ calls) ∧
      ((runCalls env calls ci).wsr = some c →
        ci.wsr = some c ∨ Call.SetWSReceiver (some c) ∈ calls) := by
  induction calls with
  | nil => intro ci; exact ⟨fun h => Or.inl h, fun h => Or.inl h⟩
  | cons x xs ih =>
    intro ci
    have h := ih (covalentIndexer.runCall env ci x)
    simp only [runCalls, List.foldl_cons] at h ⊢
    refine ⟨fun hs => ?_, fun hr => ?_⟩
    · rcases h.1 hs with h1 | h1
      · rcases runCall_wss_origin env ci x c h1 with h2 | h2
        · exact Or.inl h2
        · exact Or.inr (by simp [h2])
      · exact Or.inr (List.mem_cons_of_mem _ h1)
    · rcases h.2 hr with h1 | h1
      · rcases runCall_wsr_origin env ci x c h1 with h2 | h2
        · exact Or.inl h2
        · exact Or.inr (by simp [h2])
      · exact Or.inr (List.mem_cons_of_mem _ h1)

/-- C16 (amended): in every state reached from an indexer with empty slots through calls to
`SetWSSender` and `SetWSReceiver` (and `Close`), the two slots hold the same connection only if
that connection was passed both to `SetWSSender` and to `SetWSReceiver`; when no connection is
passed to both setters, the slots never hold the same connection. -/
theorem slots_share_only_if_installed_in_both (env : Env) (calls : List Call) (c : Conn)
    (ci : covalentIndexer) (hs : ci.wss = none) (hr : ci.wsr = none)
    (h : (runCalls env calls ci).wss = some c ∧ (runCalls env calls ci).wsr = some c) :
    Call.SetWSSender (some c) ∈ calls ∧ Call.SetWSReceiver (some c) ∈ calls := by
  obtain ⟨h1, h2⟩ := runCalls_slot_origin env calls c ci
  refine ⟨?_, ?_⟩
  · rcases h1 h.1 with h3 | h3
    · rw [hs] at h3; cases h3
    · exact h3
  · rcases h2 h.2 with h3 | h3
    · rw [hr] at h3; cases h3
    · exact h3

/-- C16, witness: after `SetWSSender(1)` and `SetWSReceiver(1)` both slots hold connection `1`,
which was passed to both setters. -/
theorem slots_share_only_if_installed_in_both_witness :
    Call.SetWSSender (some 1) ∈ [Call.SetWSSender (some 1), Call.SetWSReceiver (some 1)] ∧
    Call.SetWSReceiver (some 1) ∈ [Call.SetWSSender (some 1), Call.SetWSReceiver (some 1)] :=
  slots_share_only_if_installed_in_both (quietEnv none (0, [], none))
    [.SetWSSender (some 1), .SetWSReceiver (some 1)] 1 covalentIndexer.new rfl rfl
    (by decide)

/-- C16, counterexample: `SetWSSender(1)` followed by `SetWSReceiver(1)` on a fresh indexer
leaves connection `1` in the sender slot and in the receiver slot. -/
theorem slots_share_connection :
    (runCalls (quietEnv none (0, [], none)) [.SetWSSender (some 1), .SetWSReceiver (some 1)]
      covalentIndexer.new).getWSS = some 1 ∧
    (runCalls (quietEnv none (0, [], none)) [.SetWSSender (some 1), .SetWSReceiver (some 1)]
      covalentIndexer.new).getWSR = some 1 := by
  decide

/-! ## The effects of one attempt, waits included -/

theorem callWriteMessage_deliveryEvents (env : Env) (c : Conn) (mt : Int) (d : Bytes)
    (ci : covalentIndexer) :
    deliveryEvents (ci.callWriteMessage env c mt d).2.trace =
      .WriteMessage c mt d (ci.callWriteMessage env c mt d).1 :: deliveryEvents ci.trace := by
  simp [covalentIndexer.callWriteMessage, record_trace, deliveryEvents_cons, Event.byDelivery,
    yield_deliveryEvents]

theorem callReadMessage_deliveryEvents (env : Env) (c : Conn) (ci : covalentIndexer) :
    deliveryEvents (ci.callReadMessage env c).2.trace =
      .ReadMessage c (ci.callReadMessage env c).1.1 (ci.callReadMessage env c).1.2.1
        (ci.callReadMessage env c).1.2.2 :: deliveryEvents ci.trace := by
  simp [covalentIndexer.callReadMessage, record_trace, deliveryEvents_cons, Event.byDelivery,
    yield_deliveryEvents]

theorem waitForWSSConnection_deliveryEvents (env : Env) (ci : covalentIndexer) :
    deliveryEvents (ci.waitForWSSConnection env).2.trace =
      if (ci.waitForWSSConnection env).1 = true then .recvWSS :: deliveryEvents ci.trace
      else deliveryEvents ci.trace := by
  simp only [covalentIndexer.waitForWSSConnection]
  split_ifs <;> simp_all [deliveryEvents_cons, Event.byDelivery, yield_deliveryEvents]

theorem waitForWSRConnection_deliveryEvents (env : Env) (ci : covalentIndexer) :
    deliveryEvents (ci.waitForWSRConnection env).2.trace =
      if (ci.waitForWSRConnection env).1 = true then .recvWSR :: deliveryEvents ci.trace
      else deliveryEvents ci.trace := by
  simp only [covalentIndexer.waitForWSRConnection]
  split_ifs <;> simp_all [deliveryEvents_cons, Event.byDelivery, yield_deliveryEvents]

theorem readAndCheck_effects (env : Env) (ackData : Bytes) (wsr : Conn) (errSend : Error)
    (ci : covalentIndexer) :
    ∃ msgType p errRead,
      ((readAndCheck env ackData wsr errSend ci).1 = none ∧ errRead ≠ none ∧
        deliveryEvents (readAndCheck env ackData wsr errSend ci).2.trace =
          .ReadMessage wsr msgType p errRead :: deliveryEvents ci.trace) ∨
      ((readAndCheck env ackData wsr errSend ci).1 =
          some (decide (errSend = none ∧ errRead = none ∧
            msgType = websocket.BinaryMessage ∧ p = ackData)) ∧
        deliveryEvents (readAndCheck env ackData wsr errSend ci).2.trace =
          (if errRead = none then [] else [.recvWSR]) ++
            .ReadMessage wsr msgType p errRead :: deliveryEvents ci.trace) := by
  unfold readAndCheck
  have hr := callReadMessage_deliveryEvents env wsr ci
  generalize ci.callReadMessage env wsr = x at hr ⊢
  obtain ⟨⟨msgType, p, errRead⟩, s2⟩ := x
  refine ⟨msgType, p, errRead, ?_⟩
  simp only at hr ⊢
  by_cases he : errRead = none
  · subst he
    right
    by_cases h1 : errSend = none <;> by_cases h2 : msgType = websocket.BinaryMessage <;>
      by_cases h3 : p = ackData <;> simp [h1, h2, h3, hr]
  · have hw := waitForWSRConnection_deliveryEvents env s2
    generalize s2.waitForWSRConnection env = y at hw ⊢
    obtain ⟨b, s3⟩ := y
    cases b
    · left; simp_all
    · right; simp_all

/-- The effects of one delivery attempt, in order: the write; the sender wait if the write
failed; the read; the receiver wait if the read failed. -/
theorem attempt_effects (env : Env) (data ackData : Bytes) (wss wsr : Conn)
    (ci : covalentIndexer) :
    ∃ errSend,
      ((ci.sendDataWithAcknowledge env data ackData wss wsr).1 = none ∧ errSend ≠ none ∧
        deliveryEvents (ci.sendDataWithAcknowledge env data ackData wss wsr).2.trace =
          .WriteMessage wss websocket.BinaryMessage data errSend :: deliveryEvents ci.trace) ∨
      ∃ msgType p errRead,
        ((ci.sendDataWithAcknowledge env data ackData wss wsr).1 = none ∧ errRead ≠ none ∧
          deliveryEvents (ci.sendDataWithAcknowledge env data ackData wss wsr).2.trace =
            .ReadMessage wsr msgType p errRead ::
              ((if errSend = none then [] else [.recvWSS]) ++
                .WriteMessage wss websocket.BinaryMessage data errSend ::
                  deliveryEvents ci.trace)) ∨
        ((ci.sendDataWithAcknowledge env data ackData wss wsr).1 =
            some (decide (errSend = none ∧ errRead = none ∧
              msgType = websocket.BinaryMessage ∧ p = ackData)) ∧
          deliveryEvents (ci.sendDataWithAcknowledge env data ackData wss wsr).2.trace =
            (if errRead = none then [] else [.recvWSR]) ++
              .ReadMessage wsr msgType p errRead ::
                ((if errSend = none then [] else [.recvWSS]) ++
                  .WriteMessage wss websocket.BinaryMessage data errSend ::
                    deliveryEvents ci.trace)) := by
  rw [sendDataWithAcknowledge_eq]
  have hw := callWriteMessage_deliveryEvents env wss websocket.BinaryMessage data ci
  generalize ci.callWriteMessage env wss websocket.BinaryMessage data = x at hw ⊢
  obtain ⟨errSend, s1⟩ := x
  refine ⟨errSend, ?_⟩
  simp only at hw ⊢
  by_cases he : errSend = none
  · subst he
    obtain ⟨mt, p, er, h | h⟩ := readAndCheck_effects env ackData wsr none s1
    · exact Or.inr ⟨mt, p, er, Or.inl (by simpa [hw] using h)⟩
    · exact Or.inr ⟨mt, p, er, Or.inr (by simpa [hw] using h)⟩
  · have hg := waitForWSSConnection_deliveryEvents env s1
    generalize s1.waitForWSSConnection env = y at hg ⊢
    obtain ⟨b, s2⟩ := y
    cases b
    · exact Or.inl (by simp_all)
    · obtain ⟨mt, p, er, h | h⟩ := readAndCheck_effects env ackData wsr errSend s2
      · exact Or.inr ⟨mt, p, er, Or.inl (by simp_all)⟩
      · exact Or.inr ⟨mt, p, er, Or.inr (by simp_all)⟩

theorem io_deliveryEvents (t : List Event) : io (deliveryEvents t) = io t := by
  induction t with
  | nil => rfl
  | cons e t ih => cases e <;> simp_all [deliveryEvents_cons, io_cons, Event.byDelivery, Event.isIO]

theorem waits_deliveryEvents (t : List Event) : waits (deliveryEvents t) = waits t := by
  induction t with
  | nil => rfl
  | cons e t ih =>
    cases e <;> simp_all [deliveryEvents_cons, Event.byDelivery, waits, List.countP_cons]

/-- C17 (amended): a protocol mismatch and a transient transport error both leave the attempt
unacknowledged, but not with the same effects.  When write and read both succeed, the attempt
returns at once, `true` exactly for a binary frame equal to the ack token and `false` for a
mismatch, and no receive from a new-connection channel takes place.  When the write or the read
fails, the attempt enters the wait for a new connection of the failed direction: it never
returns if that wait is never released, and returns `false` only after a completed receive. -/
theorem mismatch_returns_at_once_error_waits (env : Env) (data ackData : Bytes) (wss wsr : Conn)
    (ci : covalentIndexer) :
    ∃ errSend,
      ((ci.sendDataWithAcknowledge env data ackData wss wsr).1 = none ∧ errSend ≠ none ∧
        io (ci.sendDataWithAcknowledge env data ackData wss wsr).2.trace =
          .WriteMessage wss websocket.BinaryMessage data errSend :: io ci.trace) ∨
      ∃ msgType p errRead,
        io (ci.sendDataWithAcknowledge env data ackData wss wsr).2.trace =
          .ReadMessage wsr msgType p errRead ::
            .WriteMessage wss websocket.BinaryMessage data errSend :: io ci.trace ∧
        (errSend = none → errRead = none →
          (ci.sendDataWithAcknowledge env data ackData wss wsr).1 =
            some (decide (msgType = websocket.BinaryMessage ∧ p = ackData)) ∧
          waits (ci.sendDataWithAcknowledge env data ackData wss wsr).2.trace =
            waits ci.trace) ∧
        (errSend ≠ none ∨ errRead ≠ none →
          (ci.sendDataWithAcknowledge env data ackData wss wsr).1 = none ∨
          ((ci.sendDataWithAcknowledge env data ackData wss wsr).1 = some false ∧
            waits ci.trace <
              waits (ci.sendDataWithAcknowledge env data ackData wss wsr).2.trace)) := by
  obtain ⟨errSend, h | ⟨mt, p, er, h⟩⟩ := attempt_effects env data ackData wss wsr ci
  · refine ⟨errSend, Or.inl ⟨h.1, h.2.1, ?_⟩⟩
    rw [← io_deliveryEvents, h.2.2, io_cons]
    simp [Event.isIO, io_deliveryEvents]
  · refine ⟨errSend, Or.inr ⟨mt, p, er, ?_, ?_, ?_⟩⟩
    · have hd := io_deliveryEvents ci.trace
      simp only [io] at hd
      rcases h with h | h
      · rw [← io_deliveryEvents, h.2.2]
        by_cases h1 : errSend = none <;>
          simp [h1, Event.isIO, io, hd]
      · rw [← io_deliveryEvents, h.2]
        by_cases h1 : errSend = none <;> by_cases h2 : er = none <;>
          simp [h1, h2, Event.isIO, io, hd]
    · intro h1 h2
      subst h1; subst h2
      rcases h with h | h
      · exact absurd rfl h.2.1
      · refine ⟨by simpa using h.1, ?_⟩
        rw [← waits_deliveryEvents, h.2, ← waits_deliveryEvents ci.trace]
        simp [waits, List.countP_cons]
    · intro herr
      rcases h with h | h
      · exact Or.inl h.1
      · right
        have hfalse : ¬(errSend = none ∧ er = none ∧ mt = websocket.BinaryMessage ∧
            p = ackData) := by
          rintro ⟨h1, h2, _⟩
          rcases herr with h3 | h3
          · exact h3 h1
          · exact h3 h2
        refine ⟨by rw [h.1]; simp [hfalse], ?_⟩
        have e1 := waits_deliveryEvents
          (ci.sendDataWithAcknowledge env data ackData wss wsr).2.trace
        rw [h.2] at e1
        rw [← e1, ← waits_deliveryEvents ci.trace]
        by_cases h1 : errSend = none <;> by_cases h2 : er = none
        · rcases herr with h3 | h3
          · exact absurd h1 h3
          · exact absurd h2 h3
        all_goals
          simp only [h1, h2, waits, List.countP_cons, List.cons_append, List.nil_append,
            ↓reduceIte, if_true, if_false]
          omega

/-- C17, witness: a mismatched frame makes the attempt return `false` without any wait. -/
theorem mismatch_returns_at_once_error_waits_witness :
    (covalentIndexer.new.sendDataWithAcknowledge
        (quietEnv none (websocket.BinaryMessage, [1], none)) [1, 2, 3] [7] 10 20).1 = some false ∧
    waits (covalentIndexer.new.sendDataWithAcknowledge
        (quietEnv none (websocket.BinaryMessage, [1], none)) [1, 2, 3] [7] 10 20).2.trace = 0 ∧
    (∃ errSend,
      ((covalentIndexer.new.sendDataWithAcknowledge
          (quietEnv none (websocket.BinaryMessage, [1], none)) [1, 2, 3] [7] 10 20).1 = none ∧
        errSend ≠ none ∧
        io (covalentIndexer.new.sendDataWithAcknowledge
          (quietEnv none (websocket.BinaryMessage, [1], none)) [1, 2, 3] [7] 10 20).2.trace =
          .WriteMessage 10 websocket.BinaryMessage [1, 2, 3] errSend ::
            io covalentIndexer.new.trace) ∨
      ∃ msgType p errRead,
        io (covalentIndexer.new.sendDataWithAcknowledge
          (quietEnv none (websocket.BinaryMessage, [1], none)) [1, 2, 3] [7] 10 20).2.trace =
          .ReadMessage 20 msgType p errRead ::
            .WriteMessage 10 websocket.BinaryMessage [1, 2, 3] errSend ::
              io covalentIndexer.new.trace ∧
        (errSend = none → errRead = none →
          (covalentIndexer.new.sendDataWithAcknowledge
            (quietEnv none (websocket.BinaryMessage, [1], none)) [1, 2, 3] [7] 10 20).1 =
            some (decide (msgType = websocket.BinaryMessage ∧ p = [7])) ∧
          waits (covalentIndexer.new.sendDataWithAcknowledge
            (quietEnv none (websocket.BinaryMessage, [1], none)) [1, 2, 3] [7] 10 20).2.trace =
            waits covalentIndexer.new.trace) ∧
        (errSend ≠ none ∨ errRead ≠ none →
          (covalentIndexer.new.sendDataWithAcknowledge
            (quietEnv none (websocket.BinaryMessage, [1], none)) [1, 2, 3] [7] 10 20).1 = none ∨
          ((covalentIndexer.new.sendDataWithAcknowledge
            (quietEnv none (websocket.BinaryMessage, [1], none)) [1, 2, 3] [7] 10 20).1 =
              some false ∧
            waits covalentIndexer.new.trace <
              waits (covalentIndexer.new.sendDataWithAcknowledge
                (quietEnv none (websocket.BinaryMessage, [1], none))
                [1, 2, 3] [7] 10 20).2.trace))) :=
  ⟨by decide, by decide,
    mismatch_returns_at_once_error_waits (quietEnv none (websocket.BinaryMessage, [1], none))
      [1, 2, 3] [7] 10 20 covalentIndexer.new⟩

/-- C17, counterexample: from the same state, with a `SetWSSender` and a `SetWSReceiver` caller
parked on the channels, a mismatched frame and a failed read both make the attempt return
`false`, but only the failed read receives from `newConnectionWSR` and releases the parked
caller; and on a fresh indexer the mismatch returns `false` while the failed read never
returns. -/
theorem mismatch_and_read_error_differ :
    (installedBefore.sendDataWithAcknowledge
        (quietEnv none (websocket.BinaryMessage, [1], none)) [1, 2, 3] [7] 10 20).1 = some false ∧
    (installedBefore.sendDataWithAcknowledge
        (quietEnv none (0, [], some "read message error")) [1, 2, 3] [7] 10 20).1 = some false ∧
    waits (installedBefore.sendDataWithAcknowledge
        (quietEnv none (websocket.BinaryMessage, [1], none)) [1, 2, 3] [7] 10 20).2.trace = 0 ∧
    waits (installedBefore.sendDataWithAcknowledge
        (quietEnv none (0, [], some "read message error")) [1, 2, 3] [7] 10 20).2.trace = 1 ∧
    (installedBefore.sendDataWithAcknowledge
        (quietEnv none (websocket.BinaryMessage, [1], none))
        [1, 2, 3] [7] 10 20).2.newConnectionWSR = 1 ∧
    (installedBefore.sendDataWithAcknowledge
        (quietEnv none (0, [], some "read message error"))
        [1, 2, 3] [7] 10 20).2.newConnectionWSR = 0 ∧
    (covalentIndexer.new.sendDataWithAcknowledge
        (quietEnv none (websocket.BinaryMessage, [1], none)) [1, 2, 3] [7] 10 20).1 = some false ∧
    (covalentIndexer.new.sendDataWithAcknowledge
        (quietEnv none (0, [], some "read message error")) [1, 2, 3] [7] 10 20).1 = none := by
  decide

/-! ## Callers parked on the new-connection channels -/

theorem runCall_parked (env : Env) (ci : covalentIndexer) (x : Call) :
    (covalentIndexer.runCall env ci x).newConnectionWSS =
        ci.newConnectionWSS + senderCalls [x] ∧
    (covalentIndexer.runCall env ci x).newConnectionWSR =
        ci.newConnectionWSR + receiverCalls [x] := by
  obtain ⟨server, wss, wsr, m, n, k, t⟩ := ci
  cases x <;> cases wss <;> cases wsr <;> cases server <;>
    simp [covalentIndexer.runCall, covalentIndexer.SetWSSender, covalentIndexer.SetWSReceiver,
      covalentIndexer.Close, covalentIndexer.record, covalentIndexer.getWSS,
      covalentIndexer.getWSR, senderCalls, receiverCalls]

/-- C18 (amended): `SetWSSender` and `SetWSReceiver` replace the connection without waiting
but then send on an unbuffered channel.  Over any sequence of `SetWSSender`, `SetWSReceiver`
and `Close` calls, with no delivery receiving, every setter call adds one caller parked on the
send of its channel and none is released; a caller is released only by a completed receive of
`waitForWSSConnection` (`waitForWSRConnection`), which releases exactly one. -/
theorem SetWS_caller_parked_until_received :
    (∀ (env : Env) (calls : List Call) (ci : covalentIndexer),
      (runCalls env calls ci).newConnectionWSS = ci.newConnectionWSS + senderCalls calls ∧
      (runCalls env calls ci).newConnectionWSR = ci.newConnectionWSR + receiverCalls calls) ∧
    (∀ (env : Env) (ci : covalentIndexer), (ci.waitForWSSConnection env).1 = true →
      (ci.waitForWSSConnection env).2.newConnectionWSS + 1 = (ci.yield env).newConnectionWSS ∧
      (ci.waitForWSSConnection env).2.newConnectionWSR = (ci.yield env).newConnectionWSR) ∧
    (∀ (env : Env) (ci : covalentIndexer), (ci.waitForWSRConnection env).1 = true →
      (ci.waitForWSRConnection env).2.newConnectionWSR + 1 = (ci.yield env).newConnectionWSR ∧
      (ci.waitForWSRConnection env).2.newConnectionWSS = (ci.yield env).newConnectionWSS) := by
  refine ⟨?_, ?_, ?_⟩
  · intro env calls
    induction calls with
    | nil => intro ci; simp [runCalls, senderCalls, receiverCalls]
    | cons x xs ih =>
      intro ci
      have h1 := runCall_parked env ci x
      have h2 := ih (covalentIndexer.runCall env ci x)
      have h3 : senderCalls (x :: xs) = senderCalls [x] + senderCalls xs := by
        simp [senderCalls, List.countP_cons]; omega
      have h4 : receiverCalls (x :: xs) = receiverCalls [x] + receiverCalls xs := by
        simp [receiverCalls, List.countP_cons]; omega
      simp only [runCalls, List.foldl_cons] at h2 ⊢
      omega
  · intro env ci h
    simp only [covalentIndexer.waitForWSSConnection] at h ⊢
    split_ifs at h ⊢ with h0
    exact ⟨by simp only; omega, rfl⟩
  · intro env ci h
    simp only [covalentIndexer.waitForWSRConnection] at h ⊢
    split_ifs at h ⊢ with h0
    exact ⟨by simp only; omega, rfl⟩

/-- C18, witness: with a `SetWSSender` caller parked, `waitForWSSConnection` completes and
releases it. -/
theorem SetWS_caller_parked_until_received_witness :
    (installedBefore.waitForWSSConnection (quietEnv none (0, [], none))).2.newConnectionWSS + 1 =
      (installedBefore.yield (quietEnv none (0, [], none))).newConnectionWSS ∧
    (installedBefore.waitForWSSConnection (quietEnv none (0, [], none))).2.newConnectionWSR =
      (installedBefore.yield (quietEnv none (0, [], none))).newConnectionWSR :=
  SetWS_caller_parked_until_received.2.1 (quietEnv none (0, [], none)) installedBefore
    (by decide)

/-- C18, counterexample: `SetWSSender(1)` and `SetWSReceiver(2)` on a fresh indexer on which no
delivery is waiting: each caller is parked on the send of its channel, and is still parked
after a later `Close`. -/
theorem SetWS_caller_blocked_without_waiter :
    (covalentIndexer.new.SetWSSender (quietEnv none (0, [], none)) (some 1)).newConnectionWSS =
      1 ∧
    (covalentIndexer.new.SetWSReceiver (quietEnv none (0, [], none)) (some 2)).newConnectionWSR =
      1 ∧
    (runCalls (quietEnv none (0, [], none))
      [.SetWSSender (some 1), .SetWSReceiver (some 2), .Close]
      covalentIndexer.new).newConnectionWSS = 1 ∧
    (runCalls (quietEnv none (0, [], none))
      [.SetWSSender (some 1), .SetWSReceiver (some 2), .Close]
      covalentIndexer.new).newConnectionWSR = 1 := by
  decide

/-! ## Package `utility` -/

theorem hexDigits_table :
    ∀ c ∈ "0123456789abcdefABCDEF".data,
      hex.fromHexChar c = some ((hex.fromHexChar c).getD 0) ∧
      (hex.fromHexChar c).getD 0 < 16 ∧
      hex.hextable ((hex.fromHexChar c).getD 0) = c.toLower := by
  decide

theorem isHexDigit_value (c : Char) (h : isHexDigit c) :
    ∃ v, v < 16 ∧ hex.fromHexChar c = some v ∧ hex.hextable v = c.toLower :=
  ⟨(hex.fromHexChar c).getD 0, (hexDigits_table c h).2.1, (hexDigits_table c h).1,
    (hexDigits_table c h).2.2⟩

theorem char_between (c lo hi : Char) (h : lo ≤ c ∧ c ≤ hi) :
    ∃ n, lo.toNat ≤ n ∧ n ≤ hi.toNat ∧ c = Char.ofNat n :=
  ⟨c.toNat, h.1, h.2, (Char.ofNat_toNat c).symm⟩

theorem fromHexChar_isHexDigit (c : Char) (v : Nat) (h : hex.fromHexChar c = some v) :
    isHexDigit c := by
  unfold hex.fromHexChar at h
  split_ifs at h with h1 h2 h3
  · obtain ⟨n, hlo, hhi, rfl⟩ := char_between c '0' '9' h1
    have hlo' : 48 ≤ n := hlo
    have hhi' : n ≤ 57 := hhi
    clear h h1 hlo hhi
    interval_cases n <;> decide
  · obtain ⟨n, hlo, hhi, rfl⟩ := char_between c 'a' 'f' h2
    have hlo' : 97 ≤ n := hlo
    have hhi' : n ≤ 102 := hhi
    clear h h1 h2 hlo hhi
    interval_cases n <;> decide
  · obtain ⟨n, hlo, hhi, rfl⟩ := char_between c 'A' 'F' h3
    have hlo' : 65 ≤ n := hlo
    have hhi' : n ≤ 70 := hhi
    clear h h1 h2 h3 hlo hhi
    interval_cases n <;> decide

theorem Decode_valid (n : Nat) :
    ∀ cs : List Char, cs.length = 2 * n → (∀ c ∈ cs, isHexDigit c) →
      ∃ out, hex.Decode cs = (out, none) ∧ (∀ v ∈ out, v < 256) ∧
        hex.EncodeToString out = cs.map Char.toLower := by
  induction n with
  | zero =>
    intro cs hlen _
    have : cs = [] := List.length_eq_zero.1 (by omega)
    subst this
    exact ⟨[], rfl, by simp, rfl⟩
  | succ n ih =>
    intro cs hlen hall
    match cs, hlen, hall with
    | p :: q :: rest, hlen, hall =>
      obtain ⟨a, ha, hpa, hta⟩ := isHexDigit_value p (hall p (by simp))
      obtain ⟨b, hb, hqb, htb⟩ := isHexDigit_value q (hall q (by simp))
      obtain ⟨out, hout, hlt, henc⟩ := ih rest (by simp at hlen; omega)
        (fun c hc => hall c (by simp [hc]))
      refine ⟨(a * 16 + b) :: out, ?_, ?_, ?_⟩
      · simp [hex.Decode, hpa, hqb, hout]
      · intro v hv
        rcases List.mem_cons.1 hv with rfl | hv
        · omega
        · exact hlt v hv
      · have h1 : (a * 16 + b) / 16 = a := by omega
        have h2 : (a * 16 + b) % 16 = b := by omega
        simp only [hex.EncodeToString, List.flatMap_cons, h1, h2, hta, htb, List.map_cons]
        simp only [hex.EncodeToString] at henc
        rw [henc]
        rfl
    | [_], hlen, _ => simp at hlen; omega
    | [], hlen, _ => simp at hlen

theorem Decode_invalid (n : Nat) :
    ∀ cs : List Char, cs.length ≤ n →
      ¬(cs.length % 2 = 0 ∧ ∀ c ∈ cs, isHexDigit c) → (hex.Decode cs).2 ≠ none := by
  induction n with
  | zero =>
    intro cs hlen hbad
    have : cs = [] := List.length_eq_zero.1 (by omega)
    subst this
    exact absurd ⟨rfl, by simp⟩ hbad
  | succ n ih =>
    intro cs hlen hbad
    match cs, hlen, hbad with
    | [], _, hbad => exact absurd ⟨rfl, by simp⟩ hbad
    | [p], _, _ =>
      simp only [hex.Decode]
      cases hex.fromHexChar p <;> simp
    | p :: q :: rest, hlen, hbad =>
      simp only [hex.Decode]
      cases hp : hex.fromHexChar p with
      | none => simp
      | some a =>
        cases hq : hex.fromHexChar q with
        | none => simp
        | some b =>
          have hrest : ¬(rest.length % 2 = 0 ∧ ∀ c ∈ rest, isHexDigit c) := by
            rintro ⟨h1, h2⟩
            apply hbad
            refine ⟨by simp; omega, ?_⟩
            intro c hc
            rcases List.mem_cons.1 hc with rfl | hc
            · exact fromHexChar_isHexDigit _ a hp
            · rcases List.mem_cons.1 hc with rfl | hc
              · exact fromHexChar_isHexDigit _ b hq
              · exact h2 c hc
          have := ih rest (by simp at hlen; omega) hrest
          simpa using this

theorem DecodeString_valid (s : String) (h : validHex s) :
    ∃ b, hex.DecodeString s = (b, none) ∧ isHexDecodingOf b s := by
  obtain ⟨out, h1, h2, h3⟩ := Decode_valid (s.data.length / 2) s.data
    (by have := h.1; omega) h.2
  exact ⟨out, h1, h2, h3⟩

theorem DecodeString_invalid (s : String) (h : ¬validHex s) :
    (hex.DecodeString s).2 ≠ none :=
  Decode_invalid s.data.length s.data (Nat.le_refl _) h

theorem decodeAll_valid (l : List String) (h : ∀ s ∈ l, validHex s) :
    ∃ out, utility.decodeAll l = (some out, none) ∧ List.Forall₂ isHexDecodingOf out l := by
  induction l with
  | nil => exact ⟨[], rfl, List.Forall₂.nil⟩
  | cons s rest ih =>
    obtain ⟨b, hb, hdec⟩ := DecodeString_valid s (h s (by simp))
    obtain ⟨out, hout, hall⟩ := ih (fun x hx => h x (by simp [hx]))
    exact ⟨b :: out, by simp [utility.decodeAll, hb, hout], List.Forall₂.cons hdec hall⟩

theorem decodeAll_invalid (l : List String) (h : ∃ s ∈ l, ¬validHex s) :
    ∃ e, utility.decodeAll l = (none, some e) := by
  induction l with
  | nil => obtain ⟨s, hs, _⟩ := h; cases hs
  | cons s rest ih =>
    simp only [utility.decodeAll]
    rcases hd : hex.DecodeString s with ⟨tmp, err⟩
    cases err with
    | some e => exact ⟨e, rfl⟩
    | none =>
      have hv : validHex s := by
        by_contra hn
        have := DecodeString_invalid s hn
        rw [hd] at this
        exact this rfl
      have hrest : ∃ x ∈ rest, ¬validHex x := by
        obtain ⟨x, hx, hbad⟩ := h
        rcases List.mem_cons.1 hx with rfl | hx
        · exact absurd hv hbad
        · exact ⟨x, hx, hbad⟩
      obtain ⟨e, he⟩ := ih hrest
      exact ⟨e, by simp [he]⟩

/-- C19: `HexSliceToByteSlice(nil)` returns `(nil, nil)`; on a list of valid even-length
hexadecimal strings it returns, with a nil error, a list of the same length whose elements are,
position by position, the hexadecimal decodings of the inputs; and when some element is not a
valid even-length hexadecimal string it returns a nil slice and a non-nil error. -/
theorem HexSliceToByteSlice_spec :
    utility.HexSliceToByteSlice none = (none, none) ∧
    (∀ l : List String, (∀ s ∈ l, validHex s) →
      ∃ out, utility.HexSliceToByteSlice (some l) = (some out, none) ∧
        out.length = l.length ∧ List.Forall₂ isHexDecodingOf out l) ∧
    (∀ l : List String, (∃ s ∈ l, ¬validHex s) →
      ∃ e, utility.HexSliceToByteSlice (some l) = (none, some e)) := by
  refine ⟨rfl, fun l h => ?_, fun l h => decodeAll_invalid l h⟩
  obtain ⟨out, h1, h2⟩ := decodeAll_valid l h
  exact ⟨out, h1, h2.length_eq, h2⟩

/-- C19, witness: the inputs of the tests, `["0a", "0b", "0c"]` and `["0a", "xz", "0c"]`. -/
theorem HexSliceToByteSlice_spec_witness :
    utility.HexSliceToByteSlice (some ["0a", "0b", "0c"]) = (some [[10], [11], [12]], none) ∧
    (∃ out, utility.HexSliceToByteSlice (some ["0a", "0b", "0c"]) = (some out, none) ∧
      out.length = ["0a", "0b", "0c"].length ∧
      List.Forall₂ isHexDecodingOf out ["0a", "0b", "0c"]) ∧
    (∃ e, utility.HexSliceToByteSlice (some ["0a", "xz", "0c"]) = (none, some e)) :=
  ⟨by decide,
    HexSliceToByteSlice_spec.2.1 ["0a", "0b", "0c"] (by decide),
    HexSliceToByteSlice_spec.2.2 ["0a", "xz", "0c"] ⟨"xz", by decide, by decide⟩⟩

theorem int64_eq (u : Nat) (h : u < 2 ^ 64) :
    int64 u = if u < 2 ^ 63 then (u : Int) else (u : Int) - 2 ^ 64 := by
  unfold int64 Int.bmod
  have h1 : ((u : Int) % ((2 ^ 64 : Nat) : Int)) = (u : Int) := by
    apply Int.emod_eq_of_lt
    · omega
    · push_cast; omega
  simp only [h1]
  have h2 : (((2 ^ 64 : Nat) : Int) + 1) / 2 = 2 ^ 63 := by norm_num
  rw [h2]
  split_ifs with h3 h4 h4
  · rfl
  · exfalso; apply h4; omega
  · exfalso; apply h3; omega
  · push_cast; rfl

/-- C20: `UIntSliceToIntSlice(nil)` is nil; on a non-nil slice of `uint64` values it returns a
slice of the same length whose element at each position is the input element read as a signed
64-bit integer: the same value below `2 ^ 63`, and the value minus `2 ^ 64` from `2 ^ 63` on. -/
theorem UIntSliceToIntSlice_spec :
    utility.UIntSliceToIntSlice none = none ∧
    (∀ l : List Nat, (∀ u ∈ l, u < 2 ^ 64) →
      ∃ out, utility.UIntSliceToIntSlice (some l) = some out ∧ out.length = l.length ∧
        ∀ (i u : Nat), l[i]? = some u →
          out[i]? = some (if u < 2 ^ 63 then (u : Int) else (u : Int) - 2 ^ 64)) := by
  refine ⟨rfl, fun l h => ⟨l.map int64, rfl, by simp, ?_⟩⟩
  intro i u hi
  have hmem : u ∈ l := List.getElem?_mem hi
  simp [hi, int64_eq u (h u hmem)]

/-- C20, witness: the values `1`, `2`, `3` of the test, and the two ends of the upper half of
the `uint64` range. -/
theorem UIntSliceToIntSlice_spec_witness :
    utility.UIntSliceToIntSlice (some [1, 2, 3, 2 ^ 63, 2 ^ 64 - 1]) =
      some [1, 2, 3, -2 ^ 63, -1] ∧
    (∃ out, utility.UIntSliceToIntSlice (some [1, 2, 3, 2 ^ 63, 2 ^ 64 - 1]) = some out ∧
      out.length = [1, 2, 3, 2 ^ 63, 2 ^ 64 - 1].length ∧
      ∀ (i u : Nat), [1, 2, 3, 2 ^ 63, 2 ^ 64 - 1][i]? = some u →
        out[i]? = some (if u < 2 ^ 63 then (u : Int) else (u : Int) - 2 ^ 64)) :=
  ⟨by decide, UIntSliceToIntSlice_spec.2 [1, 2, 3, 2 ^ 63, 2 ^ 64 - 1] (by decide)⟩


/-! ## Package `utility`: big integers and the address of the metachain shard -/

theorem bytesAux_eq_digits (fuel : Nat) :
    ∀ (n : Nat) (acc : Bytes), n ≤ fuel →
      big.bytesAux fuel n acc = (Nat.digits 256 n).reverse ++ acc := by
  induction fuel with
  | zero =>
    intro n acc h
    have h0 : n = 0 := by omega
    subst h0
    simp [big.bytesAux]
  | succ fuel ih =>
    intro n acc h
    unfold big.bytesAux
    by_cases h0 : n = 0
    · subst h0; simp
    · have hpos : 0 < n := Nat.pos_of_ne_zero h0
      have hlt : n / 256 ≤ fuel := by
        have : n / 256 < n := Nat.div_lt_self hpos (by norm_num)
        omega
      rw [if_neg h0, ih (n / 256) _ hlt, Nat.digits_def' (by norm_num) hpos]
      simp

theorem Bytes_eq_digits (v : Int) : big.Int.Bytes v = (Nat.digits 256 v.natAbs).reverse := by
  unfold big.Int.Bytes
  rw [bytesAux_eq_digits _ _ _ (le_refl _)]
  simp

theorem bigEndianValue_reverse (l : List Nat) :
    bigEndianValue l.reverse = Nat.ofDigits 256 l := by
  induction l with
  | nil => simp [bigEndianValue]
  | cons x l ih =>
    unfold bigEndianValue at ih ⊢
    rw [List.reverse_cons, List.foldl_append, ih, Nat.ofDigits_cons]
    simp only [List.foldl_cons, List.foldl_nil]
    ring

theorem Bytes_minimal (v : Int) : isMinimalBigEndian (big.Int.Bytes v) v.natAbs := by
  rw [Bytes_eq_digits]
  refine ⟨?_, ?_, ?_⟩
  · intro x hx
    exact Nat.digits_lt_base (by norm_num) (List.mem_reverse.mp hx)
  · rw [bigEndianValue_reverse, Nat.ofDigits_digits]
  · intro h
    by_cases h0 : v.natAbs = 0
    · simp [h0] at h
    · have hne := Nat.getLast_digit_ne_zero 256 h0
      rw [List.head?_reverse] at h
      rw [List.getLast?_eq_getLast _ (Nat.digits_ne_nil_iff_ne_zero.mpr h0)] at h
      exact hne (Option.some.inj h)

/-- C21: `GetBytes(nil)` is the empty byte slice; for a non-nil big integer `v`, `GetBytes(v)`
is `v.Bytes()`, which is the minimal big-endian encoding of the absolute value of `v`; and 10
maps to the single byte `0x0a`. -/
theorem GetBytes_spec :
    utility.GetBytes none = [] ∧
    (∀ v : Int, utility.GetBytes (some v) = big.Int.Bytes v ∧
      isMinimalBigEndian (utility.GetBytes (some v)) v.natAbs) ∧
    utility.GetBytes (some (big.NewInt 10)) = [0x0a] := by
  refine ⟨by decide, ?_, by decide⟩
  intro v
  exact ⟨rfl, Bytes_minimal v⟩

/-- C22: `MetaChainShardAddress` returns exactly 62 bytes: first the ten ASCII decimal digits
of `core.MetachainShardId`, that is of 4294967295, then zero bytes only. -/
theorem MetaChainShardAddress_spec :
    utility.MetaChainShardAddress.length = 62 ∧
    core.MetachainShardId = 4294967295 ∧
    utility.MetaChainShardAddress.take 10 = "4294967295".data.map Char.toNat ∧
    utility.MetaChainShardAddress.take 10 =
      ((Nat.digits 10 core.MetachainShardId).reverse.map fun d => d + '0'.toNat) ∧
    utility.MetaChainShardAddress.drop 10 = List.replicate 52 0 := by
  refine ⟨by decide, rfl, by decide, ?_, by decide⟩
  have hd : Nat.digits 10 core.MetachainShardId = [5, 9, 2, 7, 6, 9, 4, 9, 2, 4] := by
    unfold core.MetachainShardId
    norm_num
  rw [hd]
  decide

/-! ## Package `utility`: the Avro binary form of an account balance update -/

theorem zigzag_lt (x : Int) (hlo : -2 ^ 63 ≤ x) (hhi : x < 2 ^ 63) : avro.zigzag x < 2 ^ 64 := by
  unfold avro.zigzag
  split_ifs <;> omega

theorem unzigzag_zigzag (x : Int) : avro.unzigzag (avro.zigzag x) = x := by
  unfold avro.unzigzag avro.zigzag
  split_ifs <;> omega

theorem readVarint_varintAux (efuel : Nat) :
    ∀ (x offset dfuel : Nat) (rest : Bytes), x < 128 ^ (efuel + 1) → efuel < dfuel →
      x * 2 ^ (7 * offset) < 2 ^ 64 →
      avro.readVarint dfuel offset (avro.varintAux efuel x ++ rest)
        = some (x * 2 ^ (7 * offset), rest) := by
  induction efuel with
  | zero =>
    intro x offset dfuel rest hx hd hb
    obtain ⟨d, rfl⟩ : ∃ d, dfuel = d + 1 := ⟨dfuel - 1, by omega⟩
    have hx' : x < 128 := by simpa using hx
    simp only [avro.varintAux, List.singleton_append, avro.readVarint, if_pos hx',
      Nat.mod_eq_of_lt hx', Nat.mod_eq_of_lt hb]
    rfl
  | succ e ih =>
    intro x offset dfuel rest hx hd hb
    obtain ⟨d, rfl⟩ : ∃ d, dfuel = d + 1 := ⟨dfuel - 1, by omega⟩
    by_cases hx' : x < 128
    · simp only [avro.varintAux, if_pos hx', List.singleton_append, avro.readVarint,
        Nat.mod_eq_of_lt hx', Nat.mod_eq_of_lt hb]
    · have hpow : 2 ^ (7 * (offset + 1)) = 128 * 2 ^ (7 * offset) := by
        rw [Nat.mul_add, Nat.pow_add]; norm_num; ring
      have hsplit : x = x % 128 + 128 * (x / 128) := (Nat.mod_add_div x 128).symm
      have hq : x / 128 < 128 ^ (e + 1) := by
        rw [Nat.div_lt_iff_lt_mul (by norm_num)]
        calc x < 128 ^ (e + 1 + 1) := hx
          _ = 128 ^ (e + 1) * 128 := by ring
      have hmul : x / 128 * 2 ^ (7 * (offset + 1)) ≤ x * 2 ^ (7 * offset) := by
        rw [hpow]
        calc x / 128 * (128 * 2 ^ (7 * offset)) = (128 * (x / 128)) * 2 ^ (7 * offset) := by ring
          _ ≤ x * 2 ^ (7 * offset) := Nat.mul_le_mul_right _ (Nat.mul_div_le x 128)
      have hlow : x % 128 * 2 ^ (7 * offset) < 2 ^ 64 :=
        lt_of_le_of_lt (Nat.mul_le_mul_right _ (Nat.mod_le x 128)) hb
      have hbyte : ¬ (x % 128 + 128 < 128) := by omega
      have hbmod : (x % 128 + 128) % 128 = x % 128 := by omega
      simp only [avro.varintAux, if_neg hx', List.cons_append, avro.readVarint, if_neg hbyte,
        hbmod, Nat.mod_eq_of_lt hlow]
      rw [ih (x / 128) (offset + 1) d rest hq (by omega) (lt_of_le_of_lt hmul hb)]
      simp only [Option.some.injEq, Prod.mk.injEq, and_true]
      rw [hpow]
      calc x % 128 * 2 ^ (7 * offset) + x / 128 * (128 * 2 ^ (7 * offset))
          = (x % 128 + 128 * (x / 128)) * 2 ^ (7 * offset) := by ring
        _ = x * 2 ^ (7 * offset) := by rw [← hsplit]

theorem ReadLong_WriteLong (x : Int) (rest : Bytes) (hlo : -2 ^ 63 ≤ x) (hhi : x < 2 ^ 63) :
    avro.ReadLong (avro.WriteLong x ++ rest) = some (x, rest) := by
  have hz := zigzag_lt x hlo hhi
  unfold avro.ReadLong avro.WriteLong avro.encodeVarint
  rw [readVarint_varintAux 9 (avro.zigzag x) 0 10 rest (by norm_num; omega) (by norm_num)
    (by simpa using hz)]
  simp [unzigzag_zigzag]

theorem ReadBytes_WriteBytes (b rest : Bytes) (h : b.length < 2 ^ 63) :
    avro.ReadBytes (avro.WriteBytes b ++ rest) = some (b, rest) := by
  unfold avro.ReadBytes avro.WriteBytes
  rw [List.append_assoc, ReadLong_WriteLong _ _ (by omega) (by exact_mod_cast h)]
  simp

theorem ReadFixed_append (size : Nat) (a rest : Bytes) (h : a.length = size) :
    avro.ReadFixed size (a ++ rest) = some (a, rest) := by
  unfold avro.ReadFixed
  subst h
  simp

/-- C23: `Decode` undoes `Encode`: for every `AccountBalanceUpdate` record with a 62-byte
`Address` (a `Balance` as long as a Go slice can be, and a `Nonce` that is an `int64`),
`Encode` succeeds, and decoding the buffer it returns into an empty record succeeds and gives
a record equal to the original. -/
theorem Decode_Encode (r : schema.AccountBalanceUpdate)
    (haddr : r.Address.length = 62) (hbal : r.Balance.length < 2 ^ 63)
    (hlo : -2 ^ 63 ≤ r.Nonce) (hhi : r.Nonce < 2 ^ 63) :
    ∃ buffer, utility.Encode r = (some buffer, none) ∧
      utility.Decode schema.AccountBalanceUpdate.empty buffer = (r, none) := by
  refine ⟨r.Address ++ avro.WriteBytes r.Balance ++ avro.WriteLong r.Nonce, ?_, ?_⟩
  · unfold utility.Encode
    rw [if_neg (by simp [haddr])]
  · unfold utility.Decode
    rw [List.append_assoc, ReadFixed_append 62 _ _ haddr]
    simp only
    rw [ReadBytes_WriteBytes _ _ hbal]
    simp only
    have hlong := ReadLong_WriteLong r.Nonce [] hlo hhi
    rw [List.append_nil] at hlong
    rw [hlong]

theorem Decode_Encode_witness :
    ∃ buffer, utility.Encode sampleAccountBalanceUpdate = (some buffer, none) ∧
      utility.Decode schema.AccountBalanceUpdate.empty buffer
        = (sampleAccountBalanceUpdate, none) :=
  Decode_Encode sampleAccountBalanceUpdate (by decide) (by decide) (by decide) (by decide)

/-! ## Package `block`: the proposer, the first failure, the epoch start -/


theorem getProposerIndex_eq (signersIndexes : Option (List Nat)) :
    getProposerIndex signersIndexes = some (expectedProposer signersIndexes) := by
  unfold getProposerIndex expectedProposer
  rcases signersIndexes with _ | _ | ⟨first, rest⟩ <;> simp [len, index, ProposerIndex]

/-- The four ways in which `ProcessBlock` ends: the three kinds of error, in their order, or a
block; it never panics. -/
theorem ProcessBlock_cases (bp : blockProcessor) (args : indexer.ArgsSaveBlockData) :
    (∃ err, (bp.computeBlockSize args.Header args.Body).2 = some err ∧
      bp.ProcessBlock args = some (none, some err)) ∨
    (∃ err, (bp.computeBlockSize args.Header args.Body).2 = none ∧
      (bp.miniBlocksHandler args.Header args.Body).2 = some err ∧
      bp.ProcessBlock args = some (none, some err)) ∨
    (∃ err, (bp.computeBlockSize args.Header args.Body).2 = none ∧
      (bp.miniBlocksHandler args.Header args.Body).2 = none ∧
      (utility.HexSliceToByteSlice args.NotarizedHeadersHashes).2 = some err ∧
      bp.ProcessBlock args = some (none, some err)) ∨
    (∃ b, (bp.computeBlockSize args.Header args.Body).2 = none ∧
      (bp.miniBlocksHandler args.Header args.Body).2 = none ∧
      (utility.HexSliceToByteSlice args.NotarizedHeadersHashes).2 = none ∧
      bp.ProcessBlock args = some (some b, none) ∧
      b.Size = (bp.computeBlockSize args.Header args.Body).1 ∧
      b.MiniBlocks = (bp.miniBlocksHandler args.Header args.Body).1 ∧
      b.NotarizedBlocksHashes = (utility.HexSliceToByteSlice args.NotarizedHeadersHashes).1 ∧
      b.Proposer = expectedProposer args.SignersIndexes ∧
      b.ShardID = int32 args.Header.methods.GetShardID ∧
      b.EpochStartInfo = getEpochStartInfo args.Header) := by
  unfold blockProcessor.ProcessBlock
  rw [getProposerIndex_eq]
  generalize bp.computeBlockSize args.Header args.Body = size
  generalize bp.miniBlocksHandler args.Header args.Body = mbs
  generalize utility.HexSliceToByteSlice args.NotarizedHeadersHashes = hex
  obtain ⟨size, _ | e1⟩ := size
  · obtain ⟨mbs, _ | e2⟩ := mbs
    · obtain ⟨hex, _ | e3⟩ := hex
      · right; right; right
        refine ⟨_, rfl, rfl, rfl, rfl, ?_⟩
        simp only [and_self]
      · right; right; left
        exact ⟨e3, rfl, rfl, rfl, rfl⟩
    · right; left
      exact ⟨e2, rfl, rfl, rfl⟩
  · left
    exact ⟨e1, rfl, rfl⟩

/-- C24: `ProcessBlock` reads the proposer without ever indexing `SignersIndexes` out of
bounds (it never panics): it ends with an error or with a block, and the `Proposer` of the
block is `int64(SignersIndexes[0])` when there are signers and the default `ProposerIndex`,
which is 0, when `SignersIndexes` is nil or empty. -/
theorem ProcessBlock_Proposer (bp : blockProcessor) (args : indexer.ArgsSaveBlockData) :
    getProposerIndex args.SignersIndexes = some (expectedProposer args.SignersIndexes) ∧
    ((∃ err, bp.ProcessBlock args = some (none, some err)) ∨
      (∃ b, bp.ProcessBlock args = some (some b, none) ∧
        b.Proposer = expectedProposer args.SignersIndexes)) ∧
    expectedProposer none = ProposerIndex ∧ expectedProposer (some []) = ProposerIndex ∧
    ProposerIndex = 0 := by
  refine ⟨getProposerIndex_eq _, ?_, rfl, rfl, rfl⟩
  rcases ProcessBlock_cases bp args with ⟨e, _, h⟩ | ⟨e, _, _, h⟩ | ⟨e, _, _, _, h⟩ |
    ⟨b, _, _, _, h, _, _, _, hp, _⟩
  · exact Or.inl ⟨e, h⟩
  · exact Or.inl ⟨e, h⟩
  · exact Or.inl ⟨e, h⟩
  · exact Or.inr ⟨b, h, hp⟩

theorem ProcessBlock_Proposer_witness :
    (∃ b, sampleBlockProcessor.ProcessBlock (sampleArgs sampleHeader) = some (some b, none) ∧
      b.Proposer = 1) ∧
    getProposerIndex (sampleArgs sampleHeader).SignersIndexes = some 1 :=
  ⟨⟨_, rfl, rfl⟩, (ProcessBlock_Proposer sampleBlockProcessor (sampleArgs sampleHeader)).1⟩

/-- C25: `ProcessBlock` returns a nil block together with the first failure in this order:
the error of the marshaller on the header, the error of the marshaller on the body, the error
of the mini block handler, the error of decoding `NotarizedHeadersHashes`; when none of them
fails it returns a block and a nil error, and the `Size` of the block is
`len(marshal(header)) + len(marshal(body))`, converted to `int64`. -/
theorem ProcessBlock_first_failure (bp : blockProcessor) (args : indexer.ArgsSaveBlockData) :
    (∀ hb e, bp.marshaller (.header args.Header) = (hb, some e) →
      bp.ProcessBlock args = some (none, some e)) ∧
    (∀ hb bb e, bp.marshaller (.header args.Header) = (hb, none) →
      bp.marshaller (.body args.Body) = (bb, some e) →
      bp.ProcessBlock args = some (none, some e)) ∧
    (∀ hb bb mbs e, bp.marshaller (.header args.Header) = (hb, none) →
      bp.marshaller (.body args.Body) = (bb, none) →
      bp.miniBlocksHandler args.Header args.Body = (mbs, some e) →
      bp.ProcessBlock args = some (none, some e)) ∧
    (∀ hb bb mbs out e, bp.marshaller (.header args.Header) = (hb, none) →
      bp.marshaller (.body args.Body) = (bb, none) →
      bp.miniBlocksHandler args.Header args.Body = (mbs, none) →
      utility.HexSliceToByteSlice args.NotarizedHeadersHashes = (out, some e) →
      bp.ProcessBlock args = some (none, some e)) ∧
    (∀ hb bb mbs out, bp.marshaller (.header args.Header) = (hb, none) →
      bp.marshaller (.body args.Body) = (bb, none) →
      bp.miniBlocksHandler args.Header args.Body = (mbs, none) →
      utility.HexSliceToByteSlice args.NotarizedHeadersHashes = (out, none) →
      ∃ b, bp.ProcessBlock args = some (some b, none) ∧
        b.Size = int64 (hb.length + bb.length) ∧
        (hb.length + bb.length < 2 ^ 63 → b.Size = ((hb.length + bb.length : Nat) : Int))) := by
  refine ⟨?_, ?_, ?_, ?_, ?_⟩
  · intro hb e h1
    simp only [blockProcessor.ProcessBlock, blockProcessor.computeBlockSize, h1]
  · intro hb bb e h1 h2
    simp only [blockProcessor.ProcessBlock, blockProcessor.computeBlockSize, h1, h2]
  · intro hb bb mbs e h1 h2 h3
    simp only [blockProcessor.ProcessBlock, blockProcessor.computeBlockSize, h1, h2, h3]
  · intro hb bb mbs out e h1 h2 h3 h4
    simp only [blockProcessor.ProcessBlock, blockProcessor.computeBlockSize, h1, h2, h3, h4]
  · intro hb bb mbs out h1 h2 h3 h4
    simp only [blockProcessor.ProcessBlock, blockProcessor.computeBlockSize, h1, h2, h3, h4,
      getProposerIndex_eq]
    refine ⟨_, rfl, ?_, ?_⟩
    · simp only
    · intro hlt
      simp only
      rw [int64_eq _ (by omega), if_pos hlt]

theorem ProcessBlock_first_failure_witness :
    sampleBlockProcessor.marshaller (.header (sampleArgs sampleHeader).Header)
      = ([1, 2, 3], none) ∧
    sampleBlockProcessor.marshaller (.body (sampleArgs sampleHeader).Body) = ([4, 5], none) ∧
    ∃ b, sampleBlockProcessor.ProcessBlock (sampleArgs sampleHeader) = some (some b, none) ∧
      b.Size = int64 ([1, 2, 3].length + [4, 5].length) ∧
      ([1, 2, 3].length + [4, 5].length < 2 ^ 63 →
        b.Size = (([1, 2, 3].length + [4, 5].length : Nat) : Int)) :=
  ⟨rfl, rfl, (ProcessBlock_first_failure sampleBlockProcessor (sampleArgs sampleHeader)).2.2.2.2
    [1, 2, 3] [4, 5] none (some [[10], [31]]) rfl rfl rfl (by decide)⟩

theorem getEpochStartInfo_ne_none (header : data.HeaderHandler) :
    getEpochStartInfo header ≠ none ↔
      header.methods.GetShardID = core.MetachainShardId ∧ header.isMetaBlock = true ∧
        header.methods.IsStartOfEpochBlock = true := by
  unfold getEpochStartInfo
  cases header with
  | other methods =>
    simp [data.HeaderHandler.isMetaBlock]
  | MetaBlock methods economics =>
    by_cases h1 : methods.GetShardID = core.MetachainShardId <;>
      cases h2 : methods.IsStartOfEpochBlock <;>
      simp [data.HeaderHandler.isMetaBlock, data.HeaderHandler.methods, h1, h2]

theorem getEpochStartInfo_fields (header : data.HeaderHandler) (info : schema.EpochStartInfo)
    (h : getEpochStartInfo header = some info) :
    ∃ economics, header.economics = some economics ∧
      info.TotalSupply = utility.GetBytes economics.TotalSupply ∧
      info.TotalToDistribute = utility.GetBytes economics.TotalToDistribute ∧
      info.TotalNewlyMinted = utility.GetBytes economics.TotalNewlyMinted ∧
      info.RewardsPerBlock = utility.GetBytes economics.RewardsPerBlock ∧
      info.RewardsForProtocolSustainability =
        utility.GetBytes economics.RewardsForProtocolSustainability ∧
      info.NodePrice = utility.GetBytes economics.NodePrice ∧
      info.PrevEpochStartRound = int32 economics.PrevEpochStartRound ∧
      info.PrevEpochStartHash = economics.PrevEpochStartHash := by
  unfold getEpochStartInfo at h
  cases header with
  | other methods => simp at h
  | MetaBlock methods economics =>
    refine ⟨economics, rfl, ?_⟩
    split_ifs at h with h1
    cases h2 : methods.IsStartOfEpochBlock
    · simp [h2] at h
    · simp only [h2, Bool.not_true, Bool.false_eq_true, if_false, Option.some.injEq] at h
      subst h
      simp only [and_self]

/-- C26: the `EpochStartInfo` of a block that `ProcessBlock` produces is non-nil if and only
if the shard ID of the header is the metachain shard ID, the header is a `*MetaBlock`, and the
header is a start-of-epoch block; when it is non-nil, its six amounts are `GetBytes` of the
fields of the economics of the meta block, `PrevEpochStartRound` is the value of the economics
converted to `int32`, and `PrevEpochStartHash` is the one of the economics. -/
theorem ProcessBlock_EpochStartInfo (bp : blockProcessor) (args : indexer.ArgsSaveBlockData)
    (b : schema.Block) (h : bp.ProcessBlock args = some (some b, none)) :
    (b.EpochStartInfo ≠ none ↔
      args.Header.methods.GetShardID = core.MetachainShardId ∧ args.Header.isMetaBlock = true ∧
        args.Header.methods.IsStartOfEpochBlock = true) ∧
    ∀ info, b.EpochStartInfo = some info →
      ∃ economics, args.Header.economics = some economics ∧
        info.TotalSupply = utility.GetBytes economics.TotalSupply ∧
        info.TotalToDistribute = utility.GetBytes economics.TotalToDistribute ∧
        info.TotalNewlyMinted = utility.GetBytes economics.TotalNewlyMinted ∧
        info.RewardsPerBlock = utility.GetBytes economics.RewardsPerBlock ∧
        info.RewardsForProtocolSustainability =
          utility.GetBytes economics.RewardsForProtocolSustainability ∧
        info.NodePrice = utility.GetBytes economics.NodePrice ∧
        info.PrevEpochStartRound = int32 economics.PrevEpochStartRound ∧
        info.PrevEpochStartHash = economics.PrevEpochStartHash := by
  have hinfo : b.EpochStartInfo = getEpochStartInfo args.Header := by
    rcases ProcessBlock_cases bp args with ⟨e, _, h'⟩ | ⟨e, _, _, h'⟩ | ⟨e, _, _, _, h'⟩ |
      ⟨b', _, _, _, h', _, _, _, _, _, hi⟩
    · rw [h] at h'; simp at h'
    · rw [h] at h'; simp at h'
    · rw [h] at h'; simp at h'
    · rw [h] at h'
      simp only [Option.some.injEq, Prod.mk.injEq, and_true] at h'
      rw [h']; exact hi
  rw [hinfo]
  exact ⟨getEpochStartInfo_ne_none _, fun info hi => getEpochStartInfo_fields _ info hi⟩

theorem ProcessBlock_EpochStartInfo_witness :
    ∃ b, sampleBlockProcessor.ProcessBlock (sampleArgs sampleMetaBlock) = some (some b, none) ∧
      (b.EpochStartInfo ≠ none ↔
        (sampleArgs sampleMetaBlock).Header.methods.GetShardID = core.MetachainShardId ∧
          (sampleArgs sampleMetaBlock).Header.isMetaBlock = true ∧
          (sampleArgs sampleMetaBlock).Header.methods.IsStartOfEpochBlock = true) ∧
      ∃ info, b.EpochStartInfo = some info ∧ info.NodePrice = [10] ∧
        info.PrevEpochStartRound = 11 := by
  refine ⟨_, rfl, ?_, _, rfl, by decide, by decide⟩
  exact (ProcessBlock_EpochStartInfo sampleBlockProcessor (sampleArgs sampleMetaBlock) _ rfl).1

/-! ## Packages `miniblocks` and `transactions` -/

theorem processMiniBlock_eq (mbp : miniBlocksProcessor) (header : data.HeaderHandler)
    (mb : moaBlock.MiniBlock) :
    (match mbp.processMiniBlock mb header with
      | .ok m => some m
      | .error _ => none) =
      (hashOf mbp.marshaller mbp.hasher mb).map (expectedMiniBlock header mb) := by
  unfold miniBlocksProcessor.processMiniBlock hashOf expectedMiniBlock
  cases core.CalculateHash mbp.marshaller mbp.hasher (.miniBlock mb) <;> rfl

theorem processAll_eq (mbp : miniBlocksProcessor) (header : data.HeaderHandler)
    (mbs : List moaBlock.MiniBlock) :
    ∀ acc, mbp.processAll header mbs acc =
      acc ++ mbs.filterMap fun mb =>
        (hashOf mbp.marshaller mbp.hasher mb).map (expectedMiniBlock header mb) := by
  induction mbs with
  | nil => intro acc; simp [miniBlocksProcessor.processAll]
  | cons mb rest ih =>
    intro acc
    have h := processMiniBlock_eq mbp header mb
    unfold miniBlocksProcessor.processAll
    cases hp : mbp.processMiniBlock mb header with
    | error e =>
      rw [hp] at h
      simp only at h
      rw [ih, List.filterMap_cons, ← h]
    | ok m =>
      rw [hp] at h
      simp only at h
      simp only [ih, List.filterMap_cons, ← h, List.append_assoc, List.singleton_append]

/-- C27: for a body of type `*block.Body`, `ProcessMiniBlocks` returns a nil error and a list
that has, in the order of the body, exactly one entry for each mini block whose hash
computation succeeds, and none for the others; the entry has the computed hash, the
`TxHashes`, the shard IDs and the `Type` of the mini block, and the time stamp of the
header. -/
theorem ProcessMiniBlocks_spec (mbp : miniBlocksProcessor) (header : data.HeaderHandler)
    (body : moaBlock.Body) :
    mbp.ProcessMiniBlocks header (.Body body) =
      (some (body.MiniBlocks.filterMap fun mb =>
        (hashOf mbp.marshaller mbp.hasher mb).map fun hash =>
          { Hash := hash
            TxHashes := mb.TxHashes
            SenderShardID := int32 mb.SenderShardID
            ReceiverShardID := int32 mb.ReceiverShardID
            Type_ := mb.Type_
            Timestamp := int64 header.methods.GetTimeStamp }), none) := by
  unfold miniBlocksProcessor.ProcessMiniBlocks
  simp only [processAll_eq, List.nil_append]
  rfl

/-- C28: `ProcessTransactions` and `ProcessMiniBlocks` return a nil result and
`ErrBlockBodyAssertion` whenever the body handler is not a `*block.Body`, a nil body included,
and they return a nil error, so not `ErrBlockBodyAssertion`, when it is one. -/
theorem body_assertion (mbp : miniBlocksProcessor) (txp : transactionProcessor)
    (header : data.HeaderHandler) (headerHash : Bytes) (pool : indexer.Pool)
    (body : data.BodyHandler) :
    (body.isBody = false →
      mbp.ProcessMiniBlocks header body = (none, some ErrBlockBodyAssertion) ∧
      txp.ProcessTransactions header headerHash body pool
        = (none, some ErrBlockBodyAssertion)) ∧
    (body.isBody = true →
      (mbp.ProcessMiniBlocks header body).2 = none ∧
      (txp.ProcessTransactions header headerHash body pool).2 = none ∧
      (mbp.ProcessMiniBlocks header body).2 ≠ some ErrBlockBodyAssertion ∧
      (txp.ProcessTransactions header headerHash body pool).2 ≠ some ErrBlockBodyAssertion) ∧
    data.BodyHandler.nil.isBody = false := by
  refine ⟨?_, ?_, rfl⟩
  · intro h
    cases body with
    | Body b => simp [data.BodyHandler.isBody] at h
    | nil => exact ⟨rfl, rfl⟩
    | other => exact ⟨rfl, rfl⟩
  · intro h
    cases body with
    | Body b =>
      simp [miniBlocksProcessor.ProcessMiniBlocks, transactionProcessor.ProcessTransactions]
    | nil => simp [data.BodyHandler.isBody] at h
    | other => simp [data.BodyHandler.isBody] at h

theorem body_assertion_witness :
    (sampleMiniBlocksProcessor.ProcessMiniBlocks sampleHeader .nil
        = (none, some ErrBlockBodyAssertion) ∧
      sampleTransactionProcessor.ProcessTransactions sampleHeader [9] .nil samplePool
        = (none, some ErrBlockBodyAssertion)) ∧
    ((sampleMiniBlocksProcessor.ProcessMiniBlocks sampleHeader (.Body sampleBody)).2 = none ∧
      (sampleTransactionProcessor.ProcessTransactions sampleHeader [9] (.Body sampleBody)
        samplePool).2 = none ∧
      (sampleMiniBlocksProcessor.ProcessMiniBlocks sampleHeader (.Body sampleBody)).2
        ≠ some ErrBlockBodyAssertion ∧
      (sampleTransactionProcessor.ProcessTransactions sampleHeader [9] (.Body sampleBody)
        samplePool).2 ≠ some ErrBlockBodyAssertion) :=
  ⟨(body_assertion sampleMiniBlocksProcessor sampleTransactionProcessor sampleHeader [9]
      samplePool .nil).1 rfl,
    (body_assertion sampleMiniBlocksProcessor sampleTransactionProcessor sampleHeader [9]
      samplePool (.Body sampleBody)).2.1 rfl⟩

theorem getRelevantTxPool_eq (mb : moaBlock.MiniBlock) (pool : indexer.Pool) :
    getRelevantTxPoolBasedOnMBType mb pool = selectedPool pool mb.Type_ := rfl

theorem processTransaction_isSome (txp : transactionProcessor) (tx : data.TransactionHandler)
    (txHash miniBlockHash blockHash : Bytes) (mb : moaBlock.MiniBlock)
    (header : data.HeaderHandler) (mbType : Int) (hsel : mbType = moaBlock.TxBlock ∨
      mbType = moaBlock.RewardsBlock ∨ mbType = moaBlock.InvalidBlock) :
    (txp.processTransaction tx txHash miniBlockHash blockHash mb header mbType).isSome
      = matchesType mbType tx := by
  unfold transactionProcessor.processTransaction
  rcases hsel with h | h | h <;> subst h <;> cases tx <;>
    simp [transactionProcessor.processNormalTransaction,
      transactionProcessor.processRewardTransaction, matchesType, moaBlock.TxBlock,
      moaBlock.RewardsBlock, moaBlock.InvalidBlock]

theorem processTransaction_fields (txp : transactionProcessor) (tx : data.TransactionHandler)
    (txHash miniBlockHash blockHash : Bytes) (mb : moaBlock.MiniBlock)
    (header : data.HeaderHandler) (mbType : Int) (t : schema.Transaction)
    (h : txp.processTransaction tx txHash miniBlockHash blockHash mb header mbType = some t) :
    t.Hash = txHash ∧ t.MiniBlockHash = miniBlockHash ∧ t.BlockHash = blockHash ∧
      t.SenderShard = int32 mb.SenderShardID ∧ t.ReceiverShard = int32 mb.ReceiverShardID := by
  unfold transactionProcessor.processTransaction at h
  split_ifs at h <;> cases tx <;>
    simp only [transactionProcessor.processNormalTransaction,
      transactionProcessor.processRewardTransaction, Option.some.injEq, reduceCtorEq] at h <;>
    subst h <;> simp only [and_self]

theorem processHashes_eq (txp : transactionProcessor) (transactions : TxMap)
    (miniBlockHash blockHash : Bytes) (mb : moaBlock.MiniBlock) (header : data.HeaderHandler)
    (mbType : Int) (hashes : List Bytes) :
    ∀ acc, txp.processHashes transactions miniBlockHash blockHash mb header mbType hashes acc =
      acc ++ hashes.filterMap fun txHash =>
        (transactions.lookup txHash).bind fun tx =>
          txp.processTransaction tx txHash miniBlockHash blockHash mb header mbType := by
  induction hashes with
  | nil => intro acc; simp [transactionProcessor.processHashes]
  | cons txHash rest ih =>
    intro acc
    unfold transactionProcessor.processHashes
    cases hl : transactions.lookup txHash with
    | none => simp only [ih, List.filterMap_cons, hl, Option.none_bind]
    | some tx =>
      cases hp : txp.processTransaction tx txHash miniBlockHash blockHash mb header mbType with
      | none => simp only [ih, List.filterMap_cons, hl, Option.some_bind, hp]
      | some t =>
        simp only [ih, List.filterMap_cons, hl, Option.some_bind, hp, List.append_assoc,
          List.singleton_append]

theorem processMiniBlocks_eq (txp : transactionProcessor) (header : data.HeaderHandler)
    (headerHash : Bytes) (pool : indexer.Pool) (mbs : List moaBlock.MiniBlock) :
    ∀ acc, txp.processMiniBlocks header headerHash pool mbs acc =
      acc ++ (mbs.map (txp.contribution header headerHash pool)).flatten := by
  induction mbs with
  | nil => intro acc; simp [transactionProcessor.processMiniBlocks]
  | cons mb rest ih =>
    intro acc
    unfold transactionProcessor.processMiniBlocks
    cases hp : getRelevantTxPoolBasedOnMBType mb pool with
    | none =>
      have hc : txp.contribution header headerHash pool mb = [] := by
        simp only [transactionProcessor.contribution, hp]
      simp only [ih, List.map_cons, List.flatten_cons, hc, List.nil_append]
    | some currPool =>
      cases hq : txp.processTxsFromMiniBlock currPool mb header headerHash mb.Type_ with
      | error e =>
        have hc : txp.contribution header headerHash pool mb = [] := by
          simp only [transactionProcessor.contribution, hp, hq]
        simp only [hq, ih, List.map_cons, List.flatten_cons, hc, List.nil_append]
      | ok txs =>
        have hc : txp.contribution header headerHash pool mb = txs := by
          simp only [transactionProcessor.contribution, hp, hq]
        simp only [hq, ih, List.map_cons, List.flatten_cons, hc, List.append_assoc]

theorem ProcessTransactions_eq (txp : transactionProcessor) (header : data.HeaderHandler)
    (headerHash : Bytes) (body : moaBlock.Body) (pool : indexer.Pool) :
    txp.ProcessTransactions header headerHash (.Body body) pool =
      (some (body.MiniBlocks.map (txp.contribution header headerHash pool)).flatten, none) := by
  unfold transactionProcessor.ProcessTransactions
  simp only [processMiniBlocks_eq, List.nil_append]

theorem map_filterMap_eq_filter {α β : Type} (f : α → Option β) (g : β → α) (l : List α)
    (h : ∀ x t, f x = some t → g t = x) :
    (l.filterMap f).map g = l.filter fun x => (f x).isSome := by
  induction l with
  | nil => rfl
  | cons x rest ih =>
    cases hx : f x with
    | none => simp [List.filterMap_cons, List.filter_cons, hx, ih]
    | some t => simp [List.filterMap_cons, List.filter_cons, hx, ih, h x t hx]

theorem map_filterMap_eq_map {α β γ : Type} (f : α → Option β) (g : β → γ) (k : α → γ)
    (l : List α) (h : ∀ x ∈ l, ∃ t, f x = some t ∧ g t = k x) :
    (l.filterMap f).map g = l.map k := by
  induction l with
  | nil => rfl
  | cons x rest ih =>
    obtain ⟨t, ht, hg⟩ := h x (List.mem_cons_self _ _)
    have ih' := ih fun y hy => h y (List.mem_cons_of_mem _ hy)
    simp [List.filterMap_cons, ht, hg, ih']

theorem selectedPool_some (pool : indexer.Pool) (mbType : Int) (cp : TxMap)
    (h : selectedPool pool mbType = some cp) :
    mbType = moaBlock.TxBlock ∨ mbType = moaBlock.RewardsBlock ∨
      mbType = moaBlock.InvalidBlock := by
  unfold selectedPool at h
  split_ifs at h with h1 h2 h3
  · exact Or.inl h1
  · exact Or.inr (Or.inl h2)
  · exact Or.inr (Or.inr h3)

theorem contribution_eq (txp : transactionProcessor) (header : data.HeaderHandler)
    (headerHash : Bytes) (pool : indexer.Pool) (mb : moaBlock.MiniBlock) :
    txp.contribution header headerHash pool mb =
      match selectedPool pool mb.Type_, hashOf txp.marshaller txp.hasher mb with
      | some currPool, some miniBlockHash =>
        mb.TxHashes.filterMap fun txHash =>
          (currPool.lookup txHash).bind fun tx =>
            txp.processTransaction tx txHash miniBlockHash headerHash mb header mb.Type_
      | _, _ => [] := by
  unfold transactionProcessor.contribution transactionProcessor.processTxsFromMiniBlock hashOf
  rw [getRelevantTxPool_eq]
  cases selectedPool pool mb.Type_ with
  | none => rfl
  | some currPool =>
    cases core.CalculateHash txp.marshaller txp.hasher (.miniBlock mb) with
    | error e => rfl
    | ok miniBlockHash => simp only [processHashes_eq, List.nil_append]

theorem skipped_of_no_pool (txp : transactionProcessor) (pool : indexer.Pool)
    (mb : moaBlock.MiniBlock) (txHash : Bytes) (h : selectedPool pool mb.Type_ = none) :
    skipped txp pool mb txHash = true := by
  simp [skipped, selectedEntry, h]

theorem skipped_of_no_hash (txp : transactionProcessor) (pool : indexer.Pool)
    (mb : moaBlock.MiniBlock) (txHash : Bytes) (h : hashOf txp.marshaller txp.hasher mb = none) :
    skipped txp pool mb txHash = true := by
  simp [skipped, h]

theorem not_skipped_eq (txp : transactionProcessor) (header : data.HeaderHandler)
    (headerHash : Bytes) (pool : indexer.Pool) (mb : moaBlock.MiniBlock) (txHash : Bytes)
    (currPool : TxMap) (miniBlockHash : Bytes) (hsel : selectedPool pool mb.Type_ = some currPool)
    (hhash : hashOf txp.marshaller txp.hasher mb = some miniBlockHash) :
    ((currPool.lookup txHash).bind fun tx =>
        txp.processTransaction tx txHash miniBlockHash headerHash mb header mb.Type_).isSome
      = !skipped txp pool mb txHash := by
  have htype := selectedPool_some pool mb.Type_ currPool hsel
  have hother : otherType mb = false := by
    unfold otherType
    rcases htype with h | h | h <;> simp [h, moaBlock.TxBlock, moaBlock.RewardsBlock,
      moaBlock.InvalidBlock]
  cases hl : currPool.lookup txHash with
  | none => simp [skipped, selectedEntry, hsel, hl]
  | some tx =>
    simp only [Option.some_bind, processTransaction_isSome _ _ _ _ _ _ _ _ htype]
    cases hm : matchesType mb.Type_ tx <;>
      simp [skipped, selectedEntry, hsel, hl, hother, hhash, hm]

theorem contribution_hashes (txp : transactionProcessor) (header : data.HeaderHandler)
    (headerHash : Bytes) (pool : indexer.Pool) (mb : moaBlock.MiniBlock) :
    (txp.contribution header headerHash pool mb).map (fun t => t.Hash) =
      mb.TxHashes.filter fun txHash => !skipped txp pool mb txHash := by
  rw [contribution_eq]
  cases hsel : selectedPool pool mb.Type_ with
  | none =>
    simp only [List.map_nil]
    symm
    rw [List.filter_eq_nil_iff]
    intro txHash _
    simp [skipped_of_no_pool txp pool mb txHash hsel]
  | some currPool =>
    cases hhash : hashOf txp.marshaller txp.hasher mb with
    | none =>
      simp only [List.map_nil]
      symm
      rw [List.filter_eq_nil_iff]
      intro txHash _
      simp [skipped_of_no_hash txp pool mb txHash hhash]
    | some miniBlockHash =>
      simp only
      rw [map_filterMap_eq_filter]
      · apply List.filter_congr
        intro txHash _
        exact not_skipped_eq txp header headerHash pool mb txHash currPool miniBlockHash hsel
          hhash
      · intro txHash t ht
        cases hl : currPool.lookup txHash with
        | none => simp [hl] at ht
        | some tx =>
          simp only [hl, Option.some_bind] at ht
          exact (processTransaction_fields _ _ _ _ _ _ _ _ _ ht).1

/-- C30: for a `*block.Body`, `ProcessTransactions` returns a nil error, and the hashes of its
output are, in order, the transaction hashes of the mini blocks that are not skipped; skipped
are: a hash absent from the pool that the type of the mini block selects, a hash whose pool
entry has a concrete type that does not match the type of the mini block, every hash of a
mini block of another type, and every hash of a mini block whose hash computation fails. -/
theorem ProcessTransactions_skips (txp : transactionProcessor) (header : data.HeaderHandler)
    (headerHash : Bytes) (body : moaBlock.Body) (pool : indexer.Pool) :
    ∃ out, txp.ProcessTransactions header headerHash (.Body body) pool = (some out, none) ∧
      out.map (fun t => t.Hash) =
        (body.MiniBlocks.map fun mb =>
          mb.TxHashes.filter fun txHash => !skipped txp pool mb txHash).flatten ∧
      ∀ mb txHash,
        (selectedEntry pool mb txHash = none → skipped txp pool mb txHash = true) ∧
        (∀ tx, selectedEntry pool mb txHash = some tx → matchesType mb.Type_ tx = false →
          skipped txp pool mb txHash = true) ∧
        (otherType mb = true → skipped txp pool mb txHash = true) ∧
        (hashOf txp.marshaller txp.hasher mb = none → skipped txp pool mb txHash = true) := by
  refine ⟨_, ProcessTransactions_eq txp header headerHash body pool, ?_, ?_⟩
  · rw [List.map_flatten, List.map_map]
    congr 1
    apply List.map_congr_left
    intro mb _
    exact contribution_hashes txp header headerHash pool mb
  · intro mb txHash
    refine ⟨?_, ?_, ?_, ?_⟩
    · intro h; simp [skipped, h]
    · intro tx h hm; simp [skipped, h, hm]
    · intro h; simp [skipped, h]
    · intro h; simp [skipped, h]

theorem ProcessTransactions_skips_witness :
    ∃ out, pickyTransactionProcessor.ProcessTransactions sampleHeader [9] (.Body sampleBody)
        samplePool = (some out, none) ∧
      out.map (fun t => t.Hash) = [[122]] ∧
      skipped pickyTransactionProcessor samplePool
        { TxHashes := [[120], [121]], ReceiverShardID := 1, SenderShardID := 2,
          Type_ := moaBlock.TxBlock } [120] = true := by
  obtain ⟨out, h, hmap, hskip⟩ :=
    ProcessTransactions_skips pickyTransactionProcessor sampleHeader [9] sampleBody samplePool
  exact ⟨out, h, by rw [hmap]; decide, (hskip _ _).2.2.2 (by decide)⟩

theorem contribution_carries (txp : transactionProcessor) (header : data.HeaderHandler)
    (headerHash : Bytes) (pool : indexer.Pool) (mb : moaBlock.MiniBlock) :
    ∀ t ∈ txp.contribution header headerHash pool mb, carriesMiniBlock txp mb t := by
  intro t ht
  rw [contribution_eq] at ht
  cases hsel : selectedPool pool mb.Type_ with
  | none => simp [hsel] at ht
  | some currPool =>
    cases hhash : hashOf txp.marshaller txp.hasher mb with
    | none => simp [hsel, hhash] at ht
    | some miniBlockHash =>
      simp only [hsel, hhash, List.mem_filterMap] at ht
      obtain ⟨txHash, _, hf⟩ := ht
      cases hl : currPool.lookup txHash with
      | none => simp [hl] at hf
      | some tx =>
        simp only [hl, Option.some_bind] at hf
        have hfields := processTransaction_fields _ _ _ _ _ _ _ _ _ hf
        exact ⟨by rw [hfields.2.1]; exact hhash, hfields.2.2.2.1, hfields.2.2.2.2⟩

theorem contribution_all_present (txp : transactionProcessor) (header : data.HeaderHandler)
    (headerHash : Bytes) (pool : indexer.Pool) (mb : moaBlock.MiniBlock)
    (hhash : mb.TxHashes ≠ [] → hashOf txp.marshaller txp.hasher mb ≠ none)
    (hpresent : ∀ txHash ∈ mb.TxHashes, present pool mb txHash = true) :
    (txp.contribution header headerHash pool mb).map (fun t => t.Hash) = mb.TxHashes := by
  rw [contribution_hashes]
  rw [List.filter_eq_self]
  intro txHash hmem
  have hne : mb.TxHashes ≠ [] := List.ne_nil_of_mem hmem
  have hp := hpresent txHash hmem
  unfold present at hp
  cases hs : selectedEntry pool mb txHash with
  | none => simp [hs] at hp
  | some tx =>
    simp only [hs] at hp
    have hsel : ∃ currPool, selectedPool pool mb.Type_ = some currPool := by
      unfold selectedEntry at hs
      cases hsp : selectedPool pool mb.Type_ with
      | none => simp [hsp] at hs
      | some currPool => exact ⟨currPool, rfl⟩
    obtain ⟨currPool, hsel⟩ := hsel
    have htype := selectedPool_some pool mb.Type_ currPool hsel
    have hother : otherType mb = false := by
      unfold otherType
      rcases htype with h | h | h <;> simp [h, moaBlock.TxBlock, moaBlock.RewardsBlock,
        moaBlock.InvalidBlock]
    have hh := hhash hne
    simp [skipped, hs, hp, hother, hh]

/-- C29, as amended: the output of `ProcessTransactions` is the concatenation, in the order of
`body.MiniBlocks`, of the processed transactions of each mini block, which follow the order
of its `TxHashes` and carry its hash and shard IDs; so when the hash computation succeeds for
every mini block that has transactions, and every hash is present in the relevant pool with
the matching type, the hashes of the output are exactly the hashes of the mini blocks in that
flattened order. -/
theorem ProcessTransactions_order (txp : transactionProcessor) (header : data.HeaderHandler)
    (headerHash : Bytes) (body : moaBlock.Body) (pool : indexer.Pool) :
    ∃ parts : List (List schema.Transaction),
      txp.ProcessTransactions header headerHash (.Body body) pool
        = (some parts.flatten, none) ∧
      List.Forall₂ (fun mb part =>
          (part.map fun t => t.Hash).Sublist mb.TxHashes ∧
            ∀ t ∈ part, carriesMiniBlock txp mb t)
        body.MiniBlocks parts ∧
      ((∀ mb ∈ body.MiniBlocks, mb.TxHashes ≠ [] →
          hashOf txp.marshaller txp.hasher mb ≠ none) →
        (∀ mb ∈ body.MiniBlocks, ∀ txHash ∈ mb.TxHashes, present pool mb txHash = true) →
        List.Forall₂ (fun mb part => (part.map fun t => t.Hash) = mb.TxHashes)
            body.MiniBlocks parts ∧
          parts.flatten.map (fun t => t.Hash)
            = (body.MiniBlocks.map fun mb => mb.TxHashes).flatten) := by
  refine ⟨body.MiniBlocks.map (txp.contribution header headerHash pool),
    ProcessTransactions_eq txp header headerHash body pool, ?_, ?_⟩
  · rw [List.forall₂_map_right_iff, List.forall₂_same]
    intro mb _
    refine ⟨?_, contribution_carries txp header headerHash pool mb⟩
    rw [contribution_hashes]
    exact List.filter_sublist _
  · intro hhash hpresent
    have hparts : ∀ mb ∈ body.MiniBlocks,
        (txp.contribution header headerHash pool mb).map (fun t => t.Hash) = mb.TxHashes :=
      fun mb hmb =>
        contribution_all_present txp header headerHash pool mb (hhash mb hmb) (hpresent mb hmb)
    refine ⟨?_, ?_⟩
    · rw [List.forall₂_map_right_iff, List.forall₂_same]
      exact hparts
    · rw [List.map_flatten, List.map_map]
      congr 1
      apply List.map_congr_left
      intro mb hmb
      exact hparts mb hmb

theorem ProcessTransactions_order_witness :
    ∃ parts : List (List schema.Transaction),
      sampleTransactionProcessor.ProcessTransactions sampleHeader [9] (.Body sampleBody)
        samplePool = (some parts.flatten, none) ∧
      parts.flatten.map (fun t => t.Hash) = [[120], [121], [122]] := by
  obtain ⟨parts, h, _, hall⟩ :=
    ProcessTransactions_order sampleTransactionProcessor sampleHeader [9] sampleBody samplePool
  exact ⟨parts, h, (hall (by decide) (by decide)).2⟩

/-- C29, counterexample: every hash of the body is present in the relevant pool with the
matching type, but the hash computation fails for the first mini block, and the first output
transaction has the hash of the second mini block. -/
theorem ProcessTransactions_hash_failure_shifts :
    (∀ mb ∈ sampleBody.MiniBlocks, ∀ txHash ∈ mb.TxHashes,
      present samplePool mb txHash = true) ∧
    (pickyTransactionProcessor.ProcessTransactions sampleHeader [9] (.Body sampleBody)
      samplePool).1.map (List.map fun t => t.Hash) = some [[122]] ∧
    (sampleBody.MiniBlocks.map fun mb => mb.TxHashes).flatten = [[120], [121], [122]] := by
  decide

/-! ## Signs and zero in `GetBytes`, and the shard ID of a block -/

/-- C38: `GetBytes` is insensitive to sign and cannot tell nil from zero: `GetBytes(v)` is
`GetBytes(-v)` for every big integer `v`; `GetBytes(v)` is the empty slice if and only if `v`
is nil or zero; and for every other `v` the first byte of `GetBytes(v)` is not zero. -/
theorem GetBytes_sign_and_zero :
    (∀ v : Int, utility.GetBytes (some v) = utility.GetBytes (some (-v))) ∧
    (∀ val : Option Int, utility.GetBytes val = [] ↔ val = none ∨ val = some 0) ∧
    (∀ v : Int, v ≠ 0 →
      ∃ first rest, utility.GetBytes (some v) = first :: rest ∧ first ≠ 0) := by
  refine ⟨?_, ?_, ?_⟩
  · intro v
    simp only [utility.GetBytes, Bytes_eq_digits, Int.natAbs_neg]
  · intro val
    cases val with
    | none => simp only [true_or, iff_true]; decide
    | some v =>
      simp only [utility.GetBytes, Bytes_eq_digits, List.reverse_eq_nil_iff,
        Nat.digits_eq_nil_iff_eq_zero, Int.natAbs_eq_zero, reduceCtorEq, false_or,
        Option.some.injEq]
  · intro v hv
    have hmin := Bytes_minimal v
    have hne : big.Int.Bytes v ≠ [] := by
      rw [Bytes_eq_digits]
      simp only [ne_eq, List.reverse_eq_nil_iff, Nat.digits_eq_nil_iff_eq_zero,
        Int.natAbs_eq_zero]
      exact hv
    cases hb : big.Int.Bytes v with
    | nil => exact absurd hb hne
    | cons first rest =>
      refine ⟨first, rest, by simp only [utility.GetBytes, hb], ?_⟩
      intro h0
      apply hmin.2.2
      rw [hb, h0]
      rfl

theorem int32_eq (u : Nat) (h : u < 2 ^ 32) :
    int32 u = if u < 2 ^ 31 then (u : Int) else (u : Int) - 2 ^ 32 := by
  unfold int32 Int.bmod
  have h1 : ((u : Int) % ((2 ^ 32 : Nat) : Int)) = (u : Int) := by
    apply Int.emod_eq_of_lt
    · omega
    · push_cast; omega
  simp only [h1]
  have h2 : (((2 ^ 32 : Nat) : Int) + 1) / 2 = 2 ^ 31 := by norm_num
  rw [h2]
  split_ifs with h3 h4 h4
  · rfl
  · exfalso; apply h4; omega
  · exfalso; apply h3; omega
  · push_cast; rfl

/-- C39: `ProcessBlock` converts the unsigned 32-bit shard ID of the header to the signed
32-bit `ShardID` by reinterpretation: `ShardID` is the ID when the ID is below `2 ^ 31` and
the ID minus `2 ^ 32` otherwise, so a block of the metachain shard, of ID 4294967295, is
emitted with `ShardID` equal to `-1`. -/
theorem ProcessBlock_ShardID (bp : blockProcessor) (args : indexer.ArgsSaveBlockData)
    (b : schema.Block) (h : bp.ProcessBlock args = some (some b, none))
    (hid : args.Header.methods.GetShardID < 2 ^ 32) :
    b.ShardID = (if args.Header.methods.GetShardID < 2 ^ 31
      then (args.Header.methods.GetShardID : Int)
      else (args.Header.methods.GetShardID : Int) - 2 ^ 32) ∧
    (args.Header.methods.GetShardID = core.MetachainShardId → b.ShardID = -1) ∧
    core.MetachainShardId = 4294967295 := by
  have hshard : b.ShardID = int32 args.Header.methods.GetShardID := by
    rcases ProcessBlock_cases bp args with ⟨e, _, h'⟩ | ⟨e, _, _, h'⟩ | ⟨e, _, _, _, h'⟩ |
      ⟨b', _, _, _, h', _, _, _, _, hs, _⟩
    · rw [h] at h'; simp at h'
    · rw [h] at h'; simp at h'
    · rw [h] at h'; simp at h'
    · rw [h] at h'
      simp only [Option.some.injEq, Prod.mk.injEq, and_true] at h'
      rw [h']; exact hs
  refine ⟨?_, ?_, rfl⟩
  · rw [hshard, int32_eq _ hid]
  · intro hmeta
    rw [hshard, hmeta]
    decide

theorem ProcessBlock_ShardID_witness :
    ∃ b, sampleBlockProcessor.ProcessBlock (sampleArgs sampleMetaBlock) = some (some b, none) ∧
      (sampleArgs sampleMetaBlock).Header.methods.GetShardID = 4294967295 ∧
      b.ShardID = -1 := by
  refine ⟨_, rfl, rfl, ?_⟩
  exact ((ProcessBlock_ShardID sampleBlockProcessor (sampleArgs sampleMetaBlock) _ rfl
    (by decide)).2.1 rfl)

/-! ## Reward transactions -/

theorem processTransaction_reward (txp : transactionProcessor) (tx : data.TransactionHandler)
    (txHash miniBlockHash blockHash : Bytes) (mb : moaBlock.MiniBlock)
    (header : data.HeaderHandler) (t : schema.Transaction)
    (h : txp.processTransaction tx txHash miniBlockHash blockHash mb header
      moaBlock.RewardsBlock = some t) :
    ∃ r, tx = .RewardTx r ∧ isProcessedReward txp r txHash t := by
  unfold transactionProcessor.processTransaction at h
  rw [if_neg (by decide), if_pos rfl] at h
  cases tx with
  | RewardTx r =>
    simp only [transactionProcessor.processRewardTransaction, Option.some.injEq] at h
    subst h
    refine ⟨r, rfl, ?_⟩
    simp only [isProcessedReward, and_self]
  | Transaction _ => simp [transactionProcessor.processRewardTransaction] at h
  | SmartContractResult _ => simp [transactionProcessor.processRewardTransaction] at h
  | Receipt _ => simp [transactionProcessor.processRewardTransaction] at h
  | other => simp [transactionProcessor.processRewardTransaction] at h

theorem contribution_reward (txp : transactionProcessor) (header : data.HeaderHandler)
    (headerHash : Bytes) (pool : indexer.Pool) (mb : moaBlock.MiniBlock)
    (hmb : mb.Type_ = moaBlock.RewardsBlock) :
    ∀ t ∈ txp.contribution header headerHash pool mb,
      ∃ txHash ∈ mb.TxHashes, ∃ r,
        selectedEntry pool mb txHash = some (.RewardTx r) ∧ isProcessedReward txp r txHash t := by
  intro t ht
  rw [contribution_eq] at ht
  cases hsel : selectedPool pool mb.Type_ with
  | none => simp [hsel] at ht
  | some currPool =>
    cases hhash : hashOf txp.marshaller txp.hasher mb with
    | none => simp [hsel, hhash] at ht
    | some miniBlockHash =>
      simp only [hsel, hhash, List.mem_filterMap] at ht
      obtain ⟨txHash, hmem, hf⟩ := ht
      cases hl : currPool.lookup txHash with
      | none => simp [hl] at hf
      | some tx =>
        simp only [hl, Option.some_bind] at hf
        rw [hmb] at hf
        obtain ⟨r, hr, hfields⟩ := processTransaction_reward _ _ _ _ _ _ _ _ hf
        refine ⟨txHash, hmem, r, ?_, hfields⟩
        simp only [selectedEntry, hsel, Option.some_bind, hl, hr]

/-- C31: every transaction in the output of `ProcessTransactions` that comes from a
`RewardsBlock` mini block is the processed form of a reward transaction of the `Rewards` pool
under one of the hashes of the mini block: `Nonce`, `GasPrice` and `GasLimit` are 0, `Data`,
`Signature`, `SenderUserName` and `ReceiverUserName` are nil, `Sender` is
`MetaChainShardAddress()`, `Round` is the round of the reward transaction itself, `Value` is
`GetBytes` of its value and `Receiver` is its encoded receiver address. -/
theorem ProcessTransactions_rewards (txp : transactionProcessor) (header : data.HeaderHandler)
    (headerHash : Bytes) (body : moaBlock.Body) (pool : indexer.Pool) :
    ∃ parts : List (List schema.Transaction),
      txp.ProcessTransactions header headerHash (.Body body) pool
        = (some parts.flatten, none) ∧
      List.Forall₂ (fun mb part => mb.Type_ = moaBlock.RewardsBlock →
          ∀ t ∈ part, ∃ txHash ∈ mb.TxHashes, ∃ r,
            selectedEntry pool mb txHash = some (.RewardTx r) ∧
            t.Hash = txHash ∧ t.Nonce = 0 ∧ t.GasPrice = 0 ∧ t.GasLimit = 0 ∧
            t.Data = none ∧ t.Signature = none ∧ t.SenderUserName = none ∧
            t.ReceiverUserName = none ∧ t.Sender = utility.MetaChainShardAddress ∧
            t.Round = int64 r.Round ∧ t.Value = utility.GetBytes r.Value ∧
            t.Receiver = utility.EncodePubKey txp.pubKeyConverter r.RcvAddr)
        body.MiniBlocks parts := by
  refine ⟨body.MiniBlocks.map (txp.contribution header headerHash pool),
    ProcessTransactions_eq txp header headerHash body pool, ?_⟩
  rw [List.forall₂_map_right_iff, List.forall₂_same]
  intro mb _ hmb t ht
  exact contribution_reward txp header headerHash pool mb hmb t ht

theorem ProcessTransactions_rewards_witness :
    ∃ t, sampleTransactionProcessor.ProcessTransactions sampleHeader [9] (.Body rewardBody)
        samplePool = (some [t], none) ∧
      sampleHeader.methods.GetRound = 4 ∧
      ∃ r, selectedEntry samplePool
          { TxHashes := [[122]], ReceiverShardID := 3, SenderShardID := 4,
            Type_ := moaBlock.RewardsBlock } [122] = some (.RewardTx r) ∧
        r.Round = 9 ∧ t.Round = int64 r.Round ∧ t.Nonce = 0 ∧ t.Data = none ∧
        t.Sender = utility.MetaChainShardAddress := by
  obtain ⟨parts, h, hall⟩ :=
    ProcessTransactions_rewards sampleTransactionProcessor sampleHeader [9] rewardBody samplePool
  have hval : ∃ t, sampleTransactionProcessor.ProcessTransactions sampleHeader [9]
      (.Body rewardBody) samplePool = (some [t], none) := ⟨_, rfl⟩
  obtain ⟨t, ht⟩ := hval
  rw [ht] at h
  simp only [Prod.mk.injEq, Option.some.injEq, and_true] at h
  simp only [rewardBody] at hall
  cases hall with
  | cons hpart hrest =>
  cases hrest
  simp only [List.flatten_cons, List.flatten_nil, List.append_nil] at h
  subst h
  obtain ⟨txHash, hmem, r, hsel, _, hn, _, _, hd, _, _, _, hs, hr, _, _⟩ :=
    hpart rfl t (List.mem_singleton.mpr rfl)
  simp only [List.mem_singleton] at hmem
  subst hmem
  refine ⟨t, ht, rfl, r, hsel, ?_, hr, hn, hd, hs⟩
  have hsel' : selectedEntry samplePool
      { TxHashes := [[122]], ReceiverShardID := 3, SenderShardID := 4,
        Type_ := moaBlock.RewardsBlock } [122] = some (.RewardTx sampleRewardTx) := by decide
  rw [hsel'] at hsel
  simp only [Option.some.injEq, data.TransactionHandler.RewardTx.injEq] at hsel
  rw [← hsel]
  rfl

/-! ## Smart contract results and logs -/

theorem mem_mapEntries (transactions : TxMap) :
    ∀ k v, (k, v) ∈ mapEntries transactions ↔ transactions.lookup k = some v := by
  induction transactions with
  | nil => intro k v; simp [mapEntries]
  | cons entry rest ih =>
    intro k v
    obtain ⟨k0, v0⟩ := entry
    simp only [mapEntries, List.mem_cons, List.mem_filter, Prod.mk.injEq, ih, List.lookup_cons]
    by_cases hk : k = k0
    · subst hk
      simp [eq_comm]
    · have hb : (k == k0) = false := by simpa using hk
      simp [hk, hb]

theorem mapEntries_nodup (transactions : TxMap) :
    ((mapEntries transactions).map Prod.fst).Nodup := by
  induction transactions with
  | nil => simp [mapEntries]
  | cons entry rest ih =>
    simp only [mapEntries, List.map_cons, List.nodup_cons, List.mem_map, List.mem_filter]
    refine ⟨?_, ?_⟩
    · rintro ⟨e, ⟨_, hne⟩, he⟩
      simp [he] at hne
    · exact ih.sublist ((List.filter_sublist _).map _)

theorem scr_processAll_eq (scp : scProcessor) (timeStamp : Nat) (entries : TxMap) :
    ∀ acc, scp.processAll timeStamp entries acc =
      acc ++ entries.filterMap fun e => scp.processSCResult e.2 e.1 timeStamp := by
  induction entries with
  | nil => intro acc; simp [scProcessor.processAll]
  | cons entry rest ih =>
    intro acc
    obtain ⟨k, v⟩ := entry
    unfold scProcessor.processAll
    cases hp : scp.processSCResult v k timeStamp with
    | none => simp only [ih, List.filterMap_cons, hp]
    | some res =>
      simp only [ih, List.filterMap_cons, hp, List.append_assoc, List.singleton_append]

theorem processSCResult_isSome (scp : scProcessor) (tx : data.TransactionHandler)
    (txHash : Bytes) (timeStamp : Nat) :
    (scp.processSCResult tx txHash timeStamp).isSome = isSCR tx := by
  cases tx <;> rfl

theorem processSCResult_fields (scp : scProcessor) (entry : Bytes × data.TransactionHandler)
    (timeStamp : Nat) (res : schema.SCResult)
    (h : scp.processSCResult entry.2 entry.1 timeStamp = some res) :
    isProcessedSCR scp timeStamp entry res := by
  obtain ⟨k, v⟩ := entry
  cases v with
  | SmartContractResult scr =>
    simp only [scProcessor.processSCResult, Option.some.injEq] at h
    subst h
    refine ⟨scr, rfl, ?_⟩
    simp only [true_and]
    cases hr : scr.RelayerAddr with
    | nil => simp
    | cons b rest => simp
  | Transaction _ => simp [scProcessor.processSCResult] at h
  | RewardTx _ => simp [scProcessor.processSCResult] at h
  | Receipt _ => simp [scProcessor.processSCResult] at h
  | other => simp [scProcessor.processSCResult] at h

theorem forall₂_filter_filterMap {α β : Type} (R : α → β → Prop) (p : α → Bool)
    (f : α → Option β) (l : List α) (hp : ∀ x, (f x).isSome = p x)
    (hR : ∀ x y, f x = some y → R x y) :
    List.Forall₂ R (l.filter p) (l.filterMap f) := by
  induction l with
  | nil => simp
  | cons x rest ih =>
    cases hx : f x with
    | none =>
      have hpx : p x = false := by rw [← hp, hx]; rfl
      simp only [List.filter_cons, hpx, List.filterMap_cons, hx]
      exact ih
    | some y =>
      have hpx : p x = true := by rw [← hp, hx]; rfl
      simp only [List.filter_cons, hpx, List.filterMap_cons, hx, if_true]
      exact List.Forall₂.cons (hR x y hx) ih

/-- C32: `ProcessSCRs` returns exactly one result for each pool entry whose value is a
`*SmartContractResult` and nothing for the entries of any other kind; each result has `Hash`
equal to the bytes of the key of the entry, `Timestamp` equal to the given time stamp,
`Sender` and `Receiver` equal to the encoded addresses, and `RelayerAddr` equal to the
encoded relayer address when that address is not empty and nil when it is; the results come in
the order in which the entries of the map are visited, whichever it is. -/
theorem ProcessSCRs_spec (scp : scProcessor) (transactions : TxMap) (timeStamp : Nat) :
    List.Forall₂ (isProcessedSCR scp timeStamp)
      ((mapEntries transactions).filter fun e => isSCR e.2)
      (scp.ProcessSCRs (some transactions) timeStamp) ∧
    ((mapEntries transactions).map Prod.fst).Nodup ∧
    (∀ k v, (k, v) ∈ mapEntries transactions ↔ transactions.lookup k = some v) ∧
    (∀ other : TxMap, (mapEntries transactions).Perm (mapEntries other) →
      (scp.ProcessSCRs (some transactions) timeStamp).Perm
        (scp.ProcessSCRs (some other) timeStamp)) ∧
    scp.ProcessSCRs none timeStamp = [] := by
  refine ⟨?_, mapEntries_nodup transactions, mem_mapEntries transactions, ?_, rfl⟩
  · simp only [scProcessor.ProcessSCRs, scr_processAll_eq, List.nil_append]
    apply forall₂_filter_filterMap
    · intro e
      exact processSCResult_isSome scp e.2 e.1 timeStamp
    · intro e res h
      exact processSCResult_fields scp e timeStamp res h
  · intro other hperm
    simp only [scProcessor.ProcessSCRs, scr_processAll_eq, List.nil_append]
    exact hperm.filterMap _

theorem ProcessSCRs_spec_witness :
    (mapEntries sampleScrs).filter (fun e => isSCR e.2) =
      [([1], .SmartContractResult sampleSCR),
        ([3], .SmartContractResult { sampleSCR with RelayerAddr := [] })] ∧
    ∃ first second, sampleSCProcessor.ProcessSCRs (some sampleScrs) 5 = [first, second] ∧
      first.Hash = [1] ∧ first.RelayerAddr = some [109, 111, 97, 49, 7] ∧
      second.Hash = [3] ∧ second.RelayerAddr = none := by
  have h := (ProcessSCRs_spec sampleSCProcessor sampleScrs 5).1
  have hl : (mapEntries sampleScrs).filter (fun e => isSCR e.2) =
      [([1], .SmartContractResult sampleSCR),
        ([3], .SmartContractResult { sampleSCR with RelayerAddr := [] })] := by decide
  refine ⟨hl, ?_⟩
  rw [hl] at h
  cases h with
  | cons h1 hrest =>
  cases hrest with
  | cons h2 hnil =>
  cases hnil
  obtain ⟨scr1, e1, hh1, _, _, _, hr1⟩ := h1
  obtain ⟨scr2, e2, hh2, _, _, _, hr2⟩ := h2
  simp only [data.TransactionHandler.SmartContractResult.injEq] at e1 e2
  subst e1
  subst e2
  exact ⟨_, _, rfl, hh1, by rw [hr1]; decide, hh2, by rw [hr2]; decide⟩

theorem eventsLoop_eq (lp : logsProcessor) (events : List (Option data.EventHandler)) :
    ∀ acc, lp.eventsLoop events acc =
      acc ++ events.filterMap (Option.map (expectedEvent lp)) := by
  induction events with
  | nil => intro acc; simp [logsProcessor.eventsLoop]
  | cons event rest ih =>
    intro acc
    unfold logsProcessor.eventsLoop
    cases event with
    | none => simp only [logsProcessor.processEvent, ih, List.filterMap_cons, Option.map_none']
    | some ev =>
      simp only [logsProcessor.processEvent, ih, List.filterMap_cons, Option.map_some',
        List.append_assoc, List.singleton_append, expectedEvent]

theorem processLog_eq (lp : logsProcessor) (logData : Option data.LogData) :
    lp.processLog logData = expectedLog lp logData := by
  cases logData with
  | none => rfl
  | some l =>
    obtain ⟨handler, txHash⟩ := l
    cases handler with
    | none => rfl
    | some h =>
      simp only [logsProcessor.processLog, logsProcessor.processEvents, eventsLoop_eq,
        List.nil_append, expectedLog]

theorem logsLoop_eq (lp : logsProcessor) (logs : List (Option data.LogData)) :
    ∀ acc, lp.logsLoop logs acc = acc ++ logs.filterMap (expectedLog lp) := by
  induction logs with
  | nil => intro acc; simp [logsProcessor.logsLoop]
  | cons l rest ih =>
    intro acc
    unfold logsProcessor.logsLoop
    rw [processLog_eq]
    cases hl : expectedLog lp l with
    | none => simp only [ih, List.filterMap_cons, hl]
    | some res =>
      simp only [ih, List.filterMap_cons, hl, List.append_assoc, List.singleton_append]

/-- C33: `ProcessLogs` returns, in the order of the input, exactly one log for each input
entry that is not nil and has a non-nil `LogHandler`, and nothing for the other entries; each
log has `ID` equal to the bytes of `TxHash`, `Address` equal to the encoded address of the
log, and `Events` equal to, in order, the non-nil events of the log, each with its address
encoded and `Identifier`, `Topics` and `Data` copied. -/
theorem ProcessLogs_spec (lp : logsProcessor) (logs : List (Option data.LogData)) :
    lp.ProcessLogs logs =
      logs.filterMap fun entry =>
        entry.bind fun logData =>
          logData.LogHandler.map fun logHandler =>
            { ID := logData.TxHash
              Address := utility.EncodePubKey lp.pubKeyConverter logHandler.GetAddress
              Events := logHandler.GetLogEvents.filterMap fun event =>
                event.map fun ev =>
                  { Address := utility.EncodePubKey lp.pubKeyConverter ev.GetAddress
                    Identifier := ev.GetIdentifier
                    Topics := ev.GetTopics
                    Data := ev.GetData } } := by
  simp only [logsProcessor.ProcessLogs, logsLoop_eq, List.nil_append]
  congr 1
  funext entry
  cases entry with
  | none => rfl
  | some l =>
    obtain ⟨handler, txHash⟩ := l
    cases handler with
    | none => rfl
    | some h => rfl

/-! ## Package `accounts` -/

theorem mem_setInsert (s : List Bytes) (a b : Bytes) : b ∈ setInsert s a ↔ b ∈ s ∨ b = a := by
  unfold setInsert
  split_ifs with h
  · constructor
    · exact Or.inl
    · rintro (h1 | h1)
      · exact h1
      · rw [h1]; exact h
  · simp

theorem nodup_setInsert (s : List Bytes) (a : Bytes) (h : s.Nodup) : (setInsert s a).Nodup := by
  unfold setInsert
  split_ifs with ha
  · exact h
  · rw [List.nodup_append]
    refine ⟨h, List.nodup_singleton a, ?_⟩
    intro x hx hy
    simp only [List.mem_singleton] at hy
    subst hy
    exact ha hx

theorem mem_addAddress (ap : accountsProcessor) (s : List Bytes) (a b : Bytes) :
    b ∈ ap.addAddressIfInSelfShard s a ↔
      b ∈ s ∨ (b = a ∧ a ≠ utility.MetaChainShardAddress ∧
        ap.shardCoordinator.ComputeId a = ap.shardCoordinator.SelfId) := by
  unfold accountsProcessor.addAddressIfInSelfShard
  split_ifs with h1 h2
  · simp [h1]
  · simp [mem_setInsert, h1, h2.symm]
  · have h3 : ¬ ap.shardCoordinator.ComputeId a = ap.shardCoordinator.SelfId :=
      fun e => h2 e.symm
    simp [h1, h3]

theorem nodup_addAddress (ap : accountsProcessor) (s : List Bytes) (a : Bytes) (h : s.Nodup) :
    (ap.addAddressIfInSelfShard s a).Nodup := by
  unfold accountsProcessor.addAddressIfInSelfShard
  split_ifs
  · exact h
  · exact nodup_setInsert s a h
  · exact h

theorem mem_foldl_addAddress (ap : accountsProcessor) (l : List Bytes) :
    ∀ (s : List Bytes) (b : Bytes), b ∈ l.foldl ap.addAddressIfInSelfShard s ↔
      b ∈ s ∨ (b ∈ l ∧ b ≠ utility.MetaChainShardAddress ∧
        ap.shardCoordinator.ComputeId b = ap.shardCoordinator.SelfId) := by
  induction l with
  | nil => intro s b; simp
  | cons a rest ih =>
    intro s b
    rw [List.foldl_cons, ih, mem_addAddress]
    constructor
    · rintro ((h | ⟨rfl, h1, h2⟩) | ⟨h, h1, h2⟩)
      · exact Or.inl h
      · exact Or.inr ⟨List.mem_cons_self _ _, h1, h2⟩
      · exact Or.inr ⟨List.mem_cons_of_mem _ h, h1, h2⟩
    · rintro (h | ⟨h, h1, h2⟩)
      · exact Or.inl (Or.inl h)
      · rcases List.mem_cons.mp h with rfl | h
        · exact Or.inl (Or.inr ⟨rfl, h1, h2⟩)
        · exact Or.inr ⟨h, h1, h2⟩

theorem nodup_foldl_addAddress (ap : accountsProcessor) (l : List Bytes) :
    ∀ s : List Bytes, s.Nodup → (l.foldl ap.addAddressIfInSelfShard s).Nodup := by
  induction l with
  | nil => intro s h; exact h
  | cons a rest ih => intro s h; exact ih _ (nodup_addAddress ap s a h)

theorem foldl_pairs {α : Type} (ap : accountsProcessor) (f g : α → Bytes) (l : List α) :
    ∀ s : List Bytes,
      l.foldl (fun addresses x =>
          ap.addAddressIfInSelfShard (ap.addAddressIfInSelfShard addresses (f x)) (g x)) s =
        (l.flatMap fun x => [f x, g x]).foldl ap.addAddressIfInSelfShard s := by
  induction l with
  | nil => intro s; rfl
  | cons x rest ih =>
    intro s
    simp only [List.foldl_cons, ih, List.flatMap_cons, List.foldl_append, List.foldl_nil]

theorem getAllAddresses_eq (ap : accountsProcessor) (processedTxs : List schema.Transaction)
    (processedSCRs : List schema.SCResult) (processedReceipts : List schema.Receipt) :
    ap.getAllAddresses processedTxs processedSCRs processedReceipts =
      (inputAddresses processedTxs processedSCRs processedReceipts).foldl
        ap.addAddressIfInSelfShard [] := by
  unfold accountsProcessor.getAllAddresses inputAddresses
  simp only [foldl_pairs, List.foldl_append, List.foldl_map]

theorem mem_getAllAddresses (ap : accountsProcessor) (processedTxs : List schema.Transaction)
    (processedSCRs : List schema.SCResult) (processedReceipts : List schema.Receipt)
    (a : Bytes) :
    a ∈ ap.getAllAddresses processedTxs processedSCRs processedReceipts ↔
      eligible ap processedTxs processedSCRs processedReceipts a := by
  rw [getAllAddresses_eq, mem_foldl_addAddress]
  simp [eligible]

theorem nodup_getAllAddresses (ap : accountsProcessor)
    (processedTxs : List schema.Transaction) (processedSCRs : List schema.SCResult)
    (processedReceipts : List schema.Receipt) :
    (ap.getAllAddresses processedTxs processedSCRs processedReceipts).Nodup := by
  rw [getAllAddresses_eq]
  exact nodup_foldl_addAddress ap _ [] List.nodup_nil

theorem processAccount_address (ap : accountsProcessor) (history : List AccountCall)
    (a : Bytes) (u : schema.AccountBalanceUpdate)
    (h : (ap.processAccount history a).1 = .ok u) : u.Address = a := by
  unfold accountsProcessor.processAccount at h
  generalize ap.pubKeyConverter.Decode a = d at h
  obtain ⟨pubKey, err⟩ := d
  cases err with
  | some e => simp at h
  | none =>
    simp only at h
    generalize ap.accounts.LoadAccount history pubKey = la at h
    obtain ⟨acc, err⟩ := la
    cases err with
    | some e => simp at h
    | none =>
      cases acc with
      | UserAccount account =>
        simp only [Except.ok.injEq] at h
        rw [← h]
      | nil => simp at h
      | other => simp at h

theorem processAccount_history (ap : accountsProcessor) (history : List AccountCall)
    (a : Bytes) : history <:+ (ap.processAccount history a).2 := by
  unfold accountsProcessor.processAccount
  generalize ap.pubKeyConverter.Decode a = d
  obtain ⟨pubKey, err⟩ := d
  cases err with
  | some e => exact List.suffix_refl _
  | none =>
    simp only
    generalize ap.accounts.LoadAccount history pubKey = la
    obtain ⟨acc, err⟩ := la
    cases err with
    | some e => exact List.suffix_cons _ _
    | none =>
      cases acc with
      | UserAccount account =>
        exact ⟨[_, _, _], rfl⟩
      | nil => exact List.suffix_cons _ _
      | other => exact List.suffix_cons _ _

/-- One round of the loop of `ProcessAccounts`. -/
theorem accountsLoop_cons (ap : accountsProcessor) (a : Bytes) (rest : List Bytes)
    (acc : List schema.AccountBalanceUpdate) (history : List AccountCall) :
    ap.accountsLoop (a :: rest) acc history =
      ap.accountsLoop rest
        (acc ++ (match (ap.processAccount history a).1 with
          | .ok u => [u]
          | .error _ => []))
        (ap.processAccount history a).2 := by
  rw [accountsProcessor.accountsLoop]
  generalize ap.processAccount history a = x
  obtain ⟨r, h⟩ := x
  cases r <;> simp

theorem accountsLoop_acc (ap : accountsProcessor) (l : List Bytes) :
    ∀ (acc : List schema.AccountBalanceUpdate) (history : List AccountCall),
      ap.accountsLoop l acc history =
        (acc ++ (ap.accountsLoop l [] history).1, (ap.accountsLoop l [] history).2) := by
  induction l with
  | nil => intro acc history; simp [accountsProcessor.accountsLoop]
  | cons a rest ih =>
    intro acc history
    rw [accountsLoop_cons, accountsLoop_cons, ih, ih ([] ++ _)]
    simp

theorem accountsLoop_append (ap : accountsProcessor) (l1 l2 : List Bytes) :
    ∀ (acc : List schema.AccountBalanceUpdate) (history : List AccountCall),
      ap.accountsLoop (l1 ++ l2) acc history =
        ap.accountsLoop l2 (ap.accountsLoop l1 acc history).1
          (ap.accountsLoop l1 acc history).2 := by
  induction l1 with
  | nil => intro acc history; simp [accountsProcessor.accountsLoop]
  | cons a rest ih =>
    intro acc history
    rw [List.cons_append, accountsLoop_cons, accountsLoop_cons, ih]

theorem accountsLoop_history (ap : accountsProcessor) (l : List Bytes) :
    ∀ (acc : List schema.AccountBalanceUpdate) (history : List AccountCall),
      history <:+ (ap.accountsLoop l acc history).2 := by
  induction l with
  | nil => intro acc history; exact List.suffix_refl _
  | cons a rest ih =>
    intro acc history
    rw [accountsLoop_cons]
    exact (processAccount_history ap history a).trans (ih _ _)

/-- The addresses of the updates of the loop, in their order, are among the visited addresses,
in their order. -/
theorem accountsLoop_sublist (ap : accountsProcessor) (l : List Bytes) :
    ∀ history : List AccountCall,
      ((ap.accountsLoop l [] history).1.map fun u => u.Address).Sublist l := by
  induction l with
  | nil => intro history; simp [accountsProcessor.accountsLoop]
  | cons a rest ih =>
    intro history
    rw [accountsLoop_cons, accountsLoop_acc]
    simp only [List.nil_append, List.map_append]
    cases hp : (ap.processAccount history a).1 with
    | error e =>
      simp only [List.map_nil, List.nil_append]
      exact (ih _).trans (List.sublist_cons_self _ _)
    | ok u =>
      simp only [List.map_cons, List.map_nil, List.singleton_append]
      rw [processAccount_address ap history a u hp]
      exact (ih _).cons₂ _

theorem accountsLoop_address_mem (ap : accountsProcessor) (l : List Bytes)
    (history : List AccountCall) (u : schema.AccountBalanceUpdate)
    (hu : u ∈ (ap.accountsLoop l [] history).1) : u.Address ∈ l :=
  (accountsLoop_sublist ap l history).subset (List.mem_map_of_mem _ hu)

theorem accountsLoop_filter_absent (ap : accountsProcessor) (l : List Bytes)
    (history : List AccountCall) (a : Bytes) (ha : a ∉ l) :
    (ap.accountsLoop l [] history).1.filter (fun u => decide (u.Address = a)) = [] := by
  rw [List.filter_eq_nil_iff]
  intro u hu
  simp only [decide_eq_true_eq]
  intro hua
  exact ha (hua ▸ accountsLoop_address_mem ap l history u hu)

/-- A list without repetition, cut at one of its members. -/
theorem takeWhile_ne_split (l : List Bytes) (a : Bytes) (hmem : a ∈ l) (hnd : l.Nodup) :
    ∃ rest, l = (l.takeWhile fun b => decide (b ≠ a)) ++ a :: rest ∧
      a ∉ (l.takeWhile fun b => decide (b ≠ a)) ∧ a ∉ rest := by
  induction l with
  | nil => simp at hmem
  | cons b tl ih =>
    rw [List.nodup_cons] at hnd
    by_cases hba : b = a
    · subst hba
      exact ⟨tl, by simp [List.takeWhile_cons], by simp [List.takeWhile_cons], hnd.1⟩
    · have hmem' : a ∈ tl := by
        rcases List.mem_cons.mp hmem with h | h
        · exact absurd h.symm hba
        · exact h
      obtain ⟨rest, h1, h2, h3⟩ := ih hmem' hnd.2
      refine ⟨rest, ?_, ?_, h3⟩
      · simp only [List.takeWhile_cons, ne_eq, hba, not_false_eq_true, decide_True, if_true,
          List.cons_append]
        exact congrArg _ h1
      · simp only [List.takeWhile_cons, ne_eq, hba, not_false_eq_true, decide_True, if_true,
          List.mem_cons, not_or]
        exact ⟨fun h => hba h.symm, h2⟩

theorem accountsLoop_split (ap : accountsProcessor) (pre rest : List Bytes) (a : Bytes)
    (history : List AccountCall) :
    (ap.accountsLoop (pre ++ a :: rest) [] history).1 =
      (ap.accountsLoop pre [] history).1 ++
        ((match (ap.processAccount (ap.accountsLoop pre [] history).2 a).1 with
          | .ok u => [u]
          | .error _ => []) ++
        (ap.accountsLoop rest []
          (ap.processAccount (ap.accountsLoop pre [] history).2 a).2).1) := by
  rw [accountsLoop_append, accountsLoop_cons, accountsLoop_acc ap rest]
  simp only [List.append_assoc]

/-- The updates of the loop with the address `a`, a visited address: what the round of `a`
appends, that round beginning with the history `historyBefore`. -/
theorem accountsLoop_filter_member (ap : accountsProcessor) (history : List AccountCall)
    (visit : List Bytes) (a : Bytes) (hmem : a ∈ visit) (hnd : visit.Nodup) :
    (ap.accountsLoop visit [] history).1.filter (fun u => decide (u.Address = a)) =
      match (ap.processAccount (ap.historyBefore history visit a) a).1 with
      | .ok u => [u]
      | .error _ => [] := by
  obtain ⟨rest, h1, h2, h3⟩ := takeWhile_ne_split visit a hmem hnd
  unfold accountsProcessor.historyBefore
  generalize (visit.takeWhile fun b => decide (b ≠ a)) = pre at h1 h2
  subst h1
  rw [accountsLoop_split]
  simp only [List.filter_append, accountsLoop_filter_absent ap pre history a h2,
    accountsLoop_filter_absent ap rest _ a h3, List.nil_append, List.append_nil]
  cases hp : (ap.processAccount (ap.accountsLoop pre [] history).2 a).1 with
  | error e => simp
  | ok u =>
    have := processAccount_address ap _ a u hp
    simp [this]

/-- C34: every update that `ProcessAccounts` returns has an address that occurs as the sender
or the receiver of an input transaction or smart contract result, or as the sender of an
input receipt, that differs from `MetaChainShardAddress()`, and whose shard, by `ComputeId`,
is `SelfId()`; and no two returned updates have the same address.  This holds whatever calls
were made on the accounts before. -/
theorem ProcessAccounts_addresses (ap : accountsProcessor) (history : List AccountCall)
    (processedTxs : List schema.Transaction) (processedSCRs : List schema.SCResult)
    (processedReceipts : List schema.Receipt) :
    (∀ u ∈ (ap.ProcessAccounts history processedTxs processedSCRs processedReceipts).1,
      u.Address ∈ inputAddresses processedTxs processedSCRs processedReceipts ∧
      u.Address ≠ utility.MetaChainShardAddress ∧
      ap.shardCoordinator.ComputeId u.Address = ap.shardCoordinator.SelfId) ∧
    ((ap.ProcessAccounts history processedTxs processedSCRs processedReceipts).1.map
      fun u => u.Address).Nodup := by
  refine ⟨?_, ?_⟩
  · intro u hu
    exact (mem_getAllAddresses ap processedTxs processedSCRs processedReceipts u.Address).mp
      (accountsLoop_address_mem ap _ history u hu)
  · exact (nodup_getAllAddresses ap processedTxs processedSCRs processedReceipts).sublist
      (accountsLoop_sublist ap _ history)

theorem ProcessAccounts_addresses_witness :
    (sampleAccountsProcessor.ProcessAccounts [] sampleProcessedTxs [] []).1.map
        (fun u => u.Address) = [[65], [69]] ∧
    inputAddresses sampleProcessedTxs [] []
      = [[65], [66], [67], [65], [68], [69], utility.MetaChainShardAddress, [65]] ∧
    ((sampleAccountsProcessor.ProcessAccounts [] sampleProcessedTxs [] []).1.map
      fun u => u.Address).Nodup :=
  ⟨by decide, by decide, (ProcessAccounts_addresses sampleAccountsProcessor [] sampleProcessedTxs
    [] []).2⟩

theorem processAccount_ok (ap : accountsProcessor) (before : List AccountCall)
    (address pubKey : Bytes) (account : Nat)
    (hd : ap.pubKeyConverter.Decode address = (pubKey, none))
    (hl : ap.accounts.LoadAccount before pubKey = (.UserAccount account, none)) :
    (ap.processAccount before address).1 =
      .ok { Address := address
            Balance := utility.GetBytes (ap.balanceAt before pubKey account)
            Nonce := int64 (ap.nonceAt before pubKey account) } := by
  simp only [accountsProcessor.processAccount, hd, hl, accountsProcessor.balanceAt,
    accountsProcessor.nonceAt]

/-- An address whose round ends with an error has no update. -/
theorem accountsLoop_no_update (ap : accountsProcessor) (history : List AccountCall)
    (visit : List Bytes) (a : Bytes) (hnd : visit.Nodup) (e : String)
    (he : (ap.processAccount (ap.historyBefore history visit a) a).1 = .error e) :
    ∀ u ∈ (ap.accountsLoop visit [] history).1, u.Address ≠ a := by
  intro u hu hua
  by_cases hmem : a ∈ visit
  · have h := accountsLoop_filter_member ap history visit a hmem hnd
    rw [he] at h
    have hin : u ∈ (ap.accountsLoop visit [] history).1.filter
        (fun u => decide (u.Address = a)) := by
      rw [List.mem_filter]
      exact ⟨hu, by simp [hua]⟩
    rw [h] at hin
    simp at hin
  · exact hmem (hua ▸ accountsLoop_address_mem ap visit history u hu)

/-- C35: `ProcessAccounts` is the loop over the eligible addresses (those that occur in the
inputs, are not the address of the metachain shard and are in the shard of the node), each
visited once, in an order `visit` that the run time picks.  The history when the turn of an
address comes continues the history with which the loop began.  For an eligible address for
which the decoding of the public key succeeds, `LoadAccount`, called at its turn, succeeds
and the loaded account is a user account, the loop returns exactly one update with that
address, with `Balance = GetBytes(balance)` and `Nonce = int64(nonce)`, where `balance` and
`nonce` are what `GetBalance` and `GetNonce` of that account return, called in this order
right after the load.  An address for which one of these steps fails (an error of the
decoding, an error of the loading, a nil account or an account that is not a user account)
has no update, whatever happens to the other addresses. -/
theorem ProcessAccounts_updates (ap : accountsProcessor) (history : List AccountCall)
    (processedTxs : List schema.Transaction) (processedSCRs : List schema.SCResult)
    (processedReceipts : List schema.Receipt) (visit : List Bytes) (address : Bytes)
    (hvisit : visit.Perm (ap.getAllAddresses processedTxs processedSCRs processedReceipts)) :
    ap.ProcessAccounts history processedTxs processedSCRs processedReceipts =
      ap.accountsLoop (ap.getAllAddresses processedTxs processedSCRs processedReceipts) []
        history ∧
    history <:+ ap.historyBefore history visit address ∧
    (eligible ap processedTxs processedSCRs processedReceipts address →
      ∀ pubKey account, ap.pubKeyConverter.Decode address = (pubKey, none) →
        ap.accounts.LoadAccount (ap.historyBefore history visit address) pubKey =
          (.UserAccount account, none) →
        (ap.accountsLoop visit [] history).1.filter (fun u => decide (u.Address = address)) =
          [{ Address := address
             Balance := utility.GetBytes
               (ap.balanceAt (ap.historyBefore history visit address) pubKey account)
             Nonce := int64
               (ap.nonceAt (ap.historyBefore history visit address) pubKey account) }]) ∧
    (∀ pubKey err, ap.pubKeyConverter.Decode address = (pubKey, some err) →
      ∀ u ∈ (ap.accountsLoop visit [] history).1, u.Address ≠ address) ∧
    (∀ pubKey acc err, ap.pubKeyConverter.Decode address = (pubKey, none) →
      ap.accounts.LoadAccount (ap.historyBefore history visit address) pubKey =
        (acc, some err) →
      ∀ u ∈ (ap.accountsLoop visit [] history).1, u.Address ≠ address) ∧
    (∀ pubKey acc, ap.pubKeyConverter.Decode address = (pubKey, none) →
      ap.accounts.LoadAccount (ap.historyBefore history visit address) pubKey = (acc, none) →
      acc = .nil ∨ acc = .other →
      ∀ u ∈ (ap.accountsLoop visit [] history).1, u.Address ≠ address) := by
  have hnd : visit.Nodup :=
    hvisit.nodup_iff.mpr (nodup_getAllAddresses ap processedTxs processedSCRs processedReceipts)
  refine ⟨rfl, accountsLoop_history ap _ [] history, ?_, ?_, ?_, ?_⟩
  · intro hel pubKey account hd hl
    have hmem : address ∈ visit :=
      hvisit.mem_iff.mpr
        ((mem_getAllAddresses ap processedTxs processedSCRs processedReceipts address).mpr hel)
    rw [accountsLoop_filter_member ap history visit address hmem hnd,
      processAccount_ok ap _ address pubKey account hd hl]
  · intro pubKey err hd
    apply accountsLoop_no_update ap history visit address hnd err
    simp only [accountsProcessor.processAccount, hd]
  · intro pubKey acc err hd hl
    apply accountsLoop_no_update ap history visit address hnd err
    simp only [accountsProcessor.processAccount, hd, hl]
  · intro pubKey acc hd hl hacc
    apply accountsLoop_no_update ap history visit address hnd
      ErrCannotCastAccountHandlerToUserAccount
    rcases hacc with h | h <;> subst h <;> simp only [accountsProcessor.processAccount, hd, hl]

/-- C35, witness: as in the tests of the repository, every key loads one account that counts
its calls.  The eligible addresses are visited in the order `[65]`, `[67]`, `[68]`, `[69]`:
the update of `[65]` has balance and nonce 1, the update of `[69]` has balance and nonce 2,
and `[67]`, whose decoding fails, and `[68]`, whose account cannot be loaded, have none.  Were
the addresses visited in the opposite order, the update of `[69]` would have balance and
nonce 1. -/
theorem ProcessAccounts_updates_witness :
    sampleAccountsProcessor.getAllAddresses sampleProcessedTxs [] [] =
      [[65], [67], [68], [69]] ∧
    (sampleAccountsProcessor.ProcessAccounts [] sampleProcessedTxs [] []).1.filter
        (fun u => decide (u.Address = [65])) =
      [{ Address := [65], Balance := utility.GetBytes (some 1), Nonce := 1 }] ∧
    (sampleAccountsProcessor.ProcessAccounts [] sampleProcessedTxs [] []).1.filter
        (fun u => decide (u.Address = [69])) =
      [{ Address := [69], Balance := utility.GetBytes (some 2), Nonce := 2 }] ∧
    (sampleAccountsProcessor.accountsLoop [[69], [68], [67], [65]] [] []).1.filter
        (fun u => decide (u.Address = [69])) =
      [{ Address := [69], Balance := utility.GetBytes (some 1), Nonce := 1 }] ∧
    (∀ u ∈ (sampleAccountsProcessor.ProcessAccounts [] sampleProcessedTxs [] []).1,
      u.Address ≠ [67]) ∧
    (∀ u ∈ (sampleAccountsProcessor.ProcessAccounts [] sampleProcessedTxs [] []).1,
      u.Address ≠ [68]) :=
  ⟨by decide,
    (ProcessAccounts_updates sampleAccountsProcessor [] sampleProcessedTxs [] []
      (sampleAccountsProcessor.getAllAddresses sampleProcessedTxs [] []) [65]
      (List.Perm.refl _)).2.2.1 ⟨by decide, by decide, by decide⟩ [65] 0 rfl rfl,
    (ProcessAccounts_updates sampleAccountsProcessor [] sampleProcessedTxs [] []
      (sampleAccountsProcessor.getAllAddresses sampleProcessedTxs [] []) [69]
      (List.Perm.refl _)).2.2.1 ⟨by decide, by decide, by decide⟩ [69] 0 rfl rfl,
    (ProcessAccounts_updates sampleAccountsProcessor [] sampleProcessedTxs [] []
      [[69], [68], [67], [65]] [69] (by decide)).2.2.1
      ⟨by decide, by decide, by decide⟩ [69] 0 rfl rfl,
    (ProcessAccounts_updates sampleAccountsProcessor [] sampleProcessedTxs [] []
      (sampleAccountsProcessor.getAllAddresses sampleProcessedTxs [] []) [67]
      (List.Perm.refl _)).2.2.2.1 [] "invalid address" rfl,
    (ProcessAccounts_updates sampleAccountsProcessor [] sampleProcessedTxs [] []
      (sampleAccountsProcessor.getAllAddresses sampleProcessedTxs [] []) [68]
      (List.Perm.refl _)).2.2.2.2.1 [68] .nil "load account error" rfl rfl⟩

/-! ## Package `process`: the data processor -/

/-- C40: `ProcessData` returns `(nil, err)` with the error of the block handler if
`ProcessBlock` fails, and then the transaction handler is not invoked; otherwise it returns
`(nil, err)` with the error of the transaction handler if `ProcessTransactions` fails;
otherwise it returns a nil error and a `BlockResult` whose `Block`, `Transactions`,
`SCResults`, `Receipts`, `Logs` and `StateChanges` are the outputs of the block, transaction,
SCR (on `pool.Scrs`), receipt (on `pool.Receipts`), log (on `pool.Logs`) and accounts (on the
three processed lists) handlers, where `pool` is `args.TransactionsPool` when that is not nil
and an empty pool otherwise. -/
theorem ProcessData_spec (dp : dataProcessor) (args : indexer.ArgsSaveBlockData) :
    (∀ block err, dp.blockHandler args = (block, some err) →
      dp.ProcessData args = ((none, some err), [.ProcessBlock]) ∧
      HandlerCall.ProcessTransactions ∉ (dp.ProcessData args).2) ∧
    (∀ block transactions err, dp.blockHandler args = (block, none) →
      dp.transactionHandler args.Header args.HeaderHash args.Body (getPool args)
        = (transactions, some err) →
      (dp.ProcessData args).1 = (none, some err)) ∧
    (∀ block transactions, dp.blockHandler args = (block, none) →
      dp.transactionHandler args.Header args.HeaderHash args.Body (getPool args)
        = (transactions, none) →
      ∃ result, (dp.ProcessData args).1 = (some result, none) ∧
        result.Block = block ∧ result.Transactions = transactions ∧
        result.SCResults = dp.scHandler (getPool args).Scrs args.Header.methods.GetTimeStamp ∧
        result.Receipts =
          dp.receiptHandler (getPool args).Receipts args.Header.methods.GetTimeStamp ∧
        result.Logs = dp.logHandler (getPool args).Logs ∧
        result.StateChanges =
          dp.accountsHandler transactions result.SCResults result.Receipts) ∧
    (∀ pool, args.TransactionsPool = some pool → getPool args = pool) ∧
    (args.TransactionsPool = none →
      getPool args = { Txs := some [], Scrs := some [], Rewards := some [], Invalid := some [],
                       Receipts := some [], Logs := [] }) := by
  refine ⟨?_, ?_, ?_, ?_, ?_⟩
  · intro block err hb
    constructor
    · simp only [dataProcessor.ProcessData, hb]
    · simp [dataProcessor.ProcessData, hb]
  · intro block transactions err hb ht
    simp only [dataProcessor.ProcessData, hb, ht]
  · intro block transactions hb ht
    simp only [dataProcessor.ProcessData, hb, ht]
    refine ⟨_, rfl, ?_⟩
    simp only [and_self]
  · intro pool hp
    simp only [getPool, hp]
  · intro hp
    simp only [getPool, hp, emptyPool]

theorem ProcessData_spec_witness :
    ∃ result, (sampleDataProcessor.ProcessData sampleDataArgs).1 = (some result, none) ∧
      result.Transactions =
        (sampleTransactionProcessor.ProcessTransactions sampleHeader [9] (.Body sampleBody)
          (getPool sampleDataArgs)).1 ∧
      result.Logs = sampleLogsProcessor.ProcessLogs sampleLogs ∧
      result.SCResults = sampleSCProcessor.ProcessSCRs (some sampleScrs) 3 := by
  obtain ⟨result, h, _, ht, hs, _, hl, _⟩ :=
    (ProcessData_spec sampleDataProcessor sampleDataArgs).2.2.1 _ _ rfl rfl
  exact ⟨result, h, ht, hl, hs⟩

/-! ## The initial waits of `sendWithRetrial` and the slots -/

theorem followsSetters_new : covalentIndexer.new.FollowsSetters := by
  simp [covalentIndexer.FollowsSetters, covalentIndexer.new, lastSetWSS, lastSetWSR]

theorem followsSetters_SetWSSender (env : Env) (w : WSConn) (ci : covalentIndexer)
    (h : ci.FollowsSetters) : (ci.SetWSSender env w).FollowsSetters := by
  obtain ⟨server, wss, wsr, m, n, k, t⟩ := ci
  obtain ⟨_, h2, _, h4⟩ := h
  cases wss with
  | none => exact ⟨rfl, h2, fun _ => by simp [covalentIndexer.SetWSSender, lastSetWSS], h4⟩
  | some old =>
    exact ⟨rfl, h2, fun _ => by simp [covalentIndexer.SetWSSender, lastSetWSS], h4⟩

theorem followsSetters_SetWSReceiver (env : Env) (w : WSConn) (ci : covalentIndexer)
    (h : ci.FollowsSetters) : (ci.SetWSReceiver env w).FollowsSetters := by
  obtain ⟨server, wss, wsr, m, n, k, t⟩ := ci
  obtain ⟨h1, _, h3, _⟩ := h
  cases wsr with
  | none => exact ⟨h1, rfl, h3, fun _ => by simp [covalentIndexer.SetWSReceiver, lastSetWSR]⟩
  | some old =>
    exact ⟨h1, rfl, h3, fun _ => by simp [covalentIndexer.SetWSReceiver, lastSetWSR]⟩

theorem followsSetters_Close (env : Env) (ci : covalentIndexer) (h : ci.FollowsSetters) :
    (ci.Close env).2.FollowsSetters := by
  obtain ⟨server, wss, wsr, m, n, k, t⟩ := ci
  obtain ⟨h1, h2, h3, h4⟩ := h
  cases wss <;> cases wsr <;> cases server <;> exact ⟨h1, h2, h3, h4⟩

theorem followsSetters_runCall (env : Env) (ci : covalentIndexer) (x : Call)
    (h : ci.FollowsSetters) : (covalentIndexer.runCall env ci x).FollowsSetters := by
  cases x with
  | SetWSSender w => exact followsSetters_SetWSSender env w ci h
  | SetWSReceiver w => exact followsSetters_SetWSReceiver env w ci h
  | Close => exact followsSetters_Close env ci h

theorem followsSetters_runCalls (env : Env) (calls : List Call) :
    ∀ ci : covalentIndexer, ci.FollowsSetters →
      (calls.foldl (covalentIndexer.runCall env) ci).FollowsSetters := by
  induction calls with
  | nil => intro ci h; exact h
  | cons x rest ih => intro ci h; exact ih _ (followsSetters_runCall env ci x h)

theorem followsSetters_yield (env : Env) (ci : covalentIndexer) (h : ci.FollowsSetters) :
    (ci.yield env).FollowsSetters := by
  have h' := followsSetters_runCalls env (env.arrivals ci.clock) ci h
  simpa [covalentIndexer.yield, covalentIndexer.FollowsSetters] using h'

theorem followsSetters_callGetWSS (env : Env) (ci : covalentIndexer) (h : ci.FollowsSetters) :
    (ci.callGetWSS env).2.FollowsSetters := by
  have h' := followsSetters_yield env ci h
  simpa [covalentIndexer.callGetWSS, covalentIndexer.record, covalentIndexer.FollowsSetters,
    lastSetWSS, lastSetWSR] using h'

theorem followsSetters_callGetWSR (env : Env) (ci : covalentIndexer) (h : ci.FollowsSetters) :
    (ci.callGetWSR env).2.FollowsSetters := by
  have h' := followsSetters_yield env ci h
  simpa [covalentIndexer.callGetWSR, covalentIndexer.record, covalentIndexer.FollowsSetters,
    lastSetWSS, lastSetWSR] using h'

theorem waitForWSSConnection_last (env : Env) (ci s : covalentIndexer) (h : ci.FollowsSetters)
    (hs : ci.waitForWSSConnection env = (true, s)) :
    ∃ wss, lastSetWSS s.trace = some wss ∧ s.getWSS = wss ∧ s.FollowsSetters := by
  have h' := followsSetters_yield env ci h
  simp only [covalentIndexer.waitForWSSConnection] at hs
  split_ifs at hs with h0
  · simp at hs
  simp only [Prod.mk.injEq, true_and] at hs
  subst hs
  obtain ⟨h1, h2, h3, h4⟩ := h'
  have hne := h3 (Nat.pos_of_ne_zero h0)
  cases hl : lastSetWSS (ci.yield env).trace with
  | none => exact absurd hl hne
  | some wss =>
    refine ⟨wss, ?_, ?_, ?_⟩
    · simp only [lastSetWSS, hl]
    · simp only [covalentIndexer.getWSS, h1, hl, Option.getD_some]
    · refine ⟨?_, ?_, ?_, ?_⟩
      · simp only [lastSetWSS, h1]
      · simp only [lastSetWSR, h2]
      · intro _
        simp only [lastSetWSS, hl, ne_eq, reduceCtorEq, not_false_eq_true]
      · intro hpos
        simp only [lastSetWSR]
        exact h4 hpos

theorem waitForWSRConnection_last (env : Env) (ci s : covalentIndexer) (h : ci.FollowsSetters)
    (hs : ci.waitForWSRConnection env = (true, s)) :
    ∃ wsr, lastSetWSR s.trace = some wsr ∧ s.getWSR = wsr ∧ s.FollowsSetters := by
  have h' := followsSetters_yield env ci h
  simp only [covalentIndexer.waitForWSRConnection] at hs
  split_ifs at hs with h0
  · simp at hs
  simp only [Prod.mk.injEq, true_and] at hs
  subst hs
  obtain ⟨h1, h2, h3, h4⟩ := h'
  have hne := h4 (Nat.pos_of_ne_zero h0)
  cases hl : lastSetWSR (ci.yield env).trace with
  | none => exact absurd hl hne
  | some wsr =>
    refine ⟨wsr, ?_, ?_, ?_⟩
    · simp only [lastSetWSR, hl]
    · simp only [covalentIndexer.getWSR, h2, hl, Option.getD_some]
    · refine ⟨?_, ?_, ?_, ?_⟩
      · simp only [lastSetWSS, h1]
      · simp only [lastSetWSR, h2]
      · intro hpos
        simp only [lastSetWSS]
        exact h3 hpos
      · intro _
        simp only [lastSetWSR, hl, ne_eq, reduceCtorEq, not_false_eq_true]

theorem sendWithRetrial_initial_waits (env : Env) (ticks : Nat) (data ackData : Bytes)
    (ci : covalentIndexer) :
    ci.sendWithRetrial env ticks data ackData =
      match (if (ci.callGetWSS env).1 = none then
          (ci.atInitialWait env).waitForWSSConnection env
        else (true, ci.atInitialWait env)) with
      | (false, s) => (.blocked, s)
      | (true, s) =>
        match (if ((ci.callGetWSS env).2.callGetWSR env).1 = none then
            s.waitForWSRConnection env
          else (true, s)) with
        | (false, r) => (.blocked, r)
        | (true, r) => covalentIndexer.retrialLoop env data ackData ticks r := rfl

/-- C36, as amended: when the initial sender wait of `sendWithRetrial` returns, the sender
slot holds what the most recent `SetWSSender` call stored, and at least one such call was
made; so the slot holds a non-nil connection unless that call passed nil.  The same holds of
the initial receiver wait, of `SetWSReceiver` and of the receiver slot, whether it is entered
after the sender wait or without it. -/
theorem initial_waits_return_last_installed (env : Env) (ci : covalentIndexer)
    (h : ci.FollowsSetters) :
    (∀ s, (ci.atInitialWait env).waitForWSSConnection env = (true, s) →
      ∃ wss, lastSetWSS s.trace = some wss ∧ s.getWSS = wss ∧
        (wss ≠ none → s.getWSS ≠ none) ∧
        ∀ r, s.waitForWSRConnection env = (true, r) →
          ∃ wsr, lastSetWSR r.trace = some wsr ∧ r.getWSR = wsr ∧
            (wsr ≠ none → r.getWSR ≠ none)) ∧
    (∀ r, (ci.atInitialWait env).waitForWSRConnection env = (true, r) →
      ∃ wsr, lastSetWSR r.trace = some wsr ∧ r.getWSR = wsr ∧
        (wsr ≠ none → r.getWSR ≠ none)) := by
  have h0 : (ci.atInitialWait env).FollowsSetters :=
    followsSetters_callGetWSR env _ (followsSetters_callGetWSS env ci h)
  refine ⟨?_, ?_⟩
  · intro s hs
    obtain ⟨wss, h1, h2, h3⟩ := waitForWSSConnection_last env _ s h0 hs
    refine ⟨wss, h1, h2, fun hne => by rw [h2]; exact hne, ?_⟩
    intro r hr
    obtain ⟨wsr, h4, h5, _⟩ := waitForWSRConnection_last env s r h3 hr
    exact ⟨wsr, h4, h5, fun hne => by rw [h5]; exact hne⟩
  · intro r hr
    obtain ⟨wsr, h4, h5, _⟩ := waitForWSRConnection_last env _ r h0 hr
    exact ⟨wsr, h4, h5, fun hne => by rw [h5]; exact hne⟩

theorem initial_waits_return_last_installed_witness :
    covalentIndexer.new.FollowsSetters ∧
    ∃ s, (covalentIndexer.new.atInitialWait lateEnv).waitForWSSConnection lateEnv = (true, s) ∧
      ∃ wss, lastSetWSS s.trace = some wss ∧ s.getWSS = wss ∧ (wss ≠ none → s.getWSS ≠ none) ∧
        wss = some 10 := by
  refine ⟨followsSetters_new, _, rfl, ?_⟩
  obtain ⟨wss, h1, h2, h3, _⟩ :=
    (initial_waits_return_last_installed lateEnv covalentIndexer.new followsSetters_new).1 _ rfl
  refine ⟨wss, h1, h2, h3, ?_⟩
  rw [← h2]
  decide

/-- C36, counterexample: `SetWSSender(nil)` is called while `sendWithRetrial` waits for a
sender on a fresh indexer: the initial sender wait returns and the sender slot is nil.  In the
same way `SetWSReceiver(nil)` ends the initial receiver wait with a nil receiver slot. -/
theorem initial_wait_returns_with_nil_slot :
    (covalentIndexer.new.callGetWSS nilSenderEnv).1 = none ∧
    ((covalentIndexer.new.atInitialWait nilSenderEnv).waitForWSSConnection nilSenderEnv).1
      = true ∧
    ((covalentIndexer.new.atInitialWait nilSenderEnv).waitForWSSConnection
      nilSenderEnv).2.getWSS = none ∧
    (((covalentIndexer.new.SetWSSender nilReceiverEnv (some 10)).atInitialWait
      nilReceiverEnv).waitForWSRConnection nilReceiverEnv).1 = true ∧
    (((covalentIndexer.new.SetWSSender nilReceiverEnv (some 10)).atInitialWait
      nilReceiverEnv).waitForWSRConnection nilReceiverEnv).2.getWSR = none := by
  decide

/-- C37: `Close` leaves both connection slots unchanged: after it `getWSS` and `getWSR`
return the same connections as before, which `Close` has closed; so a later replacement
closes the held connection once more, and a later delivery attempt that no other call
precedes reads the same, closed, connections from the slots. -/
theorem Close_keeps_slots (env : Env) (ci : covalentIndexer) :
    (ci.Close env).2.getWSS = ci.getWSS ∧ (ci.Close env).2.getWSR = ci.getWSR ∧
    (∀ c, ci.getWSS = some c →
      0 < closesOf c (ci.Close env).2.trace ∧
      ∀ w, closesOf c ((ci.Close env).2.SetWSSender env w).trace =
        closesOf c (ci.Close env).2.trace + 1) ∧
    (∀ c, ci.getWSR = some c →
      0 < closesOf c (ci.Close env).2.trace ∧
      ∀ w, closesOf c ((ci.Close env).2.SetWSReceiver env w).trace =
        closesOf c (ci.Close env).2.trace + 1) ∧
    (∀ later : Env, later.arrivals (ci.Close env).2.clock = [] →
      ((ci.Close env).2.callGetWSS later).1 = ci.getWSS ∧
      ((ci.Close env).2.callGetWSR later).1 = ci.getWSR) := by
  obtain ⟨server, wss, wsr, m, n, k, t⟩ := ci
  refine ⟨?_, ?_, ?_, ?_, ?_⟩
  · cases wss <;> cases wsr <;> cases server <;> rfl
  · cases wss <;> cases wsr <;> cases server <;> rfl
  · intro c hc
    simp only [covalentIndexer.getWSS] at hc
    subst hc
    cases wsr <;> cases server <;>
      simp [covalentIndexer.Close, covalentIndexer.SetWSSender, covalentIndexer.record,
        covalentIndexer.getWSS, covalentIndexer.getWSR, closesOf_cons]
  · intro c hc
    simp only [covalentIndexer.getWSR] at hc
    subst hc
    cases wss <;> cases server <;>
      simp [covalentIndexer.Close, covalentIndexer.SetWSReceiver, covalentIndexer.record,
        covalentIndexer.getWSS, covalentIndexer.getWSR, closesOf_cons]
  · intro later hl
    have hclock : (covalentIndexer.Close env ⟨server, wss, wsr, m, n, k, t⟩).2.clock = k := by
      cases wss <;> cases wsr <;> cases server <;> rfl
    rw [hclock] at hl
    cases wss <;> cases wsr <;> cases server <;>
      simp [covalentIndexer.Close, covalentIndexer.callGetWSS, covalentIndexer.callGetWSR,
        covalentIndexer.yield, covalentIndexer.record, covalentIndexer.getWSS,
        covalentIndexer.getWSR, hl]

theorem Close_keeps_slots_witness :
    (installedBefore.Close lateEnv).2.getWSS = some 10 ∧
    (installedBefore.Close lateEnv).2.getWSR = some 20 ∧
    0 < closesOf 10 (installedBefore.Close lateEnv).2.trace ∧
    closesOf 10 ((installedBefore.Close lateEnv).2.SetWSSender lateEnv (some 11)).trace =
      closesOf 10 (installedBefore.Close lateEnv).2.trace + 1 :=
  ⟨(Close_keeps_slots lateEnv installedBefore).1, (Close_keeps_slots lateEnv installedBefore).2.1,
    ((Close_keeps_slots lateEnv installedBefore).2.2.1 10 rfl).1,
    ((Close_keeps_slots lateEnv installedBefore).2.2.1 10 rfl).2 (some 11)⟩
end covalent
